import Mathlib

/-!
# Adjacency-constrained RANSAC (object_recognition_tod)

A shallow embedding of `src/common/adjacency_ransac.{h,cpp}`,
`src/common/sac_model_registration_graph.h` and the extraction loop of
`src/detection/GuessGenerator.cpp`, followed by theorems about it.

Conventions of the embedding:

* `std::vector<T>` is `List T`; indices (`int`, `unsigned int`, `size_t`) are `Nat`.
* The `float` arithmetic and comparisons of `FillAdjacency` are the operations of a
  record `fl : FloatOps F` about which nothing is assumed, so that rounding, NaN and
  infinities are covered; `F` is any type.
* In the fit and the growth loop of `Ransac`, `float`/`double` values are elements of a
  linearly ordered field `F` (exact arithmetic).
* `rand()` is a sequence `rand : Nat → Nat` read at a position that every call advances.
* Calls into PCL, Eigen and the maximum-clique search are function parameters.
-/

namespace tod

/-! ## Standard-library algorithms on sorted vectors -/

/-- The merge walk of `std::set_intersection` on two vectors. -/
def set_intersection : List Nat → List Nat → List Nat
  | [], _ => []
  | _ :: _, [] => []
  | a :: as, b :: bs =>
    if a < b then set_intersection as (b :: bs)
    else if b < a then set_intersection (a :: as) bs
    else a :: set_intersection as bs

/-- The merge walk of `std::set_difference` on two vectors. -/
def set_difference : List Nat → List Nat → List Nat
  | [], _ => []
  | a :: as, [] => a :: as
  | a :: as, b :: bs =>
    if a < b then a :: set_difference as (b :: bs)
    else if b < a then set_difference (a :: as) bs
    else set_difference as bs

/-- The effect of `std::unique` followed by `resize`: consecutive repeats are dropped. -/
def unique : List Nat → List Nat
  | [] => []
  | [a] => [a]
  | a :: b :: t => if a = b then unique (b :: t) else a :: unique (b :: t)

/-- The effect of `std::sort` followed by `std::unique` and `resize`. -/
def sort_unique (l : List Nat) : List Nat :=
  unique (l.insertionSort (· ≤ ·))

/-- The effect of `std::remove(v.begin(), v.end(), x)` followed by `resize`. -/
def remove (v : List Nat) (x : Nat) : List Nat :=
  v.filter (fun y => decide (y ≠ x))

/-! ## The sparse adjacency matrix -/

/-- Modelled from the spec: `maximum_clique::AdjacencyMatrix`, declared in
`maximum_clique.h`, which is not among the sources.  The spec describes it as a
boolean relation over indices "stored sparsely as, for each index, its sorted
set of adjacent indices", supporting test, add edge, neighbor-set lookup and
invalidate cluster. -/
structure AdjacencyMatrix where
  adjacency_ : List (List Nat)
deriving DecidableEq, Repr

namespace AdjacencyMatrix

/-- Modelled from the spec: the constructor `AdjacencyMatrix(n)`, n empty neighbor sets. -/
def init (n : Nat) : AdjacencyMatrix := ⟨List.replicate n []⟩

/-- Modelled from the spec: `size()`, the number of indices. -/
def size (m : AdjacencyMatrix) : Nat := m.adjacency_.length

/-- Modelled from the spec: `clear()`. -/
def clear (_m : AdjacencyMatrix) : AdjacencyMatrix := ⟨[]⟩

/-- Modelled from the spec: `neighbors(i)`, the neighbor-set lookup. -/
def neighbors (m : AdjacencyMatrix) (i : Nat) : List Nat := m.adjacency_.getD i []

/-- Modelled from the spec: `test(i, j)`, whether j is in the neighbor set of i
(an index outside the matrix has no neighbor). -/
def test (m : AdjacencyMatrix) (i j : Nat) : Bool := decide (j ∈ m.neighbors i)

/-- Modelled from the spec: the row update inside `set_sorted`, which is not
among the sources: append `x` to row `i` (`adjacency_[i].push_back(x)`); a row
outside the table is not touched. -/
def push_back_row : List (List Nat) → Nat → Nat → List (List Nat)
  | [], _, _ => []
  | r :: rs, 0, x => (r ++ [x]) :: rs
  | r :: rs, i + 1, x => r :: push_back_row rs i x

/-- Modelled from the spec: `set_sorted(i, j)`, add the edge i-j when the caller
adds edges in increasing order: each endpoint is appended to the other's
neighbor list. -/
def set_sorted (m : AdjacencyMatrix) (i j : Nat) : AdjacencyMatrix :=
  ⟨push_back_row (push_back_row m.adjacency_ i j) j i⟩

/-- Modelled from the spec: the row-wise part of `InvalidateCluster`, which is not
among the sources: row `k` is emptied when `k` is in the batch and otherwise
loses the batch by set difference. -/
def invalidate_rows (indices : List Nat) : Nat → List (List Nat) → List (List Nat)
  | _, [] => []
  | k, r :: rs =>
    (if k ∈ indices then [] else set_difference r indices) :: invalidate_rows indices (k + 1) rs

/-- Modelled from the spec: `InvalidateCluster(indices)`, "remove a batch of
indices and all edges touching them ... via merge/set-difference". -/
def InvalidateCluster (m : AdjacencyMatrix) (indices : List Nat) : AdjacencyMatrix :=
  ⟨invalidate_rows indices 0 m.adjacency_⟩

end AdjacencyMatrix

/-! ## The clique-constrained sampler (`sac_model_registration_graph.h`) -/

/-- What `drawIndexSampleHelper` leaves behind: its return value, the two
vectors it takes by reference, and the position reached in the `rand()` sequence. -/
structure DrawResult where
  ok : Bool
  valid_samples : List Nat
  samples : List Nat
  pos : Nat
deriving DecidableEq, Repr

/-- The `while (true)` loop of `drawIndexSampleHelper` for `n_samples > 0`; `rec`
is the recursive call for `n_samples - 1`.  The emptiness test that the source
makes before the loop and again after each removal is made at the loop head. -/
def drawLoop (sample_adjacency_ : AdjacencyMatrix) (rand : Nat → Nat)
    (rec : List Nat → List Nat → Nat → DrawResult) (samples : List Nat)
    (valid_samples : List Nat) (pos : Nat) : DrawResult :=
  if _h : valid_samples = [] then ⟨false, valid_samples, samples, pos⟩
  else
    let sample := valid_samples.getD (rand pos % valid_samples.length) 0
    let new_valid_samples := set_intersection valid_samples (sample_adjacency_.neighbors sample)
    let r := rec new_valid_samples [] (pos + 1)
    if r.ok then ⟨true, r.valid_samples, r.samples ++ [sample], r.pos⟩
    else drawLoop sample_adjacency_ rand rec samples (remove valid_samples sample) r.pos
termination_by valid_samples.length
decreasing_by
  have hne : valid_samples ≠ [] := by assumption
  have hpos : 0 < valid_samples.length := List.length_pos.mpr hne
  have hlt : rand pos % valid_samples.length < valid_samples.length := Nat.mod_lt _ hpos
  have hmem : valid_samples.getD (rand pos % valid_samples.length) 0 ∈ valid_samples := by
    rw [List.getD_eq_getElem _ _ hlt]
    exact List.getElem_mem _
  unfold remove
  apply List.length_filter_lt_length_iff_exists.mpr
  exact ⟨_, hmem, by simp⟩

/-- The method `drawIndexSampleHelper(valid_samples, n_samples, samples)`. -/
def drawIndexSampleHelper (sample_adjacency_ : AdjacencyMatrix) (rand : Nat → Nat) :
    Nat → List Nat → List Nat → Nat → DrawResult
  | 0, valid_samples, samples, pos => ⟨true, valid_samples, samples, pos⟩
  | n + 1, valid_samples, samples, pos =>
    drawLoop sample_adjacency_ rand (drawIndexSampleHelper sample_adjacency_ rand n)
      samples valid_samples pos

/-- The members of `SampleConsensusModelRegistrationGraph` that the methods below
read or write (the clouds `input_`, `target_` and `threshold_` are only handed to PCL). -/
structure SampleConsensusModelRegistrationGraph where
  physical_adjacency_ : AdjacencyMatrix
  sample_adjacency_ : AdjacencyMatrix
  indices_ : List Nat
  sample_pool_ : List Nat
  best_inlier_number_ : Nat
  samples_ : List Nat
deriving DecidableEq, Repr

/-- What `isSampleGood` leaves behind: its return value, the vector `samples`
that it overwrites through the `const_cast`, the model with `samples_` updated,
and the position reached in the `rand()` sequence. -/
structure SampleGoodResult where
  is_good : Bool
  samples : List Nat
  model : SampleConsensusModelRegistrationGraph
  pos : Nat
deriving DecidableEq, Repr

/-- The method `isSampleGood(samples)`. -/
def isSampleGood (model : SampleConsensusModelRegistrationGraph) (rand : Nat → Nat)
    (samples : List Nat) (pos : Nat) : SampleGoodResult :=
  let valid_samples := model.sample_pool_
  let sample_size := samples.length
  let r := drawIndexSampleHelper model.sample_adjacency_ rand sample_size valid_samples samples pos
  if r.ok then ⟨true, r.samples, { model with samples_ := r.samples }, r.pos⟩
  else ⟨false, r.samples, model, r.pos⟩

/-! ## Inlier selection (`sac_model_registration_graph.h`) -/

/-- Modelled from the spec: `maximum_clique::Graph`, declared in `maximum_clique.h`,
which is not among the sources: a vertex count with an edge relation, kept as an
adjacency matrix (`graph.adjacency()`). -/
structure Graph where
  adjacency_ : AdjacencyMatrix
deriving DecidableEq, Repr

/-- Modelled from the spec: the constructor `Graph(n)`, n vertices and no edge. -/
def Graph.init (n : Nat) : Graph := ⟨AdjacencyMatrix.init n⟩

/-- Modelled from the spec: `AddEdgeSorted(j, i)`, add the edge j-i. -/
def Graph.AddEdgeSorted (g : Graph) (j i : Nat) : Graph := ⟨g.adjacency_.set_sorted j i⟩

/-- The inner `BOOST_FOREACH(int sample, samples_)` of `selectWithinDistance`: the
value of `is_good` for one possible inlier.  Reaching the inlier itself among
the samples leaves the loop (`break`). -/
def inlierIsGood (physical_adjacency_ : AdjacencyMatrix) (inlier : Nat) : List Nat → Bool
  | [] => true
  | sample :: rest =>
    if sample = inlier then true
    else if !physical_adjacency_.test inlier sample then false
    else inlierIsGood physical_adjacency_ inlier rest

/-- The first part of `selectWithinDistance`: `in_inliers` as it stands when
control reaches the comparison with `best_inlier_number_`, or `none` when the
method has returned (with `in_inliers` empty) because a sample is missing from
`possible_inliers`. -/
def candidateInliers (model : SampleConsensusModelRegistrationGraph)
    (possible_inliers : List Nat) : Option (List Nat) :=
  if model.samples_.all (fun sample => decide (sample ∈ possible_inliers)) then
    some (possible_inliers.filter
      (fun inlier => inlierIsGood model.physical_adjacency_ inlier model.samples_))
  else none

/-- The graph that `selectWithinDistance` builds on the positions of `in_inliers`:
an edge j-i, j < i, when the inliers at these positions are sample-adjacent. -/
def inlierGraph (sample_adjacency_ : AdjacencyMatrix) (in_inliers : List Nat) : Graph :=
  (List.range in_inliers.length).foldl
    (fun graph j => (List.range' (j + 1) (in_inliers.length - (j + 1))).foldl
      (fun graph i =>
        if sample_adjacency_.test (in_inliers.getD j 0) (in_inliers.getD i 0) then
          graph.AddEdgeSorted j i
        else graph) graph)
    (Graph.init in_inliers.length)

/-- What `selectWithinDistance` leaves behind: the vector `in_inliers` and the
model with `best_inlier_number_` updated. -/
structure SelectResult where
  in_inliers : List Nat
  model : SampleConsensusModelRegistrationGraph
deriving DecidableEq, Repr

/-- The method `selectWithinDistance(model_coefficients, threshold, in_inliers)`.
`possible_inliers` is what the PCL base class
`SampleConsensusModelRegistration::selectWithinDistance` returns for the
coefficients and threshold (the indices passing the distance test), and
`FindClique graph minimal_size` is the vertex list that the clique search returns. -/
def selectWithinDistance (FindClique : Graph → Nat → List Nat)
    (model : SampleConsensusModelRegistrationGraph) (possible_inliers : List Nat) :
    SelectResult :=
  match candidateInliers model possible_inliers with
  | none => ⟨[], model⟩
  | some in_inliers =>
    if in_inliers.length < model.best_inlier_number_ then ⟨in_inliers, model⟩
    else
      let graph := inlierGraph model.sample_adjacency_ in_inliers
      let minimal_size := 8
      let vertices := FindClique graph minimal_size
      if vertices.length < minimal_size then ⟨[], model⟩
      else
        ⟨in_inliers,
          { model with best_inlier_number_ := max in_inliers.length model.best_inlier_number_ }⟩

/-! ## Correspondence sets (`adjacency_ransac.h`, `adjacency_ransac.cpp`) -/

section Core

variable {F : Type} [LinearOrderedField F]

/-- A 3D point (`pcl::PointXYZ`, `cv::Point3f`). -/
structure Point3 (F : Type) where
  x : F
  y : F
  z : F

/-- A 2D image position (`cv::Point2f`). -/
structure Point2 (F : Type) where
  x : F
  y : F

/-- The part of `cv::KeyPoint` that is read: its image position `pt`. -/
structure KeyPoint (F : Type) where
  pt : Point2 F

/-- The part of `cv::DMatch` that is read: the index `imgIdx` of the object. -/
structure DMatch where
  imgIdx : Nat
deriving DecidableEq, Repr

/-- The value read when a vector of points is indexed outside its bounds. -/
def Point3.origin : Point3 F := ⟨0, 0, 0⟩

/-- The value read when the keypoint vector is indexed outside its bounds. -/
def KeyPoint.origin : KeyPoint F := ⟨⟨0, 0⟩⟩

/-- The `float` operations that `FillAdjacency` performs, as the machine evaluates
them: addition, subtraction, multiplication, `std::abs`, `std::sqrt`, the
comparisons `>` and `<`, and the conversion of an `int` constant.  Nothing is
assumed about them. -/
structure FloatOps (F : Type) where
  add : F → F → F
  sub : F → F → F
  mul : F → F → F
  abs : F → F
  sqrt : F → F
  gt : F → F → Bool
  lt : F → F → Bool
  ofNat : Nat → F

/-- The point read when a vector of points is indexed outside its bounds in
`FillAdjacency`. -/
def FloatOps.origin {F : Type} (fl : FloatOps F) : Point3 F :=
  ⟨fl.ofNat 0, fl.ofNat 0, fl.ofNat 0⟩

/-- The keypoint read when the keypoint vector is indexed outside its bounds in
`FillAdjacency`. -/
def FloatOps.keypoint {F : Type} (fl : FloatOps F) : KeyPoint F :=
  ⟨⟨fl.ofNat 0, fl.ofNat 0⟩⟩

/-- Float operations without rounding and without NaN: the operations of a
linearly ordered field, with a given square root. -/
def FloatOps.exact (sqrt : F → F) : FloatOps F :=
  { add := fun a b => a + b, sub := fun a b => a - b, mul := fun a b => a * b,
    abs := fun a => |a|, sqrt := sqrt,
    gt := fun a b => decide (a > b), lt := fun a b => decide (a < b),
    ofNat := fun n => (n : F) }

/-- The function `pcl::squaredEuclideanDistance`. -/
def squaredEuclideanDistance {F : Type} (fl : FloatOps F) (p1 p2 : Point3 F) : F :=
  fl.add
    (fl.add (fl.mul (fl.sub p2.x p1.x) (fl.sub p2.x p1.x))
      (fl.mul (fl.sub p2.y p1.y) (fl.sub p2.y p1.y)))
    (fl.mul (fl.sub p2.z p1.z) (fl.sub p2.z p1.z))

/-- The function `pcl::euclideanDistance`. -/
def euclideanDistance {F : Type} (fl : FloatOps F) (p1 p2 : Point3 F) : F :=
  fl.sqrt (squaredEuclideanDistance fl p1 p2)

/-- The data members of `AdjacencyRansac` that the methods below read or write. -/
structure AdjacencyRansac (F : Type) where
  physical_adjacency_ : AdjacencyMatrix
  sample_adjacency_ : AdjacencyMatrix
  query_points_ : List (Point3 F)
  training_points_ : List (Point3 F)
  query_indices_ : List Nat
  valid_indices_ : List Nat

/-- The default constructor `AdjacencyRansac()`. -/
def AdjacencyRansac.empty : AdjacencyRansac F :=
  ⟨⟨[]⟩, ⟨[]⟩, [], [], [], []⟩

/-- The method `AdjacencyRansac::clear_adjacency`. -/
def clear_adjacency (s : AdjacencyRansac F) : AdjacencyRansac F :=
  { s with physical_adjacency_ := s.physical_adjacency_.clear,
           sample_adjacency_ := s.sample_adjacency_.clear }

/-- The method `AdjacencyRansac::AddPoints`. -/
def AddPoints (s : AdjacencyRansac F) (training_point query_point : Point3 F)
    (query_index : Nat) : AdjacencyRansac F :=
  { s with valid_indices_ := s.valid_indices_ ++ [s.query_indices_.length],
           training_points_ := s.training_points_ ++ [training_point],
           query_points_ := s.query_points_ ++ [query_point],
           query_indices_ := s.query_indices_ ++ [query_index] }

/-- The method `AdjacencyRansac::InvalidateIndices`. -/
def InvalidateIndices (indices : List Nat) (s : AdjacencyRansac F) : AdjacencyRansac F :=
  let indices := sort_unique indices
  { s with valid_indices_ := set_difference s.valid_indices_ indices,
           physical_adjacency_ := s.physical_adjacency_.InvalidateCluster indices,
           sample_adjacency_ := s.sample_adjacency_.InvalidateCluster indices }

/-- The loop `BOOST_FOREACH(unsigned int index, valid_indices_)` of
`InvalidateQueryIndices`.  The iterator `iter` is the part of the sorted
identifier list from its position to the end (`[]` is `iter == end`); `*iter` at
the end reads outside the list and finds `past_end`. -/
def scanQueryIndices (query_indices_ : List Nat) (past_end : Nat) :
    List Nat → List Nat → List Nat → List Nat
  | [], _, indices_to_remove => indices_to_remove
  | index :: rest, iter, indices_to_remove =>
    let query_index := query_indices_.getD index 0
    if query_index < iter.headD past_end then
      scanQueryIndices query_indices_ past_end rest iter indices_to_remove
    else
      let iter := iter.dropWhile (fun x => decide (query_index > x))
      if query_index = iter.headD past_end then
        scanQueryIndices query_indices_ past_end rest iter (indices_to_remove ++ [index])
      else if iter = [] then indices_to_remove
      else scanQueryIndices query_indices_ past_end rest iter indices_to_remove

/-- The method `AdjacencyRansac::InvalidateQueryIndices`; `past_end` is the value
found one position past the end of the sorted identifier list. -/
def InvalidateQueryIndices (query_indices : List Nat) (past_end : Nat)
    (s : AdjacencyRansac F) : AdjacencyRansac F :=
  if query_indices = [] then s
  else
    let query_indices := sort_unique query_indices
    let indices_to_remove :=
      scanQueryIndices s.query_indices_ past_end s.valid_indices_ query_indices []
    InvalidateIndices indices_to_remove s

/-- The body of the inner loop of `FillAdjacency` for the pair `i < j`, acting on
the pair (physical adjacency, sample adjacency).  Every `float` operation and
comparison is the one of `fl`. -/
def FillAdjacency_pair {F : Type} (fl : FloatOps F) (keypoints : List (KeyPoint F))
    (object_span sensor_error : F) (query_points_ training_points_ : List (Point3 F))
    (query_indices_ : List Nat) (i j : Nat)
    (adj : AdjacencyMatrix × AdjacencyMatrix) : AdjacencyMatrix × AdjacencyMatrix :=
  let query_point_1 := query_points_.getD i fl.origin
  let query_point_2 := query_points_.getD j fl.origin
  let training_point_1 := training_points_.getD i fl.origin
  let dist_query := squaredEuclideanDistance fl query_point_1 query_point_2
  if fl.gt dist_query
      (fl.mul (fl.add object_span (fl.mul (fl.ofNat 2) sensor_error))
        (fl.add object_span (fl.mul (fl.ofNat 2) sensor_error))) = true then adj
  else
    let dist_query := fl.sqrt dist_query
    let training_point_2 := training_points_.getD j fl.origin
    let dist_training := euclideanDistance fl training_point_1 training_point_2
    if fl.gt (fl.abs (fl.sub dist_training dist_query))
        (fl.mul (fl.ofNat 4) sensor_error) = true then adj
    else
      let physical := adj.1.set_sorted i j
      let keypoint1 := keypoints.getD (query_indices_.getD i 0) fl.keypoint
      let keypoint2 := keypoints.getD (query_indices_.getD j 0) fl.keypoint
      if (fl.gt
            (fl.add
              (fl.mul (fl.sub keypoint1.pt.x keypoint2.pt.x) (fl.sub keypoint1.pt.x keypoint2.pt.x))
              (fl.mul (fl.sub keypoint1.pt.y keypoint2.pt.y) (fl.sub keypoint1.pt.y keypoint2.pt.y)))
            (fl.ofNat (20 * 20)) &&
          fl.lt (fl.abs (fl.sub dist_training dist_query))
            (fl.mul (fl.ofNat 2) sensor_error)) = true then
        (physical, adj.2.set_sorted i j)
      else (physical, adj.2)

/-- The method `AdjacencyRansac::FillAdjacency`. -/
def FillAdjacency {F : Type} (fl : FloatOps F) (keypoints : List (KeyPoint F))
    (object_span sensor_error : F) (s : AdjacencyRansac F) : AdjacencyRansac F :=
  let n_matches := s.training_points_.length
  let adj := (List.range n_matches).foldl
    (fun adj i => (List.range' (i + 1) (n_matches - (i + 1))).foldl
      (fun adj j => FillAdjacency_pair fl keypoints object_span sensor_error
        s.query_points_ s.training_points_ s.query_indices_ i j adj) adj)
    (AdjacencyMatrix.init n_matches, AdjacencyMatrix.init n_matches)
  { s with physical_adjacency_ := adj.1, sample_adjacency_ := adj.2 }

/-- The function `ClusterPerObject`.  The map `object_points` is a function from
object index to correspondence set (an absent key is the default-constructed
set); `point_cloud y x` is the 3D point stored for the pixel of a keypoint, or
`none` when one of its coordinates is NaN; `matches_` is the argument `matches`. -/
def ClusterPerObject (keypoints : List (KeyPoint F)) (point_cloud : F → F → Option (Point3 F))
    (matches_ : List (List DMatch)) (matches_3d : List (List (Point3 F)))
    (object_points : Nat → AdjacencyRansac F) : Nat → AdjacencyRansac F :=
  (List.range matches_.length).foldl
    (fun object_points query_index =>
      let keypoint := keypoints.getD query_index KeyPoint.origin
      match point_cloud keypoint.pt.y keypoint.pt.x with
      | none => object_points
      | some query_point =>
        let local_matches := matches_.getD query_index []
        let local_matches_3d := matches_3d.getD query_index []
        (List.range local_matches.length).foldl
          (fun object_points match_index =>
            let training_point := local_matches_3d.getD match_index Point3.origin
            let opencv_object_id := (local_matches.getD match_index ⟨0⟩).imgIdx
            Function.update object_points opencv_object_id
              (AddPoints (object_points opencv_object_id) training_point query_point query_index))
          object_points)
    object_points

end Core

/-! ## The extraction loop of `GuessGenerator::process` -/

section Loop

variable {F : Type} {C : Type}

/-- One pose stored by the loop: the coefficients returned by `Ransac`, from which
`R_mat` and `tvec` are computed, and the inliers that support it. -/
structure EmittedPose (C : Type) where
  coefficients : C
  inliers : List Nat

/-- One pass through the body of the `while (true)` loop of `process` for one
object: `none` is the `break`, otherwise the stored pose and the set after
`InvalidateQueryIndices`.  `Ransac` is the call `adjacency_ransac.Ransac(...)`,
returning the coefficients and the inliers; `past_end` is the value past the end
of the identifier list of this pass. -/
def process_iteration (Ransac : AdjacencyRansac F → C × List Nat) (min_inliers : Nat)
    (past_end : Nat) (s : AdjacencyRansac F) : Option (EmittedPose C × AdjacencyRansac F) :=
  let coefficients := (Ransac s).1
  let inliers := (Ransac s).2
  if inliers.length < min_inliers then none
  else
    let query_indices := inliers.map (fun inlier => s.query_indices_.getD inlier 0)
    some (⟨coefficients, inliers⟩, InvalidateQueryIndices query_indices past_end s)

/-- What the `while (true)` loop has produced when it is left or after `fuel`
passes: the poses stored, the correspondence set, and whether the loop was left. -/
structure LoopResult (F : Type) (C : Type) where
  poses : List (EmittedPose C)
  state : AdjacencyRansac F
  finished : Bool

/-- The `while (true)` loop of `process` for one object, run for at most `fuel`
passes starting with pass number `k`; `Ransac k` and `past_end k` are the
`Ransac` call and the past-the-end value of pass `k`. -/
def process_loop (Ransac : Nat → AdjacencyRansac F → C × List Nat) (min_inliers : Nat)
    (past_end : Nat → Nat) : Nat → Nat → AdjacencyRansac F → LoopResult F C
  | 0, _, s => ⟨[], s, false⟩
  | fuel + 1, k, s =>
    match process_iteration (Ransac k) min_inliers (past_end k) s with
    | none => ⟨[], s, true⟩
    | some (pose, s') =>
      let r := process_loop Ransac min_inliers past_end fuel (k + 1) s'
      ⟨pose :: r.poses, r.state, r.finished⟩

/-- The correspondence set at the head of the pass reached after `n` poses have
been stored from pass `k` on; `none` when the loop is left earlier. -/
def loop_state (Ransac : Nat → AdjacencyRansac F → C × List Nat) (min_inliers : Nat)
    (past_end : Nat → Nat) : Nat → Nat → AdjacencyRansac F → Option (AdjacencyRansac F)
  | 0, _, s => some s
  | n + 1, k, s =>
    match process_iteration (Ransac k) min_inliers (past_end k) s with
    | none => none
    | some (_, s') => loop_state Ransac min_inliers past_end n (k + 1) s'

/-- Representation invariant of a correspondence set: the valid indices are
strictly increasing and within bounds, and the observed-point identifiers are
non-decreasing in index order. -/
def WellFormed (s : AdjacencyRansac F) : Prop :=
  s.valid_indices_.Sorted (· < ·) ∧ (∀ i ∈ s.valid_indices_, i < s.query_indices_.length) ∧
    s.query_indices_.Sorted (· ≤ ·)

end Loop

/-! ## Specification predicates for the sampler -/

/-- What a successful draw of `k` indices from `pool` must satisfy: `k` entries,
no repeats, all from the pool, and every entry adjacent to the entries before it. -/
def GoodSample (adj : AdjacencyMatrix) (k : Nat) (pool samples : List Nat) : Prop :=
  samples.length = k ∧ samples.Nodup ∧ (∀ x ∈ samples, x ∈ pool) ∧
    samples.Pairwise (fun a b => adj.test b a = true)

/-- The pool contains `k` distinct indices that are pairwise adjacent. -/
def HasClique (adj : AdjacencyMatrix) (k : Nat) (pool : List Nat) : Prop :=
  ∃ c : List Nat, c.length = k ∧ c.Nodup ∧ (∀ x ∈ c, x ∈ pool) ∧
    ∀ a ∈ c, ∀ b ∈ c, a ≠ b → adj.test a b = true

/-- The correspondence set of the object `opencv_object_id` when its `while (true)`
loop starts in `process`: clustered by `ClusterPerObject` from an empty map,
then given its adjacency matrices by `FillAdjacency` (`object_span` is
`spans.find(object_id)->second`). -/
def object_points_filled {F : Type} [LinearOrderedField F] (fl : FloatOps F)
    (keypoints : List (KeyPoint F)) (point_cloud : F → F → Option (Point3 F))
    (matches_ : List (List DMatch)) (matches_3d : List (List (Point3 F)))
    (object_span sensor_error : F) (opencv_object_id : Nat) : AdjacencyRansac F :=
  FillAdjacency fl keypoints object_span sensor_error
    (ClusterPerObject keypoints point_cloud matches_ matches_3d
      (fun _ => AdjacencyRansac.empty) opencv_object_id)

/-! ## Invariants used in the proofs about `FillAdjacency` -/

/-- State of one matrix while `FillAdjacency` runs: `n` rows, each strictly
increasing, and `b` is a neighbor of `a` exactly when the pair they form has
been visited (`P`) and satisfies the condition `c` under which an edge is added. -/
def BuildInv (c : Nat → Nat → Prop) (n : Nat) (P : Nat → Nat → Prop)
    (m : AdjacencyMatrix) : Prop :=
  m.size = n ∧ (∀ a, (m.neighbors a).Sorted (· < ·)) ∧
    ∀ a b, b ∈ m.neighbors a ↔ ((P a b ∧ c a b) ∨ (P b a ∧ c b a))

section Conditions

variable {F : Type}

/-- The two tests of `FillAdjacency` that a pair must pass for `physical_adjacency_.set_sorted`
to be reached: neither `dist_query > (object_span + 2 * sensor_error)^2` nor
`std::abs(dist_training - dist_query) > 4 * sensor_error` comes out true. -/
def physicalCondition (fl : FloatOps F) (object_span sensor_error : F)
    (query_points_ training_points_ : List (Point3 F)) (i j : Nat) : Bool :=
  !fl.gt (squaredEuclideanDistance fl (query_points_.getD i fl.origin)
        (query_points_.getD j fl.origin))
      (fl.mul (fl.add object_span (fl.mul (fl.ofNat 2) sensor_error))
        (fl.add object_span (fl.mul (fl.ofNat 2) sensor_error))) &&
  !fl.gt (fl.abs (fl.sub
        (euclideanDistance fl (training_points_.getD i fl.origin)
          (training_points_.getD j fl.origin))
        (fl.sqrt (squaredEuclideanDistance fl (query_points_.getD i fl.origin)
          (query_points_.getD j fl.origin)))))
      (fl.mul (fl.ofNat 4) sensor_error)

/-- The squared distance between the keypoints of the observed points of `i` and
`j`, as `FillAdjacency` computes it. -/
def keypointDistance2 (fl : FloatOps F) (keypoints : List (KeyPoint F))
    (query_indices_ : List Nat) (i j : Nat) : F :=
  fl.add
    (fl.mul
      (fl.sub (keypoints.getD (query_indices_.getD i 0) fl.keypoint).pt.x
        (keypoints.getD (query_indices_.getD j 0) fl.keypoint).pt.x)
      (fl.sub (keypoints.getD (query_indices_.getD i 0) fl.keypoint).pt.x
        (keypoints.getD (query_indices_.getD j 0) fl.keypoint).pt.x))
    (fl.mul
      (fl.sub (keypoints.getD (query_indices_.getD i 0) fl.keypoint).pt.y
        (keypoints.getD (query_indices_.getD j 0) fl.keypoint).pt.y)
      (fl.sub (keypoints.getD (query_indices_.getD i 0) fl.keypoint).pt.y
        (keypoints.getD (query_indices_.getD j 0) fl.keypoint).pt.y))

/-- The further test of `FillAdjacency` that guards `sample_adjacency_.set_sorted`. -/
def sampleCondition (fl : FloatOps F) (keypoints : List (KeyPoint F)) (sensor_error : F)
    (query_points_ training_points_ : List (Point3 F)) (query_indices_ : List Nat)
    (i j : Nat) : Bool :=
  fl.gt (keypointDistance2 fl keypoints query_indices_ i j) (fl.ofNat (20 * 20)) &&
  fl.lt (fl.abs (fl.sub
        (euclideanDistance fl (training_points_.getD i fl.origin)
          (training_points_.getD j fl.origin))
        (fl.sqrt (squaredEuclideanDistance fl (query_points_.getD i fl.origin)
          (query_points_.getD j fl.origin)))))
      (fl.mul (fl.ofNat 2) sensor_error)

end Conditions

/-! ## Sequences of invalidation calls -/

/-- One call that shrinks a correspondence set: `InvalidateIndices(indices)` or
`InvalidateQueryIndices(query_indices)` (with the value found past the end of
its sorted identifier list). -/
inductive InvalidateCall where
  | byIndex (indices : List Nat)
  | byQueryIndex (query_indices : List Nat) (past_end : Nat)

/-- Execute one invalidation call. -/
def InvalidateCall.run {F : Type} (c : InvalidateCall) (s : AdjacencyRansac F) :
    AdjacencyRansac F :=
  match c with
  | .byIndex indices => InvalidateIndices indices s
  | .byQueryIndex query_indices past_end => InvalidateQueryIndices query_indices past_end s

/-- Sample adjacency is contained in physical adjacency, the matrices have the
same size and the sample neighbor lists are strictly increasing. -/
def SubAdjacent {F : Type} (s : AdjacencyRansac F) : Prop :=
  s.physical_adjacency_.size = s.sample_adjacency_.size ∧
  (∀ a, (s.sample_adjacency_.neighbors a).Sorted (· < ·)) ∧
  ∀ a b, b ∈ s.sample_adjacency_.neighbors a → b ∈ s.physical_adjacency_.neighbors a

/-! ## Example data -/

/-- A set of two correspondences whose observed and model points are 5 apart. -/
def exampleSet : AdjacencyRansac ℚ :=
  { physical_adjacency_ := ⟨[]⟩, sample_adjacency_ := ⟨[]⟩,
    query_points_ := [⟨0, 0, 0⟩, ⟨3, 4, 0⟩],
    training_points_ := [⟨0, 0, 0⟩, ⟨3, 4, 0⟩],
    query_indices_ := [0, 1], valid_indices_ := [0, 1] }

/-- Two keypoints 30 pixels apart. -/
def exampleKeypoints : List (KeyPoint ℚ) := [⟨⟨0, 0⟩⟩, ⟨⟨30, 0⟩⟩]

/-- A square root that is exact at 25. -/
def exampleSqrt (x : ℚ) : ℚ := if x = 25 then 5 else 0

/-- Exact operations on rationals with `exampleSqrt`; on the numbers of the
examples (0, 3, 4, 5, 25 and small integers) binary floats compute the same. -/
def exampleFloat : FloatOps ℚ := FloatOps.exact exampleSqrt

/-- Float operations with a NaN, for examples: `none` is NaN and the numbers are
rationals computed exactly; as in IEEE 754, an operation with a NaN operand
gives NaN and a comparison with a NaN operand is false. -/
def nanFloat : FloatOps (Option ℚ) :=
  { add := fun a b => match a, b with
      | some x, some y => some (x + y)
      | _, _ => none
    sub := fun a b => match a, b with
      | some x, some y => some (x - y)
      | _, _ => none
    mul := fun a b => match a, b with
      | some x, some y => some (x * y)
      | _, _ => none
    abs := fun a => a.map (fun x => |x|)
    sqrt := fun a => a.map exampleSqrt
    gt := fun a b => match a, b with
      | some x, some y => decide (x > y)
      | _, _ => false
    lt := fun a b => match a, b with
      | some x, some y => decide (x < y)
      | _, _ => false
    ofNat := fun n => some (n : ℚ) }

/-- The IEEE 754 comparison `<=` on the values of `nanFloat`: false when an operand
is NaN. -/
def nanLe (a b : Option ℚ) : Bool :=
  match a, b with
  | some x, some y => decide (x ≤ y)
  | _, _ => false

/-- The set `exampleSet` with a NaN in the first coordinate of the second model
point. -/
def exampleNaNSet : AdjacencyRansac (Option ℚ) :=
  { physical_adjacency_ := ⟨[]⟩, sample_adjacency_ := ⟨[]⟩,
    query_points_ := [⟨some 0, some 0, some 0⟩, ⟨some 3, some 4, some 0⟩],
    training_points_ := [⟨some 0, some 0, some 0⟩, ⟨none, some 4, some 0⟩],
    query_indices_ := [0, 1], valid_indices_ := [0, 1] }

/-- The keypoints of `exampleKeypoints` as values of `nanFloat`. -/
def exampleNaNKeypoints : List (KeyPoint (Option ℚ)) :=
  [⟨⟨some 0, some 0⟩⟩, ⟨⟨some 30, some 0⟩⟩]

/-- A model whose stored sample is `[0, 1]`, with the single physical edge 0-1. -/
def exampleModel : SampleConsensusModelRegistrationGraph :=
  { physical_adjacency_ := ⟨[[1], [0]]⟩, sample_adjacency_ := ⟨[[1], [0]]⟩,
    indices_ := [0, 1], sample_pool_ := [], best_inlier_number_ := 0, samples_ := [0, 1] }

/-- A stand-in for `Ransac` that reports the first valid index as its only inlier. -/
def exampleRansac (_k : Nat) (s : AdjacencyRansac ℚ) : Unit × List Nat :=
  ((), s.valid_indices_.take 1)

/-- Three keypoints; the first is matched to objects 0 and 1, the second twice to
object 0, the third to object 1. -/
def exampleMatches : List (List DMatch) := [[⟨0⟩, ⟨1⟩], [⟨0⟩, ⟨0⟩], [⟨1⟩]]

/-- The keypoints of `exampleMatches`. -/
def exampleKeypoints3 : List (KeyPoint ℚ) := [⟨⟨0, 0⟩⟩, ⟨⟨1, 1⟩⟩, ⟨⟨2, 2⟩⟩]

/-- Object 0 of `exampleMatches` when its loop starts: identifiers 0, 1, 1. -/
def exampleObject : AdjacencyRansac ℚ :=
  object_points_filled exampleFloat exampleKeypoints3 (fun _ _ => some Point3.origin)
    exampleMatches [] 1 1 0

/-- Three correspondences added with the identifiers 3, 3 and 5. -/
def examplePoints : List (Point3 ℚ × Point3 ℚ × Nat) :=
  [(Point3.origin, Point3.origin, 3), (Point3.origin, Point3.origin, 3),
    (Point3.origin, Point3.origin, 5)]

/-! ## Reachable correspondence sets -/

/-- The correspondence sets that the public methods of `AdjacencyRansac` can
produce, starting from the default-constructed one. -/
inductive Reachable {F : Type} [LinearOrderedField F] : AdjacencyRansac F → Prop
  | empty : Reachable AdjacencyRansac.empty
  | addPoints (s : AdjacencyRansac F) (training_point query_point : Point3 F)
      (query_index : Nat) :
      Reachable s → Reachable (AddPoints s training_point query_point query_index)
  | fillAdjacency (fl : FloatOps F) (keypoints : List (KeyPoint F))
      (object_span sensor_error : F) (s : AdjacencyRansac F) :
      Reachable s → Reachable (FillAdjacency fl keypoints object_span sensor_error s)
  | invalidateIndices (indices : List Nat) (s : AdjacencyRansac F) :
      Reachable s → Reachable (InvalidateIndices indices s)
  | invalidateQueryIndices (query_indices : List Nat) (past_end : Nat)
      (s : AdjacencyRansac F) :
      Reachable s → Reachable (InvalidateQueryIndices query_indices past_end s)
  | clearAdjacency (s : AdjacencyRansac F) : Reachable s → Reachable (clear_adjacency s)

/-- Representation invariant of every reachable correspondence set: the valid
indices are strictly increasing and within bounds, and every neighbor list of
both matrices is strictly increasing. -/
def RepInv {F : Type} (s : AdjacencyRansac F) : Prop :=
  s.valid_indices_.Sorted (· < ·) ∧ (∀ i ∈ s.valid_indices_, i < s.query_indices_.length) ∧
    (∀ r ∈ s.physical_adjacency_.adjacency_, r.Sorted (· < ·)) ∧
    (∀ r ∈ s.sample_adjacency_.adjacency_, r.Sorted (· < ·))

/-- The method `AdjacencyRansac::n_points`. -/
def n_points {F : Type} (s : AdjacencyRansac F) : Nat := s.query_indices_.length

/-- Two correspondences added with the identifiers 5 and 3, in this order. -/
def exampleUnordered : AdjacencyRansac ℚ :=
  AddPoints (AddPoints AdjacencyRansac.empty Point3.origin Point3.origin 5)
    Point3.origin Point3.origin 3

/-- Two correspondences added with the identifiers 3 and 5, in this order. -/
def exampleOrdered : AdjacencyRansac ℚ :=
  AddPoints (AddPoints AdjacencyRansac.empty Point3.origin Point3.origin 3)
    Point3.origin Point3.origin 5

/-! ## The closed-form fit (`estimateRigidTransformationSVD`) -/

section Fit

variable {F : Type} [LinearOrderedField F]

/-- A 3x3 matrix (`Eigen::Matrix3f`). -/
abbrev Matrix3 (F : Type) := Matrix (Fin 3) (Fin 3) F

/-- The coordinates of a point as a 3-vector. -/
def Point3.toVec (p : Point3 F) : Fin 3 → F := ![p.x, p.y, p.z]

/-- The PCL function `compute3DCentroid(cloud, indices, centroid)`, first three
coordinates: the mean of the points of `cloud` selected by `indices`. -/
def compute3DCentroid (cloud : List (Point3 F)) (indices : List Nat) : Fin 3 → F :=
  fun c => (indices.map (fun i => (cloud.getD i Point3.origin).toVec c)).sum / (indices.length : F)

/-- The PCL function `demeanPointCloud(cloud, indices, centroid, out)`: one column
per selected point, the centroid subtracted. -/
def demeanPointCloud (cloud : List (Point3 F)) (indices : List Nat) (centroid : Fin 3 → F) :
    List (Fin 3 → F) :=
  indices.map (fun i => fun c => (cloud.getD i Point3.origin).toVec c - centroid c)

/-- The correlation matrix `H = (cloud_src_demean * cloud_tgt_demean.transpose()).topLeftCorner<3, 3>()`. -/
def correlationMatrix (cloud_src_demean cloud_tgt_demean : List (Fin 3 → F)) : Matrix3 F :=
  fun r c => ((cloud_src_demean.zip cloud_tgt_demean).map (fun p => p.1 r * p.2 c)).sum

/-- The loop `for (int x = 0; x < 3; ++x) v(x, 2) *= -1`. -/
def flipThirdColumn (v : Matrix3 F) : Matrix3 F :=
  fun x j => if j = 2 then v x j * (-1) else v x j

/-- The rotation `R` that `estimateRigidTransformationSVD` computes from the
factors `u`, `v` of the decomposition: the third column of `v` is negated
when `u.determinant() * v.determinant() < 0`, then `R = v * u.transpose()`. -/
def rotationFromSVD (u v : Matrix3 F) : Matrix3 F :=
  let v := if u.det * v.det < 0 then flipThirdColumn v else v
  v * u.transpose

/-- The method `estimateRigidTransformationSVD(cloud_src, indices_src, cloud_tgt,
indices_tgt, transform)`, returning the 16 entries of `transform`.  `svd H` is
the pair (`matrixU()`, `matrixV()`) that `Eigen::JacobiSVD` returns for `H`. -/
def estimateRigidTransformationSVD (svd : Matrix3 F → Matrix3 F × Matrix3 F)
    (cloud_src : List (Point3 F)) (indices_src : List Nat)
    (cloud_tgt : List (Point3 F)) (indices_tgt : List Nat) : List F :=
  let centroid_src := compute3DCentroid cloud_src indices_src
  let centroid_tgt := compute3DCentroid cloud_tgt indices_tgt
  let cloud_src_demean := demeanPointCloud cloud_src indices_src centroid_src
  let cloud_tgt_demean := demeanPointCloud cloud_tgt indices_tgt centroid_tgt
  let H := correlationMatrix cloud_src_demean cloud_tgt_demean
  let u := (svd H).1
  let v := (svd H).2
  let R := rotationFromSVD u v
  let t : Fin 3 → F := fun i => centroid_tgt i - (R.mulVec centroid_src) i
  [R 0 0, R 0 1, R 0 2, t 0,
   R 1 0, R 1 1, R 1 2, t 1,
   R 2 0, R 2 1, R 2 2, t 2,
   0, 0, 0, 1]

/-- The method `optimizeModelCoefficients(target, inliers, model_coefficients,
optimized_coefficients)` of the model built in `Ransac`, whose `input_` is
`query_points_` and whose target is `training_points_`. -/
def optimizeModelCoefficients (svd : Matrix3 F → Matrix3 F × Matrix3 F)
    (query_points_ training_points_ : List (Point3 F)) (inliers : List Nat)
    (_model_coefficients : List F) : List F :=
  estimateRigidTransformationSVD svd query_points_ inliers training_points_ inliers

end Fit

/-! ## `AdjacencyRansac::Ransac`: consensus stage and growth loop -/

/-- The merge walk of `std::merge` on two vectors. -/
def merge : List Nat → List Nat → List Nat
  | [], b => b
  | a :: as, [] => a :: as
  | a :: as, b :: bs =>
    if b < a then b :: merge (a :: as) bs
    else a :: merge as (b :: bs)

section Growth

variable {F : Type} [LinearOrderedField F]

/-- Row `r` of `transform * pt_src`: the 4x4 matrix whose rows are the four
segments of `coefficients`, applied to the point with fourth coordinate 1
(`pcl::PointXYZ` stores 1 there). -/
def transformRow (coefficients : List F) (r : Nat) (pt_src : Point3 F) : F :=
  coefficients.getD (4 * r) 0 * pt_src.x + coefficients.getD (4 * r + 1) 0 * pt_src.y
    + coefficients.getD (4 * r + 2) 0 * pt_src.z + coefficients.getD (4 * r + 3) 0 * 1

/-- The value `(p_tr - pt_tgt).squaredNorm()` with `p_tr = transform * pt_src`. -/
def squaredResidual (coefficients : List F) (pt_src pt_tgt : Point3 F) : F :=
  (transformRow coefficients 0 pt_src - pt_tgt.x) * (transformRow coefficients 0 pt_src - pt_tgt.x)
    + (transformRow coefficients 1 pt_src - pt_tgt.y)
      * (transformRow coefficients 1 pt_src - pt_tgt.y)
    + (transformRow coefficients 2 pt_src - pt_tgt.z)
      * (transformRow coefficients 2 pt_src - pt_tgt.z)
    + (transformRow coefficients 3 pt_src - 1) * (transformRow coefficients 3 pt_src - 1)

/-- Record of one pass of the growth loop of `Ransac`: the threshold in force,
the refitted coefficients, `inliers` and `valid_indices_vect` before the
pass, the `extra_inliers` found, and `inliers` and `valid_indices_vect` after it. -/
structure GrowthPass (F : Type) where
  thresh : F
  coefficients : List F
  inliers_before : List Nat
  valid_indices_vect_before : List Nat
  extra_inliers : List Nat
  inliers : List Nat
  valid_indices_vect : List Nat

/-- What `Ransac` returns: the coefficients, the vector `inliers`, and the record
of the growth passes it made, in order. -/
structure RansacResult (F : Type) where
  coefficients : List F
  inliers : List Nat
  passes : List (GrowthPass F)

/-- The body of the growth loop of `Ransac` up to the test of `do_final`: refit on
the current inliers, test every remaining index against `thresh`, merge the
extra inliers into `inliers` and remove them from `valid_indices_vect`. -/
def growthPass (svd : Matrix3 F → Matrix3 F × Matrix3 F)
    (query_points_ training_points_ : List (Point3 F)) (thresh : F) (coefficients : List F)
    (inliers valid_indices_vect : List Nat) : GrowthPass F :=
  let new_coefficients :=
    optimizeModelCoefficients svd query_points_ training_points_ inliers coefficients
  let extra_inliers := valid_indices_vect.filter (fun index =>
    decide (squaredResidual new_coefficients (query_points_.getD index Point3.origin)
      (training_points_.getD index Point3.origin) < thresh))
  { thresh := thresh, coefficients := new_coefficients, inliers_before := inliers,
    valid_indices_vect_before := valid_indices_vect, extra_inliers := extra_inliers,
    inliers := merge inliers extra_inliers,
    valid_indices_vect := set_difference valid_indices_vect extra_inliers }

/-- The `while (true)` growth loop of `Ransac`, run for at most `fuel` passes
(`none` when they do not suffice). -/
def growthLoop (svd : Matrix3 F → Matrix3 F × Matrix3 F)
    (query_points_ training_points_ : List (Point3 F)) :
    Nat → Bool → F → List F → List Nat → List Nat → Option (RansacResult F)
  | 0, _, _, _, _, _ => none
  | fuel + 1, do_final, thresh, coefficients, inliers, valid_indices_vect =>
    let pass := growthPass svd query_points_ training_points_ thresh coefficients inliers
      valid_indices_vect
    if do_final then some ⟨pass.coefficients, pass.inliers, [pass]⟩
    else
      match growthLoop svd query_points_ training_points_ fuel
          (if pass.extra_inliers = [] then true else false)
          (if pass.extra_inliers = [] then thresh * 4 else thresh)
          pass.coefficients pass.inliers pass.valid_indices_vect with
      | none => none
      | some r => some ⟨r.coefficients, r.inliers, pass :: r.passes⟩

/-- The method `AdjacencyRansac::Ransac(sensor_error, n_ransac_iterations, inliers)`.
`computeModel` is the outcome of the PCL consensus stage
(`sample_consensus.computeModel()`): `none` when it fails, otherwise the model
coefficients and the inliers it reports.  The growth loop is run for at most
`fuel` passes. -/
def Ransac (svd : Matrix3 F → Matrix3 F × Matrix3 F)
    (computeModel : Option (List F × List Nat)) (sensor_error : F) (fuel : Nat)
    (s : AdjacencyRansac F) : Option (RansacResult F) :=
  match computeModel with
  | none => some ⟨[], [], []⟩
  | some (model_coefficients, consensus_inliers) =>
    let inliers := consensus_inliers.insertionSort (· ≤ ·)
    let valid_indices_vect := set_difference s.valid_indices_ inliers
    let thresh := sensor_error * sensor_error
    growthLoop svd s.query_points_ s.training_points_ fuel false thresh model_coefficients
      inliers valid_indices_vect

/-- Invariant of the growth loop: the remaining pool `valid_indices_vect` is
strictly increasing, `inliers` and the pool are disjoint, and together they
make up the valid indices `valid`. -/
def GrowthInv (valid inliers valid_indices_vect : List Nat) : Prop :=
  valid_indices_vect.Sorted (· < ·) ∧
    (∀ x ∈ inliers, x ∉ valid_indices_vect) ∧
    (∀ x, x ∈ inliers ∨ x ∈ valid_indices_vect ↔ x ∈ valid)

end Growth

/-! ## Example data for `Ransac` -/

/-- A decomposition stand-in that returns the identity for both factors. -/
def exampleSVD (_H : Matrix3 ℚ) : Matrix3 ℚ × Matrix3 ℚ := (1, 1)

/-- Two correspondences with all model points at the origin: observed point 0 at
the origin, observed point 1 at distance 3 from it. -/
def exampleGrowthSet : AdjacencyRansac ℚ :=
  AddPoints (AddPoints AdjacencyRansac.empty Point3.origin Point3.origin 0)
    Point3.origin ⟨3, 0, 0⟩ 1

/-! ## The sample pool (`BuildNeighbors`) -/

/-- The method `BuildNeighbors` of `SampleConsensusModelRegistrationGraph`: every
index of the sample-adjacency matrix with at least 3 neighbors is pushed onto
`sample_pool_`, and the pool is intersected with `indices_` when `indices_` is
not empty.  (`max_neighbors_size` is computed and never used.) -/
def BuildNeighbors (model : SampleConsensusModelRegistrationGraph) :
    SampleConsensusModelRegistrationGraph :=
  let sample_pool_ := (List.range model.sample_adjacency_.size).foldl
    (fun sample_pool_ j =>
      if (model.sample_adjacency_.neighbors j).length ≥ 3 then sample_pool_ ++ [j]
      else sample_pool_)
    model.sample_pool_
  if model.indices_ ≠ [] then
    { model with sample_pool_ := set_intersection sample_pool_ model.indices_ }
  else { model with sample_pool_ := sample_pool_ }

/-- The constructor `SampleConsensusModelRegistrationGraph(cloud, indices, threshold,
physical_adjacency, sample_adjacency)`, as far as the graph fields go. -/
def SampleConsensusModelRegistrationGraph.construct (indices : List Nat)
    (physical_adjacency sample_adjacency : AdjacencyMatrix) :
    SampleConsensusModelRegistrationGraph :=
  BuildNeighbors
    { physical_adjacency_ := physical_adjacency, sample_adjacency_ := sample_adjacency,
      indices_ := indices, sample_pool_ := [], best_inlier_number_ := 0, samples_ := [] }

/-- The sample adjacency of four indices that are pairwise adjacent: each has
exactly 3 neighbors. -/
def exampleClique4 : AdjacencyMatrix := ⟨[[1, 2, 3], [0, 2, 3], [0, 1, 3], [0, 1, 2]]⟩

/-! ## The `Ransac` call of the extraction loop -/

/-- The call `coefficients = adjacency_ransac.Ransac(*sensor_error_, *n_ransac_iterations_, inliers)`
in `process`: the coefficients and the inliers that `Ransac` hands back.
`computeModel s` is the outcome of the consensus stage on the set `s`; the
growth loop is given `valid_indices_.size() + 2` passes, which always suffice. -/
def RansacCall {F : Type} [LinearOrderedField F] (svd : Matrix3 F → Matrix3 F × Matrix3 F)
    (computeModel : AdjacencyRansac F → Option (List F × List Nat)) (sensor_error : F)
    (s : AdjacencyRansac F) : List F × List Nat :=
  match Ransac svd (computeModel s) sensor_error (s.valid_indices_.length + 2) s with
  | some r => (r.coefficients, r.inliers)
  | none => ([], [])

/-! ## Reads of the identifier cursor in `InvalidateQueryIndices` -/

/-- The loop `BOOST_FOREACH(unsigned int index, valid_indices_)` of
`InvalidateQueryIndices` again, this time reporting whether `*iter` is evaluated
while `iter == end` (`iter = []`): in the test `query_index < *iter` at the head
of the body, or in the test `query_index == *iter` after the `while`; inside the
`while` condition the read is guarded by `iter != end`. -/
def scanReadsPastEnd (query_indices_ : List Nat) (past_end : Nat) :
    List Nat → List Nat → Bool
  | [], _ => false
  | index :: rest, iter =>
    let query_index := query_indices_.getD index 0
    if iter = [] then true
    else if query_index < iter.headD past_end then
      scanReadsPastEnd query_indices_ past_end rest iter
    else
      let iter := iter.dropWhile (fun x => decide (query_index > x))
      if iter = [] then true
      else scanReadsPastEnd query_indices_ past_end rest iter

/-- Whether a call of `InvalidateQueryIndices` evaluates `*iter` at the end of the
sorted identifier list. -/
def InvalidateQueryIndices_readsPastEnd {F : Type} (query_indices : List Nat) (past_end : Nat)
    (s : AdjacencyRansac F) : Bool :=
  if query_indices = [] then false
  else scanReadsPastEnd s.query_indices_ past_end s.valid_indices_ (sort_unique query_indices)

/-- Two correspondences with the identifiers 0 and 7. -/
def examplePastEndSet : AdjacencyRansac ℚ :=
  AddPoints (AddPoints AdjacencyRansac.empty Point3.origin Point3.origin 0)
    Point3.origin Point3.origin 7

/-! ## Sequences of calls of the public methods -/

/-- One call of `AddPoints`, `InvalidateIndices` or `InvalidateQueryIndices` with its
arguments (and, for the last, the value found past the end of the list). -/
inductive MethodCall (F : Type) where
  | addPoints (training_point query_point : Point3 F) (query_index : Nat)
  | invalidateIndices (indices : List Nat)
  | invalidateQueryIndices (query_indices : List Nat) (past_end : Nat)

/-- The effect of one call on a correspondence set. -/
def MethodCall.run {F : Type} [LinearOrderedField F] :
    MethodCall F → AdjacencyRansac F → AdjacencyRansac F
  | .addPoints training_point query_point query_index, s =>
    AddPoints s training_point query_point query_index
  | .invalidateIndices indices, s => InvalidateIndices indices s
  | .invalidateQueryIndices query_indices past_end, s =>
    InvalidateQueryIndices query_indices past_end s

/-! ## Round trip of the closed-form fit -/

section RoundTripDefs

variable {F : Type} [LinearOrderedField F]

/-- The contract of `Eigen::JacobiSVD<Eigen::Matrix3f>` with `ComputeFullU | ComputeFullV`:
`U` and `V` are orthogonal and `H = U * diag(σ) * V.transpose()` with singular
values `σ` that are non-negative and in decreasing order. -/
def IsSVD (H U V : Matrix3 F) : Prop :=
  U.transpose * U = 1 ∧ V.transpose * V = 1 ∧
    ∃ σ : Fin 3 → F, σ 1 ≤ σ 0 ∧ σ 2 ≤ σ 1 ∧ 0 ≤ σ 2 ∧
      H = U * Matrix.diagonal σ * V.transpose

/-- Modelled from the spec: the selected points are non-degenerate (not all on
one line): three of them span a triangle, that is, the cross product of two of
the edge vectors is not zero. -/
def NonCollinear (cloud : List (Point3 F)) (indices : List Nat) : Prop :=
  ∃ i ∈ indices, ∃ j ∈ indices, ∃ k ∈ indices,
    crossProduct ((cloud.getD j Point3.origin).toVec - (cloud.getD i Point3.origin).toVec)
      ((cloud.getD k Point3.origin).toVec - (cloud.getD i Point3.origin).toVec) ≠ 0

end RoundTripDefs

/-- Four observed points on the unit circle of the plane `z = 0`. -/
def exampleSquare : List (Point3 ℚ) := [⟨1, 0, 0⟩, ⟨-1, 0, 0⟩, ⟨0, 1, 0⟩, ⟨0, -1, 0⟩]

/-- The rotation by a quarter turn about the z axis. -/
def exampleQuarterTurn : Matrix3 ℚ := fun i j =>
  if i = 0 then (if j = 1 then -1 else 0)
  else if i = 1 then (if j = 0 then 1 else 0)
  else (if j = 2 then 1 else 0)

/-- The points of `exampleSquare` rotated by `exampleQuarterTurn` and moved by `(1, 2, 3)`. -/
def exampleSquareMoved : List (Point3 ℚ) := [⟨1, 3, 3⟩, ⟨1, 1, 3⟩, ⟨0, 2, 3⟩, ⟨2, 2, 3⟩]

/-- A decomposition stand-in that is exact for the correlation matrix of
`exampleSquare` and `exampleSquareMoved`: `U = 1`, `V = exampleQuarterTurn`. -/
def exampleSquareSVD (_H : Matrix3 ℚ) : Matrix3 ℚ × Matrix3 ℚ := (1, exampleQuarterTurn)

/-! ## The pose stored by `GuessGenerator::process` -/

section Pose

variable {F : Type} [LinearOrderedField F]

/-- The entries `coefficients[4 * j + i]`, `i, j < 3`, that `process` copies into
`R_mat(j, i)`: the rotation block of the fitted transform. -/
def coefficientsRotation (coefficients : List F) : Matrix3 F :=
  fun j i => coefficients.getD (4 * j.val + i.val) 0

/-- The entries `coefficients[4 * j + 3]`, `j < 3`, that `process` copies into
`tvec(j, 0)`: the translation of the fitted transform. -/
def coefficientsTranslation (coefficients : List F) : Fin 3 → F :=
  fun j => coefficients.getD (4 * j.val + 3) 0

/-- The part of `PoseResult` that `process` sets from the coefficients: the
rotation (`set_R`) and the translation (`set_T`). -/
structure PoseResult (F : Type) where
  R : Matrix3 F
  T : Fin 3 → F

/-- The block "Store the pose" of `process`: `R_mat` and `tvec` are filled from the
coefficients, then `R_mat = R_mat.t()` and `tvec = -R_mat * tvec`, and both are
stored in `pose_result`. -/
def pose_result (coefficients : List F) : PoseResult F :=
  let R_mat := coefficientsRotation coefficients
  let tvec := coefficientsTranslation coefficients
  let R_mat := R_mat.transpose
  let tvec := (-R_mat).mulVec tvec
  { R := R_mat, T := tvec }

end Pose

/-- The coefficients of the quarter turn about the z axis followed by the
translation `(1, 2, 3)`. -/
def exampleCoefficients : List ℚ := [0, -1, 0, 1, 1, 0, 0, 2, 0, 0, 1, 3, 0, 0, 0, 1]

/-- A model with a stored sample `[0, 1]`, the single physical edge 0-1 and a
third index that is adjacent to nothing. -/
def exampleModel3 : SampleConsensusModelRegistrationGraph :=
  { physical_adjacency_ := ⟨[[1], [0], []]⟩, sample_adjacency_ := ⟨[[1], [0], []]⟩,
    indices_ := [0, 1, 2], sample_pool_ := [], best_inlier_number_ := 0, samples_ := [0, 1] }

/-- Eight indices that are pairwise adjacent. -/
def exampleClique8 : AdjacencyMatrix :=
  ⟨[[1, 2, 3, 4, 5, 6, 7], [0, 2, 3, 4, 5, 6, 7], [0, 1, 3, 4, 5, 6, 7], [0, 1, 2, 4, 5, 6, 7],
    [0, 1, 2, 3, 5, 6, 7], [0, 1, 2, 3, 4, 6, 7], [0, 1, 2, 3, 4, 5, 7], [0, 1, 2, 3, 4, 5, 6]]⟩

/-- The model that the constructor builds for eight valid indices that are
pairwise physically and sample-adjacent. -/
def exampleModel8 : SampleConsensusModelRegistrationGraph :=
  SampleConsensusModelRegistrationGraph.construct [0, 1, 2, 3, 4, 5, 6, 7] exampleClique8
    exampleClique8

/-- A clique search for the examples: all vertices when every vertex is adjacent
to all the others, otherwise none. -/
def exampleFindClique (graph : Graph) (_minimal_size : Nat) : List Nat :=
  if graph.adjacency_.adjacency_.all
      (fun row => decide (row.length + 1 = graph.adjacency_.size)) then
    List.range graph.adjacency_.size
  else []

/-! ## Facts about the sorted-vector algorithms -/

theorem mem_of_mem_set_intersection {x : Nat} :
    ∀ {a b : List Nat}, x ∈ set_intersection a b → x ∈ a ∧ x ∈ b := by
  intro a b
  induction a, b using set_intersection.induct with
  | case1 b => intro h; simp [set_intersection] at h
  | case2 a as => intro h; simp [set_intersection] at h
  | case3 a as b bs hlt ih =>
    intro h
    rw [set_intersection, if_pos hlt] at h
    have := ih h
    exact ⟨List.mem_cons_of_mem _ this.1, this.2⟩
  | case4 a as b bs hlt hlt2 ih =>
    intro h
    rw [set_intersection, if_neg hlt, if_pos hlt2] at h
    have := ih h
    exact ⟨this.1, List.mem_cons_of_mem _ this.2⟩
  | case5 a as b bs hlt hlt2 ih =>
    intro h
    rw [set_intersection, if_neg hlt, if_neg hlt2] at h
    have hab : a = b := by omega
    rcases List.mem_cons.mp h with h | h
    · subst h; exact ⟨List.mem_cons_self _ _, by rw [hab]; exact List.mem_cons_self _ _⟩
    · have := ih h
      exact ⟨List.mem_cons_of_mem _ this.1, List.mem_cons_of_mem _ this.2⟩

theorem set_intersection_sublist :
    ∀ (a b : List Nat), List.Sublist (set_intersection a b) a := by
  intro a b
  induction a, b using set_intersection.induct with
  | case1 b => simp [set_intersection]
  | case2 a as => simp [set_intersection]
  | case3 a as b bs hlt ih =>
    rw [set_intersection, if_pos hlt]
    exact List.Sublist.cons _ ih
  | case4 a as b bs hlt hlt2 ih =>
    rw [set_intersection, if_neg hlt, if_pos hlt2]
    exact ih
  | case5 a as b bs hlt hlt2 ih =>
    rw [set_intersection, if_neg hlt, if_neg hlt2]
    exact List.Sublist.cons₂ _ ih

theorem mem_set_intersection_of_sorted {x : Nat} :
    ∀ {a b : List Nat}, a.Sorted (· ≤ ·) → b.Sorted (· ≤ ·) → x ∈ a → x ∈ b →
      x ∈ set_intersection a b := by
  intro a b
  induction a, b using set_intersection.induct with
  | case1 b => intro _ _ h; simp at h
  | case2 a as => intro _ _ _ h; simp at h
  | case3 a as b bs hlt ih =>
    intro ha hb hxa hxb
    rw [set_intersection, if_pos hlt]
    have hb2 := List.sorted_cons.mp hb
    rcases List.mem_cons.mp hxa with h | h
    · subst h
      rcases List.mem_cons.mp hxb with h2 | h2
      · omega
      · have := hb2.1 _ h2; omega
    · exact ih (List.sorted_cons.mp ha).2 hb h hxb
  | case4 a as b bs hlt hlt2 ih =>
    intro ha hb hxa hxb
    rw [set_intersection, if_neg hlt, if_pos hlt2]
    have ha2 := List.sorted_cons.mp ha
    rcases List.mem_cons.mp hxb with h | h
    · subst h
      rcases List.mem_cons.mp hxa with h2 | h2
      · omega
      · have := ha2.1 _ h2; omega
    · exact ih ha (List.sorted_cons.mp hb).2 hxa h
  | case5 a as b bs hlt hlt2 ih =>
    intro ha hb hxa hxb
    rw [set_intersection, if_neg hlt, if_neg hlt2]
    have hab : a = b := by omega
    have ha2 := List.sorted_cons.mp ha
    have hb2 := List.sorted_cons.mp hb
    rcases List.mem_cons.mp hxa with h | h
    · subst h; exact List.mem_cons_self _ _
    · rcases List.mem_cons.mp hxb with h2 | h2
      · subst h2; rw [hab]; exact List.mem_cons_self _ _
      · exact List.mem_cons_of_mem _ (ih ha2.2 hb2.2 h h2)

theorem set_intersection_sorted {a : List Nat} (b : List Nat) (ha : a.Sorted (· ≤ ·)) :
    (set_intersection a b).Sorted (· ≤ ·) :=
  List.Pairwise.sublist (set_intersection_sublist a b) ha

theorem mem_remove {v : List Nat} {x y : Nat} : y ∈ remove v x ↔ y ∈ v ∧ y ≠ x := by
  simp [remove]

theorem remove_sorted {v : List Nat} (x : Nat) (hv : v.Sorted (· ≤ ·)) :
    (remove v x).Sorted (· ≤ ·) :=
  List.Pairwise.sublist (List.filter_sublist _) hv

theorem getD_mod_mem {v : List Nat} (h : v ≠ []) (r : Nat) :
    v.getD (r % v.length) 0 ∈ v := by
  have hpos : 0 < v.length := List.length_pos.mpr h
  have hlt : r % v.length < v.length := Nat.mod_lt _ hpos
  rw [List.getD_eq_getElem _ _ hlt]
  exact List.getElem_mem _

/-! ## Soundness of the sampler -/

theorem drawLoop_unfold (adj : AdjacencyMatrix) (rand : Nat → Nat)
    (rec : List Nat → List Nat → Nat → DrawResult) (samples valid : List Nat) (pos : Nat)
    (h : valid ≠ []) :
    drawLoop adj rand rec samples valid pos =
      if (rec (set_intersection valid
            (adj.neighbors (valid.getD (rand pos % valid.length) 0))) [] (pos + 1)).ok = true then
        ⟨true,
          (rec (set_intersection valid
            (adj.neighbors (valid.getD (rand pos % valid.length) 0))) [] (pos + 1)).valid_samples,
          (rec (set_intersection valid
            (adj.neighbors (valid.getD (rand pos % valid.length) 0))) [] (pos + 1)).samples ++
            [valid.getD (rand pos % valid.length) 0],
          (rec (set_intersection valid
            (adj.neighbors (valid.getD (rand pos % valid.length) 0))) [] (pos + 1)).pos⟩
      else
        drawLoop adj rand rec samples (remove valid (valid.getD (rand pos % valid.length) 0))
          (rec (set_intersection valid
            (adj.neighbors (valid.getD (rand pos % valid.length) 0))) [] (pos + 1)).pos := by
  rw [drawLoop, dif_neg h]

theorem drawLoop_nil (adj : AdjacencyMatrix) (rand : Nat → Nat)
    (rec : List Nat → List Nat → Nat → DrawResult) (samples : List Nat) (pos : Nat) :
    drawLoop adj rand rec samples [] pos = ⟨false, [], samples, pos⟩ := by
  rw [drawLoop, dif_pos rfl]

theorem remove_length_lt {v : List Nat} {x : Nat} (h : x ∈ v) :
    (remove v x).length < v.length := by
  unfold remove
  exact List.length_filter_lt_length_iff_exists.mpr ⟨x, h, by simp⟩

theorem drawLoop_sound (adj : AdjacencyMatrix) (rand : Nat → Nat)
    (rec : List Nat → List Nat → Nat → DrawResult) (n : Nat)
    (hloop : ∀ i, adj.test i i = false)
    (hrec : ∀ v p, (rec v [] p).ok = true → GoodSample adj n v (rec v [] p).samples)
    (samples : List Nat) :
    ∀ (m : Nat) (valid : List Nat) (pos : Nat), valid.length = m →
      (drawLoop adj rand rec samples valid pos).ok = true →
      GoodSample adj (n + 1) valid (drawLoop adj rand rec samples valid pos).samples := by
  intro m
  induction m using Nat.strong_induction_on with
  | _ m ih =>
    intro valid pos hm hok
    by_cases hv : valid = []
    · subst hv; rw [drawLoop_nil] at hok; simp at hok
    · rw [drawLoop_unfold _ _ _ _ _ _ hv] at hok ⊢
      have hmem := getD_mod_mem hv (rand pos)
      generalize valid.getD (rand pos % valid.length) 0 = s at hok hmem ⊢
      by_cases hr : (rec (set_intersection valid (adj.neighbors s)) [] (pos + 1)).ok = true
      · rw [if_pos hr]
        obtain ⟨hlen, hnd, hsub, hpw⟩ := hrec _ _ hr
        have hin : ∀ x ∈ (rec (set_intersection valid (adj.neighbors s)) [] (pos + 1)).samples,
            x ∈ valid ∧ x ∈ adj.neighbors s :=
          fun x hx => mem_of_mem_set_intersection (hsub x hx)
        refine ⟨?_, ?_, ?_, ?_⟩
        · show (_ ++ [s]).length = n + 1
          rw [List.length_append, hlen, List.length_singleton]
        · show (_ ++ [s]).Nodup
          rw [List.nodup_append]
          refine ⟨hnd, List.nodup_singleton _, ?_⟩
          intro x hx hx2
          rw [List.mem_singleton] at hx2
          subst hx2
          have h1 := (hin _ hx).2
          have h2 := hloop x
          unfold AdjacencyMatrix.test at h2
          exact (of_decide_eq_false h2) h1
        · intro x hx
          rcases List.mem_append.mp hx with h | h
          · exact (hin x h).1
          · rw [List.mem_singleton] at h; rw [h]; exact hmem
        · show (_ ++ [s]).Pairwise _
          rw [List.pairwise_append]
          refine ⟨hpw, List.pairwise_singleton _ _, ?_⟩
          intro a ha b hb
          rw [List.mem_singleton] at hb
          subst hb
          unfold AdjacencyMatrix.test
          exact decide_eq_true (hin a ha).2
      · rw [if_neg hr] at hok ⊢
        have hlt : (remove valid s).length < m := by
          rw [← hm]; exact remove_length_lt hmem
        obtain ⟨h1, h2, h3, h4⟩ := ih _ hlt _ _ rfl hok
        exact ⟨h1, h2, fun x hx => (mem_remove.mp (h3 x hx)).1, h4⟩

theorem drawIndexSampleHelper_good (adj : AdjacencyMatrix) (rand : Nat → Nat)
    (hloop : ∀ i, adj.test i i = false) :
    ∀ (k : Nat) (pool samples : List Nat) (pos : Nat), (k = 0 → samples = []) →
      (drawIndexSampleHelper adj rand k pool samples pos).ok = true →
      GoodSample adj k pool (drawIndexSampleHelper adj rand k pool samples pos).samples := by
  intro k
  induction k with
  | zero =>
    intro pool samples pos h0 _
    rw [h0 rfl]
    simp [drawIndexSampleHelper, GoodSample]
  | succ n ih =>
    intro pool samples pos _ hok
    rw [drawIndexSampleHelper] at hok ⊢
    exact drawLoop_sound adj rand _ n hloop (fun v p h => ih v [] p (fun _ => rfl) h)
      samples _ pool pos rfl hok

/-! ## Completeness of the sampler -/

theorem drawLoop_complete (adj : AdjacencyMatrix) (rand : Nat → Nat)
    (rec : List Nat → List Nat → Nat → DrawResult) (n : Nat)
    (hrows : ∀ i, (adj.neighbors i).Sorted (· ≤ ·))
    (hrec : ∀ v p, v.Sorted (· ≤ ·) → (rec v [] p).ok = false → ¬ HasClique adj n v)
    (samples : List Nat) :
    ∀ (m : Nat) (valid : List Nat) (pos : Nat), valid.length = m → valid.Sorted (· ≤ ·) →
      (drawLoop adj rand rec samples valid pos).ok = false →
      ¬ HasClique adj (n + 1) valid := by
  intro m
  induction m using Nat.strong_induction_on with
  | _ m ih =>
    intro valid pos hm hsorted hfail
    by_cases hv : valid = []
    · subst hv
      rintro ⟨c, hlen, -, hsub, -⟩
      cases c with
      | nil => simp at hlen
      | cons x t => exact List.not_mem_nil _ (hsub x (List.mem_cons_self _ _))
    · rw [drawLoop_unfold _ _ _ _ _ _ hv] at hfail
      have hmem := getD_mod_mem hv (rand pos)
      generalize valid.getD (rand pos % valid.length) 0 = s at hfail hmem
      by_cases hr : (rec (set_intersection valid (adj.neighbors s)) [] (pos + 1)).ok = true
      · rw [if_pos hr] at hfail
        simp at hfail
      · rw [if_neg hr] at hfail
        have hlt : (remove valid s).length < m := by
          rw [← hm]; exact remove_length_lt hmem
        have hno := ih _ hlt _ _ rfl (remove_sorted s hsorted) hfail
        have hno2 := hrec _ (pos + 1) (set_intersection_sorted (adj.neighbors s) hsorted)
          (by simpa using hr)
        rintro ⟨c, hlen, hnd, hsub, hadj⟩
        by_cases hsc : s ∈ c
        · apply hno2
          refine ⟨c.erase s, ?_, hnd.erase s, ?_, ?_⟩
          · rw [List.length_erase_of_mem hsc, hlen]; rfl
          · intro x hx
            have hxc : x ∈ c := List.mem_of_mem_erase hx
            have hxs : x ≠ s := fun h => by
              rw [h] at hx; exact (List.Nodup.not_mem_erase hnd) hx
            have ht := hadj s hsc x hxc (Ne.symm hxs)
            unfold AdjacencyMatrix.test at ht
            exact mem_set_intersection_of_sorted hsorted (hrows s) (hsub x hxc)
              (of_decide_eq_true ht)
          · intro a ha b hb hab
            exact hadj a (List.mem_of_mem_erase ha) b (List.mem_of_mem_erase hb) hab
        · apply hno
          refine ⟨c, hlen, hnd, ?_, hadj⟩
          intro x hx
          exact mem_remove.mpr ⟨hsub x hx, fun h => hsc (h ▸ hx)⟩

theorem drawIndexSampleHelper_complete (adj : AdjacencyMatrix) (rand : Nat → Nat)
    (hrows : ∀ i, (adj.neighbors i).Sorted (· ≤ ·)) :
    ∀ (k : Nat) (pool samples : List Nat) (pos : Nat), pool.Sorted (· ≤ ·) →
      (drawIndexSampleHelper adj rand k pool samples pos).ok = false →
      ¬ HasClique adj k pool := by
  intro k
  induction k with
  | zero =>
    intro pool samples pos _ hfail
    simp [drawIndexSampleHelper] at hfail
  | succ n ih =>
    intro pool samples pos hs hfail
    rw [drawIndexSampleHelper] at hfail
    exact drawLoop_complete adj rand _ n hrows (fun v p hv h => ih v [] p hv h)
      samples _ pool pos rfl hs hfail

theorem hasClique_of_goodSample (adj : AdjacencyMatrix) (k : Nat) (pool samples : List Nat)
    (hsymm : ∀ i j, adj.test i j = true → adj.test j i = true)
    (h : GoodSample adj k pool samples) : HasClique adj k pool := by
  obtain ⟨h1, h2, h3, h4⟩ := h
  refine ⟨samples, h1, h2, h3, ?_⟩
  intro a ha b hb hab
  have hS : Symmetric (fun a b => adj.test b a = true) := fun x y hxy => hsymm _ _ hxy
  exact hsymm _ _ (List.Pairwise.forall hS h4 ha hb hab)

/-! ## The sampler: soundness (C1) and completeness (C2) -/

/-- C1. Sampler soundness.  For a sample-adjacency matrix without self-loops,
any pool, any `k` and any `rand()` sequence: when `drawIndexSampleHelper`
reports success, the vector it hands back has exactly `k` entries, no entry
twice, every entry taken from the pool, and every entry is sample-adjacent to
the entries pushed before it; for a symmetric matrix every two entries are
sample-adjacent in both directions.  (The vector passed in is empty when
`k = 0`, as at both call sites: the call returns at once and never writes it.)
The same holds for `isSampleGood`, with `k` the size of the vector it is
given and the pool `sample_pool_`, and the sample is the one stored in `samples_`. -/
theorem drawIndexSampleHelper_sample_is_clique (adj : AdjacencyMatrix) (rand : Nat → Nat)
    (hloop : ∀ i, adj.test i i = false) :
    (∀ (k : Nat) (pool samples : List Nat) (pos : Nat), (k = 0 → samples = []) →
      (drawIndexSampleHelper adj rand k pool samples pos).ok = true →
      (drawIndexSampleHelper adj rand k pool samples pos).samples.length = k ∧
      (drawIndexSampleHelper adj rand k pool samples pos).samples.Nodup ∧
      (∀ x ∈ (drawIndexSampleHelper adj rand k pool samples pos).samples, x ∈ pool) ∧
      (drawIndexSampleHelper adj rand k pool samples pos).samples.Pairwise
        (fun a b => adj.test b a = true) ∧
      ((∀ i j, adj.test i j = true → adj.test j i = true) →
        ∀ a ∈ (drawIndexSampleHelper adj rand k pool samples pos).samples,
        ∀ b ∈ (drawIndexSampleHelper adj rand k pool samples pos).samples,
          a ≠ b → adj.test a b = true)) ∧
    (∀ (model : SampleConsensusModelRegistrationGraph) (samples : List Nat) (pos : Nat),
      model.sample_adjacency_ = adj →
      (isSampleGood model rand samples pos).is_good = true →
      (isSampleGood model rand samples pos).model.samples_ =
        (isSampleGood model rand samples pos).samples ∧
      (isSampleGood model rand samples pos).samples.length = samples.length ∧
      (isSampleGood model rand samples pos).samples.Nodup ∧
      (∀ x ∈ (isSampleGood model rand samples pos).samples, x ∈ model.sample_pool_) ∧
      (isSampleGood model rand samples pos).samples.Pairwise
        (fun a b => adj.test b a = true) ∧
      ((∀ i j, adj.test i j = true → adj.test j i = true) →
        ∀ a ∈ (isSampleGood model rand samples pos).samples,
        ∀ b ∈ (isSampleGood model rand samples pos).samples,
          a ≠ b → adj.test a b = true)) := by
  have key : ∀ (k : Nat) (pool samples : List Nat) (pos : Nat), (k = 0 → samples = []) →
      (drawIndexSampleHelper adj rand k pool samples pos).ok = true →
      (drawIndexSampleHelper adj rand k pool samples pos).samples.length = k ∧
      (drawIndexSampleHelper adj rand k pool samples pos).samples.Nodup ∧
      (∀ x ∈ (drawIndexSampleHelper adj rand k pool samples pos).samples, x ∈ pool) ∧
      (drawIndexSampleHelper adj rand k pool samples pos).samples.Pairwise
        (fun a b => adj.test b a = true) ∧
      ((∀ i j, adj.test i j = true → adj.test j i = true) →
        ∀ a ∈ (drawIndexSampleHelper adj rand k pool samples pos).samples,
        ∀ b ∈ (drawIndexSampleHelper adj rand k pool samples pos).samples,
          a ≠ b → adj.test a b = true) := by
    intro k pool samples pos h0 hok
    obtain ⟨h1, h2, h3, h4⟩ := drawIndexSampleHelper_good adj rand hloop k pool samples pos h0 hok
    refine ⟨h1, h2, h3, h4, ?_⟩
    intro hsymm a ha b hb hab
    have hS : Symmetric (fun a b => adj.test b a = true) := fun x y hxy => hsymm _ _ hxy
    exact hsymm _ _ (List.Pairwise.forall hS h4 ha hb hab)
  refine ⟨key, ?_⟩
  intro model samples pos hadj hgood
  have hok : (drawIndexSampleHelper adj rand samples.length model.sample_pool_ samples pos).ok
      = true := by
    by_contra hne
    have hf : (drawIndexSampleHelper model.sample_adjacency_ rand samples.length
        model.sample_pool_ samples pos).ok = false := by
      rw [hadj]; simpa using hne
    simp [isSampleGood, hf] at hgood
  have hres : isSampleGood model rand samples pos =
      ⟨true, (drawIndexSampleHelper adj rand samples.length model.sample_pool_ samples pos).samples,
        { model with samples_ :=
          (drawIndexSampleHelper adj rand samples.length model.sample_pool_ samples pos).samples },
        (drawIndexSampleHelper adj rand samples.length model.sample_pool_ samples pos).pos⟩ := by
    simp only [isSampleGood, hadj, hok, if_true]
  rw [hres]
  exact ⟨rfl, key samples.length model.sample_pool_ samples pos
    (fun h => List.length_eq_zero.mp h) hok⟩

/-- Witness for C1: a triangle, pool `[0, 1, 2]`, `k = 2`, `rand()` always 0. -/
theorem drawIndexSampleHelper_sample_is_clique_witness :
    (drawIndexSampleHelper ⟨[[1, 2], [0, 2], [0, 1]]⟩ (fun _ => 0) 2 [0, 1, 2] [] 0).ok = true ∧
    (drawIndexSampleHelper ⟨[[1, 2], [0, 2], [0, 1]]⟩ (fun _ => 0) 2 [0, 1, 2] [] 0).samples.length
      = 2 := by
  have hloop : ∀ i, (AdjacencyMatrix.mk [[1, 2], [0, 2], [0, 1]]).test i i = false := by
    intro i
    rcases i with _ | _ | _ | i <;> simp [AdjacencyMatrix.test, AdjacencyMatrix.neighbors]
  have hok : (drawIndexSampleHelper ⟨[[1, 2], [0, 2], [0, 1]]⟩ (fun _ => 0) 2 [0, 1, 2] [] 0).ok
      = true := by
    simp [drawIndexSampleHelper, drawLoop, set_intersection, AdjacencyMatrix.neighbors]
  exact ⟨hok, ((drawIndexSampleHelper_sample_is_clique _ _ hloop).1 2 [0, 1, 2] [] 0
    (fun h => absurd h (by decide)) hok).1⟩

/-- C2, as stated, fails for a relation with a self-loop: with the single index 0
adjacent to itself, pool `[0]` and `k = 2`, the sampler draws 0 twice and
reports success, although the pool holds no two distinct indices. -/
theorem drawIndexSampleHelper_self_loop_counterexample :
    (drawIndexSampleHelper ⟨[[0]]⟩ (fun _ => 0) 2 [0] [] 0).ok = true ∧
    (drawIndexSampleHelper ⟨[[0]]⟩ (fun _ => 0) 2 [0] [] 0).samples = [0, 0] ∧
    ¬ HasClique ⟨[[0]]⟩ 2 [0] := by
  refine ⟨?_, ?_, ?_⟩
  · simp [drawIndexSampleHelper, drawLoop, set_intersection, AdjacencyMatrix.neighbors]
  · simp [drawIndexSampleHelper, drawLoop, set_intersection, AdjacencyMatrix.neighbors]
  · rintro ⟨c, hlen, hnd, hsub, -⟩
    match c, hlen, hnd, hsub with
    | [a, b], _, hnd, hsub =>
      have ha : a = 0 := by simpa using hsub a (by simp)
      have hb : b = 0 := by simpa using hsub b (by simp)
      subst ha; subst hb
      simp at hnd

/-- C2 (amended). Sampler completeness.  For a symmetric sample-adjacency matrix
without self-loops whose neighbor lists are sorted, a sorted pool, any `k` and
any `rand()` sequence, `drawIndexSampleHelper` (a total function: the call
always returns) succeeds if and only if the pool contains `k` distinct,
pairwise sample-adjacent indices; and for `k = 0` it succeeds on every pool,
the empty one included, whatever the matrix. -/
theorem drawIndexSampleHelper_succeeds_iff_clique (adj : AdjacencyMatrix) (rand : Nat → Nat)
    (k : Nat) (pool samples : List Nat) (pos : Nat)
    (hloop : ∀ i, adj.test i i = false)
    (hsymm : ∀ i j, adj.test i j = true → adj.test j i = true)
    (hrows : ∀ i, (adj.neighbors i).Sorted (· ≤ ·))
    (hpool : pool.Sorted (· ≤ ·)) :
    ((drawIndexSampleHelper adj rand k pool samples pos).ok = true ↔ HasClique adj k pool) ∧
    (∀ (adj0 : AdjacencyMatrix) (pool0 samples0 : List Nat) (pos0 : Nat),
      (drawIndexSampleHelper adj0 rand 0 pool0 samples0 pos0).ok = true) := by
  refine ⟨⟨?_, ?_⟩, ?_⟩
  · intro hok
    cases k with
    | zero => exact ⟨[], rfl, List.nodup_nil, by simp, by simp⟩
    | succ n =>
      exact hasClique_of_goodSample adj _ pool _ hsymm
        (drawIndexSampleHelper_good adj rand hloop (n + 1) pool samples pos (by simp) hok)
  · intro hc
    by_contra hne
    have hf : (drawIndexSampleHelper adj rand k pool samples pos).ok = false := by
      simpa using hne
    exact drawIndexSampleHelper_complete adj rand hrows k pool samples pos hpool hf hc
  · intro adj0 pool0 samples0 pos0
    simp [drawIndexSampleHelper]

/-- Witness for C2 (amended): a single edge 0-1, pool `[0, 1]`, `k = 2`. -/
theorem drawIndexSampleHelper_succeeds_iff_clique_witness :
    ((drawIndexSampleHelper ⟨[[1], [0]]⟩ (fun _ => 0) 2 [0, 1] [] 0).ok = true ↔
      HasClique ⟨[[1], [0]]⟩ 2 [0, 1]) := by
  have hloop : ∀ i, (AdjacencyMatrix.mk [[1], [0]]).test i i = false := by
    intro i
    rcases i with _ | _ | i <;> simp [AdjacencyMatrix.test, AdjacencyMatrix.neighbors]
  have hsymm : ∀ i j, (AdjacencyMatrix.mk [[1], [0]]).test i j = true →
      (AdjacencyMatrix.mk [[1], [0]]).test j i = true := by
    intro i j
    rcases i with _ | _ | i <;>
      simp [AdjacencyMatrix.test, AdjacencyMatrix.neighbors] <;> intro h <;> subst h <;> simp
  have hrows : ∀ i, ((AdjacencyMatrix.mk [[1], [0]]).neighbors i).Sorted (· ≤ ·) := by
    intro i
    rcases i with _ | _ | i <;> simp [AdjacencyMatrix.neighbors]
  have hpool : ([0, 1] : List Nat).Sorted (· ≤ ·) := by simp
  exact (drawIndexSampleHelper_succeeds_iff_clique _ (fun _ => 0) 2 [0, 1] [] 0
    hloop hsymm hrows hpool).1

/-! ## Facts about the adjacency matrix -/

theorem push_back_row_length (rows : List (List Nat)) (i v : Nat) :
    (AdjacencyMatrix.push_back_row rows i v).length = rows.length := by
  induction rows generalizing i with
  | nil => simp [AdjacencyMatrix.push_back_row]
  | cons r rs ih =>
    cases i with
    | zero => simp [AdjacencyMatrix.push_back_row]
    | succ i => simp [AdjacencyMatrix.push_back_row, ih]

theorem push_back_row_getD (rows : List (List Nat)) (i v a : Nat) :
    (AdjacencyMatrix.push_back_row rows i v).getD a [] =
      if a = i ∧ i < rows.length then rows.getD a [] ++ [v] else rows.getD a [] := by
  induction rows generalizing i a with
  | nil => simp [AdjacencyMatrix.push_back_row]
  | cons r rs ih =>
    cases i with
    | zero =>
      cases a with
      | zero => simp [AdjacencyMatrix.push_back_row]
      | succ a => simp [AdjacencyMatrix.push_back_row]
    | succ i =>
      cases a with
      | zero => simp [AdjacencyMatrix.push_back_row]
      | succ a =>
        have := ih i a
        simp only [AdjacencyMatrix.push_back_row, List.getD_cons_succ, List.length_cons,
          Nat.add_lt_add_iff_right, Nat.add_right_cancel_iff]
        exact this

theorem set_sorted_size (m : AdjacencyMatrix) (i j : Nat) :
    (m.set_sorted i j).size = m.size := by
  simp [AdjacencyMatrix.set_sorted, AdjacencyMatrix.size, push_back_row_length]

theorem set_sorted_neighbors (m : AdjacencyMatrix) (i j a : Nat) (hi : i < m.size)
    (hj : j < m.size) (hij : i ≠ j) :
    (m.set_sorted i j).neighbors a =
      if a = i then m.neighbors a ++ [j]
      else if a = j then m.neighbors a ++ [i] else m.neighbors a := by
  unfold AdjacencyMatrix.size at hi hj
  simp only [AdjacencyMatrix.set_sorted, AdjacencyMatrix.neighbors, push_back_row_getD,
    push_back_row_length]
  by_cases h1 : a = i
  · have h2 : a ≠ j := fun h => hij (h1 ▸ h)
    simp [h1, hi, hij]
  · by_cases h2 : a = j
    · simp [h2, hj, Ne.symm hij]
    · simp [h1, h2]

theorem init_size (n : Nat) : (AdjacencyMatrix.init n).size = n := by
  simp [AdjacencyMatrix.init, AdjacencyMatrix.size]

theorem init_neighbors (n a : Nat) : (AdjacencyMatrix.init n).neighbors a = [] := by
  simp only [AdjacencyMatrix.init, AdjacencyMatrix.neighbors]
  by_cases h : a < n
  · rw [List.getD_eq_getElem _ _ (by simpa using h)]; simp
  · rw [List.getD_eq_default _ _ (by simpa using h)]

/-! ## The edge-adding loops of `FillAdjacency` -/

theorem buildInv_init (c : Nat → Nat → Prop) (n : Nat) :
    BuildInv c n (fun _ _ => False) (AdjacencyMatrix.init n) := by
  refine ⟨init_size n, ?_, ?_⟩
  · intro a; rw [init_neighbors]; exact List.sorted_nil
  · intro a b; rw [init_neighbors]; simp

theorem buildInv_step (c : Nat → Nat → Prop) [DecidableRel c] (n : Nat)
    (P : Nat → Nat → Prop) (m : AdjacencyMatrix) (i j : Nat)
    (hinv : BuildInv c n P m) (hij : i < j) (hj : j < n)
    (hP : ∀ a b, P a b → a < b ∧ (a < i ∨ (a = i ∧ b < j))) :
    BuildInv c n (fun a b => P a b ∨ (a = i ∧ b = j))
      (if c i j then m.set_sorted i j else m) := by
  obtain ⟨hsize, hsorted, hmem⟩ := hinv
  by_cases hc : c i j
  · rw [if_pos hc]
    have hi' : i < m.size := by omega
    have hj' : j < m.size := by omega
    have hne : i ≠ j := by omega
    refine ⟨by rw [set_sorted_size]; exact hsize, ?_, ?_⟩
    · intro a
      rw [set_sorted_neighbors m i j a hi' hj' hne]
      by_cases h1 : a = i
      · rw [if_pos h1]
        subst h1
        refine List.pairwise_append.mpr ⟨hsorted a, List.pairwise_singleton _ _, ?_⟩
        intro x hx y hy
        rw [List.mem_singleton] at hy
        subst hy
        rcases (hmem a x).mp hx with ⟨hp, -⟩ | ⟨hp, -⟩
        · have := hP _ _ hp; omega
        · have := hP _ _ hp; omega
      · rw [if_neg h1]
        by_cases h2 : a = j
        · rw [if_pos h2]
          subst h2
          refine List.pairwise_append.mpr ⟨hsorted a, List.pairwise_singleton _ _, ?_⟩
          intro x hx y hy
          rw [List.mem_singleton] at hy
          subst hy
          rcases (hmem a x).mp hx with ⟨hp, -⟩ | ⟨hp, -⟩
          · have := hP _ _ hp; omega
          · have := hP _ _ hp; omega
        · rw [if_neg h2]; exact hsorted a
    · intro a b
      rw [set_sorted_neighbors m i j a hi' hj' hne]
      by_cases h1 : a = i
      · rw [if_pos h1, List.mem_append, List.mem_singleton, hmem]
        subst h1
        constructor
        · rintro ((⟨hp, hc'⟩ | ⟨hp, hc'⟩) | rfl)
          · exact Or.inl ⟨Or.inl hp, hc'⟩
          · exact Or.inr ⟨Or.inl hp, hc'⟩
          · exact Or.inl ⟨Or.inr ⟨rfl, rfl⟩, hc⟩
        · rintro (⟨hp | ⟨-, rfl⟩, hc'⟩ | ⟨hp | ⟨rfl, h3⟩, hc'⟩)
          · exact Or.inl (Or.inl ⟨hp, hc'⟩)
          · exact Or.inr rfl
          · exact Or.inl (Or.inr ⟨hp, hc'⟩)
          · omega
      · rw [if_neg h1]
        by_cases h2 : a = j
        · rw [if_pos h2, List.mem_append, List.mem_singleton, hmem]
          subst h2
          constructor
          · rintro ((⟨hp, hc'⟩ | ⟨hp, hc'⟩) | rfl)
            · exact Or.inl ⟨Or.inl hp, hc'⟩
            · exact Or.inr ⟨Or.inl hp, hc'⟩
            · exact Or.inr ⟨Or.inr ⟨rfl, rfl⟩, hc⟩
          · rintro (⟨hp | ⟨h3, -⟩, hc'⟩ | ⟨hp | ⟨rfl, -⟩, hc'⟩)
            · exact Or.inl (Or.inl ⟨hp, hc'⟩)
            · exact absurd h3 h1
            · exact Or.inl (Or.inr ⟨hp, hc'⟩)
            · exact Or.inr rfl
        · rw [if_neg h2, hmem]
          constructor
          · rintro (⟨hp, hc'⟩ | ⟨hp, hc'⟩)
            · exact Or.inl ⟨Or.inl hp, hc'⟩
            · exact Or.inr ⟨Or.inl hp, hc'⟩
          · rintro (⟨hp | ⟨h3, -⟩, hc'⟩ | ⟨hp | ⟨-, h3⟩, hc'⟩)
            · exact Or.inl ⟨hp, hc'⟩
            · exact absurd h3 h1
            · exact Or.inr ⟨hp, hc'⟩
            · exact absurd h3 h2
  · rw [if_neg hc]
    refine ⟨hsize, hsorted, ?_⟩
    intro a b
    rw [hmem]
    constructor
    · rintro (⟨hp, hc'⟩ | ⟨hp, hc'⟩)
      · exact Or.inl ⟨Or.inl hp, hc'⟩
      · exact Or.inr ⟨Or.inl hp, hc'⟩
    · rintro (⟨hp | ⟨rfl, rfl⟩, hc'⟩ | ⟨hp | ⟨rfl, rfl⟩, hc'⟩)
      · exact Or.inl ⟨hp, hc'⟩
      · exact absurd hc' hc
      · exact Or.inr ⟨hp, hc'⟩
      · exact absurd hc' hc

theorem buildInv_congr (c : Nat → Nat → Prop) (n : Nat) (P Q : Nat → Nat → Prop)
    (m : AdjacencyMatrix) (h : ∀ a b, P a b ↔ Q a b) (hinv : BuildInv c n P m) :
    BuildInv c n Q m := by
  have : P = Q := by funext a b; exact propext (h a b)
  rw [← this]; exact hinv

theorem fold_inner_inv (c1 c2 : Nat → Nat → Prop) [DecidableRel c1] [DecidableRel c2]
    (n i : Nat) :
    ∀ (js : List Nat) (P : Nat → Nat → Prop) (adj : AdjacencyMatrix × AdjacencyMatrix),
      js.Sorted (· < ·) → (∀ j ∈ js, i < j ∧ j < n) →
      (∀ a b, P a b → a < b ∧ (a < i ∨ (a = i ∧ ∀ j ∈ js, b < j))) →
      BuildInv c1 n P adj.1 → BuildInv c2 n P adj.2 →
      BuildInv c1 n (fun a b => P a b ∨ (a = i ∧ b ∈ js))
        (js.foldl (fun adj j => (if c1 i j then adj.1.set_sorted i j else adj.1,
          if c2 i j then adj.2.set_sorted i j else adj.2)) adj).1 ∧
      BuildInv c2 n (fun a b => P a b ∨ (a = i ∧ b ∈ js))
        (js.foldl (fun adj j => (if c1 i j then adj.1.set_sorted i j else adj.1,
          if c2 i j then adj.2.set_sorted i j else adj.2)) adj).2 := by
  intro js
  induction js with
  | nil =>
    intro P adj _ _ _ h1 h2
    exact ⟨buildInv_congr _ _ _ _ _ (by simp) h1, buildInv_congr _ _ _ _ _ (by simp) h2⟩
  | cons j js ih =>
    intro P adj hs hb hP h1 h2
    have hs' := List.sorted_cons.mp hs
    have hbj := hb j (List.mem_cons_self _ _)
    have hPj : ∀ a b, P a b → a < b ∧ (a < i ∨ (a = i ∧ b < j)) := by
      intro a b hab
      obtain ⟨h3, h4⟩ := hP a b hab
      refine ⟨h3, ?_⟩
      rcases h4 with h4 | ⟨h4, h5⟩
      · exact Or.inl h4
      · exact Or.inr ⟨h4, h5 j (List.mem_cons_self _ _)⟩
    have s1 := buildInv_step c1 n P adj.1 i j h1 hbj.1 hbj.2 hPj
    have s2 := buildInv_step c2 n P adj.2 i j h2 hbj.1 hbj.2 hPj
    have hP' : ∀ a b, (P a b ∨ (a = i ∧ b = j)) →
        a < b ∧ (a < i ∨ (a = i ∧ ∀ j' ∈ js, b < j')) := by
      intro a b hab
      rcases hab with hab | ⟨rfl, rfl⟩
      · obtain ⟨h3, h4⟩ := hP a b hab
        refine ⟨h3, ?_⟩
        rcases h4 with h4 | ⟨h4, h5⟩
        · exact Or.inl h4
        · exact Or.inr ⟨h4, fun j' hj' => h5 j' (List.mem_cons_of_mem _ hj')⟩
      · exact ⟨hbj.1, Or.inr ⟨rfl, fun j' hj' => hs'.1 j' hj'⟩⟩
    have := ih (fun a b => P a b ∨ (a = i ∧ b = j))
      (if c1 i j then adj.1.set_sorted i j else adj.1,
        if c2 i j then adj.2.set_sorted i j else adj.2)
      hs'.2 (fun j' hj' => hb j' (List.mem_cons_of_mem _ hj')) hP' s1 s2
    rw [List.foldl_cons]
    refine ⟨buildInv_congr _ _ _ _ _ ?_ this.1, buildInv_congr _ _ _ _ _ ?_ this.2⟩ <;>
    · intro a b
      simp only [List.mem_cons]
      constructor
      · rintro ((h | ⟨h, h'⟩) | ⟨h, h'⟩)
        · exact Or.inl h
        · exact Or.inr ⟨h, Or.inl h'⟩
        · exact Or.inr ⟨h, Or.inr h'⟩
      · rintro (h | ⟨h, h' | h'⟩)
        · exact Or.inl (Or.inl h)
        · exact Or.inl (Or.inr ⟨h, h'⟩)
        · exact Or.inr ⟨h, h'⟩

theorem fold_outer_inv (c1 c2 : Nat → Nat → Prop) [DecidableRel c1] [DecidableRel c2]
    (n : Nat) :
    ∀ (is : List Nat) (P : Nat → Nat → Prop) (adj : AdjacencyMatrix × AdjacencyMatrix),
      is.Sorted (· < ·) →
      (∀ a b, P a b → a < b ∧ ∀ i ∈ is, a < i) →
      BuildInv c1 n P adj.1 → BuildInv c2 n P adj.2 →
      BuildInv c1 n (fun a b => P a b ∨ (a ∈ is ∧ b ∈ List.range' (a + 1) (n - (a + 1))))
        (is.foldl (fun adj i => (List.range' (i + 1) (n - (i + 1))).foldl
          (fun adj j => (if c1 i j then adj.1.set_sorted i j else adj.1,
            if c2 i j then adj.2.set_sorted i j else adj.2)) adj) adj).1 ∧
      BuildInv c2 n (fun a b => P a b ∨ (a ∈ is ∧ b ∈ List.range' (a + 1) (n - (a + 1))))
        (is.foldl (fun adj i => (List.range' (i + 1) (n - (i + 1))).foldl
          (fun adj j => (if c1 i j then adj.1.set_sorted i j else adj.1,
            if c2 i j then adj.2.set_sorted i j else adj.2)) adj) adj).2 := by
  intro is
  induction is with
  | nil =>
    intro P adj _ _ h1 h2
    exact ⟨buildInv_congr _ _ _ _ _ (by simp) h1, buildInv_congr _ _ _ _ _ (by simp) h2⟩
  | cons i is ih =>
    intro P adj hs hP h1 h2
    have hs' := List.sorted_cons.mp hs
    have hsorted : (List.range' (i + 1) (n - (i + 1))).Sorted (· < ·) :=
      List.pairwise_lt_range' _ _
    have hb : ∀ j ∈ List.range' (i + 1) (n - (i + 1)), i < j ∧ j < n := by
      intro j hj
      rw [List.mem_range'_1] at hj
      omega
    have hPi : ∀ a b, P a b →
        a < b ∧ (a < i ∨ (a = i ∧ ∀ j ∈ List.range' (i + 1) (n - (i + 1)), b < j)) := by
      intro a b hab
      obtain ⟨h3, h4⟩ := hP a b hab
      exact ⟨h3, Or.inl (h4 i (List.mem_cons_self _ _))⟩
    have hin := fold_inner_inv c1 c2 n i _ P adj hsorted hb hPi h1 h2
    have hP' : ∀ a b, (P a b ∨ (a = i ∧ b ∈ List.range' (i + 1) (n - (i + 1)))) →
        a < b ∧ ∀ i' ∈ is, a < i' := by
      intro a b hab
      rcases hab with hab | ⟨rfl, hab⟩
      · obtain ⟨h3, h4⟩ := hP a b hab
        exact ⟨h3, fun i' hi' => h4 i' (List.mem_cons_of_mem _ hi')⟩
      · exact ⟨(hb b hab).1, fun i' hi' => hs'.1 i' hi'⟩
    have := ih _ _ hs'.2 hP' hin.1 hin.2
    rw [List.foldl_cons]
    refine ⟨buildInv_congr _ _ _ _ _ ?_ this.1, buildInv_congr _ _ _ _ _ ?_ this.2⟩ <;>
    · intro a b
      simp only [List.mem_cons]
      constructor
      · rintro ((h | ⟨rfl, h'⟩) | ⟨h, h'⟩)
        · exact Or.inl h
        · exact Or.inr ⟨Or.inl rfl, h'⟩
        · exact Or.inr ⟨Or.inr h, h'⟩
      · rintro (h | ⟨rfl | h, h'⟩)
        · exact Or.inl (Or.inl h)
        · exact Or.inl (Or.inr ⟨rfl, h'⟩)
        · exact Or.inr ⟨h, h'⟩

section FillFacts

variable {F : Type}

theorem FillAdjacency_pair_eq (fl : FloatOps F) (keypoints : List (KeyPoint F))
    (object_span sensor_error : F) (qp tp : List (Point3 F)) (qi : List Nat) (i j : Nat)
    (adj : AdjacencyMatrix × AdjacencyMatrix) :
    FillAdjacency_pair fl keypoints object_span sensor_error qp tp qi i j adj =
      (if physicalCondition fl object_span sensor_error qp tp i j = true
        then adj.1.set_sorted i j else adj.1,
       if (physicalCondition fl object_span sensor_error qp tp i j &&
          sampleCondition fl keypoints sensor_error qp tp qi i j) = true
        then adj.2.set_sorted i j else adj.2) := by
  unfold FillAdjacency_pair physicalCondition sampleCondition keypointDistance2
  dsimp only
  cases fl.gt (squaredEuclideanDistance fl (qp.getD i fl.origin) (qp.getD j fl.origin))
      (fl.mul (fl.add object_span (fl.mul (fl.ofNat 2) sensor_error))
        (fl.add object_span (fl.mul (fl.ofNat 2) sensor_error))) <;>
    cases fl.gt (fl.abs (fl.sub
        (euclideanDistance fl (tp.getD i fl.origin) (tp.getD j fl.origin))
        (fl.sqrt (squaredEuclideanDistance fl (qp.getD i fl.origin) (qp.getD j fl.origin)))))
      (fl.mul (fl.ofNat 4) sensor_error) <;>
    cases fl.gt
      (fl.add
        (fl.mul
          (fl.sub (keypoints.getD (qi.getD i 0) fl.keypoint).pt.x
            (keypoints.getD (qi.getD j 0) fl.keypoint).pt.x)
          (fl.sub (keypoints.getD (qi.getD i 0) fl.keypoint).pt.x
            (keypoints.getD (qi.getD j 0) fl.keypoint).pt.x))
        (fl.mul
          (fl.sub (keypoints.getD (qi.getD i 0) fl.keypoint).pt.y
            (keypoints.getD (qi.getD j 0) fl.keypoint).pt.y)
          (fl.sub (keypoints.getD (qi.getD i 0) fl.keypoint).pt.y
            (keypoints.getD (qi.getD j 0) fl.keypoint).pt.y)))
      (fl.ofNat (20 * 20)) <;>
    cases fl.lt (fl.abs (fl.sub
        (euclideanDistance fl (tp.getD i fl.origin) (tp.getD j fl.origin))
        (fl.sqrt (squaredEuclideanDistance fl (qp.getD i fl.origin) (qp.getD j fl.origin)))))
      (fl.mul (fl.ofNat 2) sensor_error) <;>
    simp

theorem FillAdjacency_inv (fl : FloatOps F) (keypoints : List (KeyPoint F))
    (object_span sensor_error : F) (s : AdjacencyRansac F) :
    BuildInv (fun a b => physicalCondition fl object_span sensor_error
        s.query_points_ s.training_points_ a b = true)
      s.training_points_.length (fun a b => a < b ∧ b < s.training_points_.length)
      (FillAdjacency fl keypoints object_span sensor_error s).physical_adjacency_ ∧
    BuildInv (fun a b => (physicalCondition fl object_span sensor_error
        s.query_points_ s.training_points_ a b &&
        sampleCondition fl keypoints sensor_error s.query_points_ s.training_points_
          s.query_indices_ a b) = true)
      s.training_points_.length (fun a b => a < b ∧ b < s.training_points_.length)
      (FillAdjacency fl keypoints object_span sensor_error s).sample_adjacency_ := by
  have hfun : (fun (adj : AdjacencyMatrix × AdjacencyMatrix) (i : Nat) =>
      (List.range' (i + 1) (s.training_points_.length - (i + 1))).foldl
        (fun adj j => FillAdjacency_pair fl keypoints object_span sensor_error
          s.query_points_ s.training_points_ s.query_indices_ i j adj) adj) =
      (fun adj i => (List.range' (i + 1) (s.training_points_.length - (i + 1))).foldl
        (fun adj j =>
          (if physicalCondition fl object_span sensor_error s.query_points_
              s.training_points_ i j = true then adj.1.set_sorted i j else adj.1,
           if (physicalCondition fl object_span sensor_error s.query_points_
              s.training_points_ i j &&
              sampleCondition fl keypoints sensor_error s.query_points_ s.training_points_
                s.query_indices_ i j) = true then adj.2.set_sorted i j else adj.2)) adj) := by
    funext adj i
    congr 1
    funext adj j
    exact FillAdjacency_pair_eq _ _ _ _ _ _ _ _ _ _
  have h := fold_outer_inv
    (fun a b => physicalCondition fl object_span sensor_error
      s.query_points_ s.training_points_ a b = true)
    (fun a b => (physicalCondition fl object_span sensor_error
      s.query_points_ s.training_points_ a b &&
      sampleCondition fl keypoints sensor_error s.query_points_ s.training_points_
        s.query_indices_ a b) = true)
    s.training_points_.length (List.range s.training_points_.length) (fun _ _ => False)
    (AdjacencyMatrix.init s.training_points_.length, AdjacencyMatrix.init s.training_points_.length)
    (List.pairwise_lt_range _) (fun _ _ h => h.elim) (buildInv_init _ _) (buildInv_init _ _)
  have hP : ∀ a b, (False ∨ (a ∈ List.range s.training_points_.length ∧
      b ∈ List.range' (a + 1) (s.training_points_.length - (a + 1)))) ↔
      (a < b ∧ b < s.training_points_.length) := by
    intro a b
    rw [List.mem_range, List.mem_range'_1]
    constructor
    · rintro (h | ⟨h1, h2, h3⟩)
      · exact h.elim
      · omega
    · intro h
      right
      omega
  unfold FillAdjacency
  simp only []
  rw [hfun]
  exact ⟨buildInv_congr _ _ _ _ _ hP h.1, buildInv_congr _ _ _ _ _ hP h.2⟩

end FillFacts

/-! ## Facts about `set_difference`, `unique` and `sort_unique` -/

theorem set_difference_sublist :
    ∀ (a b : List Nat), List.Sublist (set_difference a b) a := by
  intro a b
  induction a, b using set_difference.induct with
  | case1 b => simp [set_difference]
  | case2 a as => simp [set_difference]
  | case3 a as b bs hlt ih =>
    rw [set_difference, if_pos hlt]
    exact List.Sublist.cons₂ _ ih
  | case4 a as b bs hlt hlt2 ih =>
    rw [set_difference, if_neg hlt, if_pos hlt2]
    exact ih
  | case5 a as b bs hlt hlt2 ih =>
    rw [set_difference, if_neg hlt, if_neg hlt2]
    exact List.Sublist.cons _ ih

theorem mem_of_mem_set_difference {x : Nat} {a b : List Nat} (h : x ∈ set_difference a b) :
    x ∈ a :=
  (set_difference_sublist a b).subset h

theorem mem_set_difference_of_not_mem {x : Nat} :
    ∀ {a b : List Nat}, x ∈ a → x ∉ b → x ∈ set_difference a b := by
  intro a b
  induction a, b using set_difference.induct with
  | case1 b => intro h; simp at h
  | case2 a as => intro h _; simpa [set_difference] using h
  | case3 a as b bs hlt ih =>
    intro ha hb
    rw [set_difference, if_pos hlt]
    rcases List.mem_cons.mp ha with h | h
    · subst h; exact List.mem_cons_self _ _
    · exact List.mem_cons_of_mem _ (ih h hb)
  | case4 a as b bs hlt hlt2 ih =>
    intro ha hb
    rw [set_difference, if_neg hlt, if_pos hlt2]
    exact ih ha (fun h => hb (List.mem_cons_of_mem _ h))
  | case5 a as b bs hlt hlt2 ih =>
    intro ha hb
    rw [set_difference, if_neg hlt, if_neg hlt2]
    have hab : a = b := by omega
    rcases List.mem_cons.mp ha with h | h
    · subst h; exact absurd (hab ▸ List.mem_cons_self _ _) hb
    · exact ih h (fun h' => hb (List.mem_cons_of_mem _ h'))

theorem not_mem_of_mem_set_difference {x : Nat} :
    ∀ {a b : List Nat}, a.Sorted (· < ·) → b.Sorted (· ≤ ·) → x ∈ set_difference a b →
      x ∉ b := by
  intro a b
  induction a, b using set_difference.induct with
  | case1 b => intro _ _ h; simp [set_difference] at h
  | case2 a as => intro _ _ _; simp
  | case3 a as b bs hlt ih =>
    intro ha hb h
    rw [set_difference, if_pos hlt] at h
    have ha2 := List.sorted_cons.mp ha
    have hb2 := List.sorted_cons.mp hb
    rcases List.mem_cons.mp h with h | h
    · subst h
      intro hx
      rcases List.mem_cons.mp hx with h2 | h2
      · omega
      · have := hb2.1 _ h2; omega
    · exact ih ha2.2 hb h
  | case4 a as b bs hlt hlt2 ih =>
    intro ha hb h
    rw [set_difference, if_neg hlt, if_pos hlt2] at h
    have ha2 := List.sorted_cons.mp ha
    have hb2 := List.sorted_cons.mp hb
    have hx := ih ha hb2.2 h
    have hxa := mem_of_mem_set_difference h
    intro hxb
    rcases List.mem_cons.mp hxb with h2 | h2
    · subst h2
      rcases List.mem_cons.mp hxa with h3 | h3
      · omega
      · have := ha2.1 _ h3; omega
    · exact hx h2
  | case5 a as b bs hlt hlt2 ih =>
    intro ha hb h
    rw [set_difference, if_neg hlt, if_neg hlt2] at h
    have hab : a = b := by omega
    have ha2 := List.sorted_cons.mp ha
    have hb2 := List.sorted_cons.mp hb
    have hx := ih ha2.2 hb2.2 h
    have hxa := mem_of_mem_set_difference h
    intro hxb
    rcases List.mem_cons.mp hxb with h2 | h2
    · have := ha2.1 _ hxa; omega
    · exact hx h2

theorem mem_set_difference_iff {x : Nat} {a b : List Nat} (ha : a.Sorted (· < ·))
    (hb : b.Sorted (· ≤ ·)) : x ∈ set_difference a b ↔ x ∈ a ∧ x ∉ b :=
  ⟨fun h => ⟨mem_of_mem_set_difference h, not_mem_of_mem_set_difference ha hb h⟩,
   fun h => mem_set_difference_of_not_mem h.1 h.2⟩

theorem set_difference_sorted {a : List Nat} (b : List Nat) (ha : a.Sorted (· < ·)) :
    (set_difference a b).Sorted (· < ·) :=
  List.Pairwise.sublist (set_difference_sublist a b) ha

theorem mem_unique {x : Nat} : ∀ {l : List Nat}, x ∈ unique l ↔ x ∈ l := by
  intro l
  induction l using unique.induct with
  | case1 => simp [unique]
  | case2 a => simp [unique]
  | case3 a t ih =>
    rw [unique, if_pos rfl, ih]
    simp
  | case4 a b t hab ih =>
    rw [unique, if_neg hab, List.mem_cons, ih]
    simp

theorem unique_sorted : ∀ {l : List Nat}, l.Sorted (· ≤ ·) → (unique l).Sorted (· < ·) := by
  intro l
  induction l using unique.induct with
  | case1 => intro _; simp [unique]
  | case2 a => intro _; simp [unique]
  | case3 a t ih =>
    intro h
    rw [unique, if_pos rfl]
    exact ih (List.sorted_cons.mp h).2
  | case4 a b t hab ih =>
    intro h
    rw [unique, if_neg hab]
    have h2 := List.sorted_cons.mp h
    refine List.sorted_cons.mpr ⟨?_, ih h2.2⟩
    intro y hy
    have hy' : y ∈ b :: t := mem_unique.mp hy
    have h3 := List.sorted_cons.mp h2.2
    have hab' : a ≤ b := h2.1 b (List.mem_cons_self _ _)
    rcases List.mem_cons.mp hy' with h4 | h4
    · omega
    · have := h3.1 y h4; omega

theorem mem_sort_unique {x : Nat} {l : List Nat} : x ∈ sort_unique l ↔ x ∈ l := by
  unfold sort_unique
  rw [mem_unique]
  exact (List.perm_insertionSort _ l).mem_iff

theorem sort_unique_sorted (l : List Nat) : (sort_unique l).Sorted (· < ·) :=
  unique_sorted (List.sorted_insertionSort _ l)

theorem sort_unique_sorted_le (l : List Nat) : (sort_unique l).Sorted (· ≤ ·) :=
  List.Pairwise.imp (fun h => Nat.le_of_lt h) (sort_unique_sorted l)

theorem sort_unique_ne_nil {l : List Nat} (h : l ≠ []) : sort_unique l ≠ [] := by
  obtain ⟨x, hx⟩ := List.exists_mem_of_ne_nil l h
  exact List.ne_nil_of_mem (mem_sort_unique.mpr hx)

/-! ## Facts about `InvalidateCluster` -/

theorem invalidate_rows_length (indices : List Nat) (rows : List (List Nat)) (k : Nat) :
    (AdjacencyMatrix.invalidate_rows indices k rows).length = rows.length := by
  induction rows generalizing k with
  | nil => simp [AdjacencyMatrix.invalidate_rows]
  | cons r rs ih => simp [AdjacencyMatrix.invalidate_rows, ih]

theorem invalidate_rows_getD (indices : List Nat) (rows : List (List Nat)) (k a : Nat) :
    (AdjacencyMatrix.invalidate_rows indices k rows).getD a [] =
      if a < rows.length then
        (if k + a ∈ indices then [] else set_difference (rows.getD a []) indices)
      else [] := by
  induction rows generalizing k a with
  | nil => simp [AdjacencyMatrix.invalidate_rows]
  | cons r rs ih =>
    cases a with
    | zero => simp [AdjacencyMatrix.invalidate_rows]
    | succ a =>
      have := ih (k + 1) a
      simp only [AdjacencyMatrix.invalidate_rows, List.getD_cons_succ, List.length_cons,
        Nat.add_lt_add_iff_right]
      rw [this]
      have e : k + 1 + a = k + (a + 1) := by omega
      rw [e]

theorem InvalidateCluster_size (m : AdjacencyMatrix) (indices : List Nat) :
    (m.InvalidateCluster indices).size = m.size := by
  simp [AdjacencyMatrix.InvalidateCluster, AdjacencyMatrix.size, invalidate_rows_length]

theorem InvalidateCluster_neighbors (m : AdjacencyMatrix) (indices : List Nat) (a : Nat) :
    (m.InvalidateCluster indices).neighbors a =
      if a < m.size then
        (if a ∈ indices then [] else set_difference (m.neighbors a) indices)
      else [] := by
  simp only [AdjacencyMatrix.InvalidateCluster, AdjacencyMatrix.neighbors,
    AdjacencyMatrix.size, invalidate_rows_getD, Nat.zero_add]

/-! ## Sample adjacency within physical adjacency (C3) -/

section Sub

variable {F : Type}

theorem subAdjacent_FillAdjacency (fl : FloatOps F) (keypoints : List (KeyPoint F))
    (object_span sensor_error : F) (s : AdjacencyRansac F) :
    SubAdjacent (FillAdjacency fl keypoints object_span sensor_error s) := by
  obtain ⟨⟨hs1, -, hm1⟩, ⟨hs2, hsort2, hm2⟩⟩ :=
    FillAdjacency_inv fl keypoints object_span sensor_error s
  refine ⟨by rw [hs1, hs2], hsort2, ?_⟩
  intro a b hb
  rw [hm1]
  rcases (hm2 a b).mp hb with ⟨hp, hc⟩ | ⟨hp, hc⟩
  · exact Or.inl ⟨hp, (Bool.and_eq_true _ _ ▸ hc).1⟩
  · exact Or.inr ⟨hp, (Bool.and_eq_true _ _ ▸ hc).1⟩

theorem subAdjacent_InvalidateIndices (indices : List Nat) (s : AdjacencyRansac F)
    (h : SubAdjacent s) : SubAdjacent (InvalidateIndices indices s) := by
  obtain ⟨hsize, hsorted, hsub⟩ := h
  refine ⟨?_, ?_, ?_⟩
  · show (s.physical_adjacency_.InvalidateCluster _).size =
      (s.sample_adjacency_.InvalidateCluster _).size
    rw [InvalidateCluster_size, InvalidateCluster_size, hsize]
  · intro a
    show ((s.sample_adjacency_.InvalidateCluster _).neighbors a).Sorted (· < ·)
    rw [InvalidateCluster_neighbors]
    split_ifs
    · exact List.sorted_nil
    · exact set_difference_sorted _ (hsorted a)
    · exact List.sorted_nil
  · intro a b hb
    change b ∈ (s.sample_adjacency_.InvalidateCluster (sort_unique indices)).neighbors a at hb
    show b ∈ (s.physical_adjacency_.InvalidateCluster (sort_unique indices)).neighbors a
    rw [InvalidateCluster_neighbors] at hb ⊢
    by_cases h1 : a < s.sample_adjacency_.size
    · rw [if_pos h1] at hb
      rw [if_pos (hsize ▸ h1)]
      by_cases h2 : a ∈ sort_unique indices
      · rw [if_pos h2] at hb; simp at hb
      · rw [if_neg h2] at hb ⊢
        have hb1 := mem_of_mem_set_difference hb
        have hb2 := not_mem_of_mem_set_difference (hsorted a) (sort_unique_sorted_le indices) hb
        exact mem_set_difference_of_not_mem (hsub a b hb1) hb2
    · rw [if_neg h1] at hb; simp at hb

theorem subAdjacent_InvalidateQueryIndices (query_indices : List Nat) (past_end : Nat)
    (s : AdjacencyRansac F) (h : SubAdjacent s) :
    SubAdjacent (InvalidateQueryIndices query_indices past_end s) := by
  unfold InvalidateQueryIndices
  split_ifs
  · exact h
  · exact subAdjacent_InvalidateIndices _ s h

theorem subAdjacent_run (c : InvalidateCall) (s : AdjacencyRansac F) (h : SubAdjacent s) :
    SubAdjacent (c.run s) := by
  cases c with
  | byIndex l => exact subAdjacent_InvalidateIndices l s h
  | byQueryIndex l p => exact subAdjacent_InvalidateQueryIndices l p s h

theorem subAdjacent_foldl (calls : List InvalidateCall) (s : AdjacencyRansac F)
    (h : SubAdjacent s) : SubAdjacent (calls.foldl (fun st c => c.run st) s) := by
  induction calls generalizing s with
  | nil => exact h
  | cons c cs ih => exact ih _ (subAdjacent_run c s h)

/-- C3. Sample adjacency is a sub-relation of physical adjacency: for every
correspondence set, keypoint list, object_span and sensor_error, after
`FillAdjacency` and then any sequence of `InvalidateIndices` /
`InvalidateQueryIndices` calls (the empty sequence included), every pair that
is sample-adjacent is also physically adjacent. -/
theorem sample_adjacency_subset_physical (fl : FloatOps F) (keypoints : List (KeyPoint F))
    (object_span sensor_error : F) (s : AdjacencyRansac F) (calls : List InvalidateCall)
    (i j : Nat) :
    (calls.foldl (fun st c => c.run st)
        (FillAdjacency fl keypoints object_span sensor_error s)).sample_adjacency_.test i j
      = true →
    (calls.foldl (fun st c => c.run st)
        (FillAdjacency fl keypoints object_span sensor_error s)).physical_adjacency_.test i j
      = true := by
  intro h
  have hsub := subAdjacent_foldl calls _
    (subAdjacent_FillAdjacency fl keypoints object_span sensor_error s)
  unfold AdjacencyMatrix.test at h ⊢
  exact decide_eq_true (hsub.2.2 i j (of_decide_eq_true h))

end Sub

/-! ## Physical and sample adjacency after `FillAdjacency` (C4, C5) -/

section FillTests

variable {F : Type}

theorem FillAdjacency_physical_test (fl : FloatOps F) (keypoints : List (KeyPoint F))
    (object_span sensor_error : F) (s : AdjacencyRansac F) (i j : Nat)
    (hij : i < j) (hj : j < s.training_points_.length) :
    (FillAdjacency fl keypoints object_span sensor_error s).physical_adjacency_.test i j =
      physicalCondition fl object_span sensor_error s.query_points_ s.training_points_ i j ∧
    (FillAdjacency fl keypoints object_span sensor_error s).physical_adjacency_.test j i =
      physicalCondition fl object_span sensor_error s.query_points_ s.training_points_ i j := by
  obtain ⟨⟨-, -, hm⟩, -⟩ := FillAdjacency_inv fl keypoints object_span sensor_error s
  constructor
  · rw [Bool.eq_iff_iff]
    unfold AdjacencyMatrix.test
    rw [decide_eq_true_eq, hm]
    constructor
    · rintro (⟨-, h⟩ | ⟨⟨h, -⟩, -⟩)
      · exact h
      · omega
    · intro h
      exact Or.inl ⟨⟨hij, hj⟩, h⟩
  · rw [Bool.eq_iff_iff]
    unfold AdjacencyMatrix.test
    rw [decide_eq_true_eq, hm]
    constructor
    · rintro (⟨⟨h, -⟩, -⟩ | ⟨-, h⟩)
      · omega
      · exact h
    · intro h
      exact Or.inr ⟨⟨hij, hj⟩, h⟩

theorem FillAdjacency_sample_test (fl : FloatOps F) (keypoints : List (KeyPoint F))
    (object_span sensor_error : F) (s : AdjacencyRansac F) (i j : Nat)
    (hij : i < j) (hj : j < s.training_points_.length) :
    (FillAdjacency fl keypoints object_span sensor_error s).sample_adjacency_.test i j =
      (physicalCondition fl object_span sensor_error s.query_points_ s.training_points_ i j &&
       sampleCondition fl keypoints sensor_error s.query_points_ s.training_points_
        s.query_indices_ i j) ∧
    (FillAdjacency fl keypoints object_span sensor_error s).sample_adjacency_.test j i =
      (physicalCondition fl object_span sensor_error s.query_points_ s.training_points_ i j &&
       sampleCondition fl keypoints sensor_error s.query_points_ s.training_points_
        s.query_indices_ i j) := by
  obtain ⟨-, ⟨-, -, hm⟩⟩ := FillAdjacency_inv fl keypoints object_span sensor_error s
  constructor
  · rw [Bool.eq_iff_iff]
    unfold AdjacencyMatrix.test
    rw [decide_eq_true_eq, hm]
    constructor
    · rintro (⟨-, h⟩ | ⟨⟨h, -⟩, -⟩)
      · exact h
      · omega
    · intro h
      exact Or.inl ⟨⟨hij, hj⟩, h⟩
  · rw [Bool.eq_iff_iff]
    unfold AdjacencyMatrix.test
    rw [decide_eq_true_eq, hm]
    constructor
    · rintro (⟨⟨h, -⟩, -⟩ | ⟨-, h⟩)
      · omega
      · exact h
    · intro h
      exact Or.inr ⟨⟨hij, hj⟩, h⟩

end FillTests

section FillExact

variable {F : Type} {K : Type} [LinearOrderedField K]

/-- C4 (amended). Physical adjacency is decided by the two skip tests as the
machine evaluates them.  For every correspondence set (whatever its adjacency
matrices held before), every `object_span` and `sensor_error` and indices
`i < j` of the set, whatever the float arithmetic does: after `FillAdjacency`,
`i` and `j` are physically adjacent (in both directions) if and only if the
computed squared observed-side distance does not compare greater than the
computed square of `object_span + 2 * sensor_error`, and the computed
`|d_t - d_q|` does not compare greater than `4 * sensor_error`.  When the
arithmetic is exact, `object_span` and `sensor_error` are positive and the
square root is exact at the squared observed-side distance, this is: `d_q` is at
most `object_span + 2 * sensor_error` and `|d_t - d_q|` is at most
`4 * sensor_error`. -/
theorem FillAdjacency_physical_iff (fl : FloatOps F) (keypoints : List (KeyPoint F))
    (object_span sensor_error : F) (s : AdjacencyRansac F) (i j : Nat)
    (hij : i < j) (hj : j < s.training_points_.length)
    (sqrt : K → K) (keypoints' : List (KeyPoint K)) (object_span' sensor_error' : K)
    (s' : AdjacencyRansac K) :
    ((FillAdjacency fl keypoints object_span sensor_error s).physical_adjacency_.test i j = true ↔
      (fl.gt (squaredEuclideanDistance fl (s.query_points_.getD i fl.origin)
            (s.query_points_.getD j fl.origin))
          (fl.mul (fl.add object_span (fl.mul (fl.ofNat 2) sensor_error))
            (fl.add object_span (fl.mul (fl.ofNat 2) sensor_error))) = false ∧
       fl.gt (fl.abs (fl.sub
            (euclideanDistance fl (s.training_points_.getD i fl.origin)
              (s.training_points_.getD j fl.origin))
            (euclideanDistance fl (s.query_points_.getD i fl.origin)
              (s.query_points_.getD j fl.origin))))
          (fl.mul (fl.ofNat 4) sensor_error) = false)) ∧
    (FillAdjacency fl keypoints object_span sensor_error s).physical_adjacency_.test j i =
      (FillAdjacency fl keypoints object_span sensor_error s).physical_adjacency_.test i j ∧
    (j < s'.training_points_.length → 0 < object_span' → 0 < sensor_error' →
      (0 ≤ euclideanDistance (FloatOps.exact sqrt)
          (s'.query_points_.getD i (FloatOps.exact sqrt).origin)
          (s'.query_points_.getD j (FloatOps.exact sqrt).origin) ∧
        euclideanDistance (FloatOps.exact sqrt)
          (s'.query_points_.getD i (FloatOps.exact sqrt).origin)
          (s'.query_points_.getD j (FloatOps.exact sqrt).origin) *
        euclideanDistance (FloatOps.exact sqrt)
          (s'.query_points_.getD i (FloatOps.exact sqrt).origin)
          (s'.query_points_.getD j (FloatOps.exact sqrt).origin) =
        squaredEuclideanDistance (FloatOps.exact sqrt)
          (s'.query_points_.getD i (FloatOps.exact sqrt).origin)
          (s'.query_points_.getD j (FloatOps.exact sqrt).origin)) →
      ((FillAdjacency (FloatOps.exact sqrt) keypoints' object_span' sensor_error'
          s').physical_adjacency_.test i j = true ↔
        (euclideanDistance (FloatOps.exact sqrt)
            (s'.query_points_.getD i (FloatOps.exact sqrt).origin)
            (s'.query_points_.getD j (FloatOps.exact sqrt).origin)
            ≤ object_span' + 2 * sensor_error' ∧
         |euclideanDistance (FloatOps.exact sqrt)
            (s'.training_points_.getD i (FloatOps.exact sqrt).origin)
            (s'.training_points_.getD j (FloatOps.exact sqrt).origin) -
          euclideanDistance (FloatOps.exact sqrt)
            (s'.query_points_.getD i (FloatOps.exact sqrt).origin)
            (s'.query_points_.getD j (FloatOps.exact sqrt).origin)| ≤ 4 * sensor_error'))) := by
  obtain ⟨h3, h4⟩ := FillAdjacency_physical_test fl keypoints object_span sensor_error s i j
    hij hj
  refine ⟨?_, by rw [h3, h4], ?_⟩
  · rw [h3]
    unfold physicalCondition
    rw [Bool.and_eq_true, Bool.not_eq_true', Bool.not_eq_true']
    rfl
  · intro hj' hspan herr hsqrt
    rw [(FillAdjacency_physical_test (FloatOps.exact sqrt) keypoints' object_span'
      sensor_error' s' i j hij hj').1]
    unfold physicalCondition
    rw [Bool.and_eq_true, Bool.not_eq_true', Bool.not_eq_true']
    unfold euclideanDistance at hsqrt ⊢
    generalize squaredEuclideanDistance (FloatOps.exact sqrt)
      (s'.query_points_.getD i (FloatOps.exact sqrt).origin)
      (s'.query_points_.getD j (FloatOps.exact sqrt).origin) = dq2 at hsqrt ⊢
    generalize squaredEuclideanDistance (FloatOps.exact sqrt)
      (s'.training_points_.getD i (FloatOps.exact sqrt).origin)
      (s'.training_points_.getD j (FloatOps.exact sqrt).origin) = dt2
    simp only [FloatOps.exact] at hsqrt ⊢
    generalize sqrt dq2 = dq at hsqrt ⊢
    generalize sqrt dt2 = dt
    obtain ⟨h0, hsq⟩ := hsqrt
    have hB : 0 ≤ object_span' + 2 * sensor_error' := by linarith
    have key : ¬ dq2 > (object_span' + 2 * sensor_error') * (object_span' + 2 * sensor_error') ↔
        dq ≤ object_span' + 2 * sensor_error' := by
      rw [not_lt, ← hsq]
      exact (mul_self_le_mul_self_iff h0 hB).symm
    simp only [Nat.cast_ofNat, decide_eq_false_iff_not, key, not_lt]

end FillExact

/-! ## Witnesses for C3, C4 and C5; the NaN model point -/

theorem exampleSet_physicalCondition :
    physicalCondition exampleFloat 10 1 exampleSet.query_points_ exampleSet.training_points_ 0 1
      = true := by
  norm_num [physicalCondition, exampleSet, squaredEuclideanDistance, euclideanDistance,
    exampleFloat, FloatOps.exact, exampleSqrt, FloatOps.origin]

theorem exampleSet_sampleCondition :
    sampleCondition exampleFloat exampleKeypoints 1 exampleSet.query_points_
      exampleSet.training_points_ exampleSet.query_indices_ 0 1 = true := by
  norm_num [sampleCondition, keypointDistance2, exampleSet, exampleKeypoints,
    squaredEuclideanDistance, euclideanDistance, exampleFloat, FloatOps.exact, exampleSqrt,
    FloatOps.origin, FloatOps.keypoint]

/-- Witness for C3: the two correspondences of `exampleSet` are sample-adjacent,
hence physically adjacent. -/
theorem sample_adjacency_subset_physical_witness :
    (FillAdjacency exampleFloat exampleKeypoints 10 1 exampleSet).sample_adjacency_.test 0 1
      = true ∧
    (FillAdjacency exampleFloat exampleKeypoints 10 1 exampleSet).physical_adjacency_.test 0 1
      = true := by
  have h : (FillAdjacency exampleFloat exampleKeypoints 10 1 exampleSet).sample_adjacency_.test
      0 1 = true := by
    rw [(FillAdjacency_sample_test exampleFloat exampleKeypoints 10 1 exampleSet 0 1
      (by decide) (by decide)).1, exampleSet_physicalCondition, exampleSet_sampleCondition]
    rfl
  exact ⟨h, sample_adjacency_subset_physical exampleFloat exampleKeypoints 10 1 exampleSet
    [] 0 1 h⟩

/-- C4, as stated, fails on a NaN: with `object_span = 10`, `sensor_error = 1` and a
NaN coordinate in the second model point, the model-side distance and
`|d_t - d_q|` are NaN, so `|d_t - d_q|` is not at most `4 * sensor_error`; the test
`> 4 * sensor_error` is false as well, and `FillAdjacency` makes the pair
physically adjacent. -/
theorem FillAdjacency_nan_counterexample :
    (FillAdjacency nanFloat exampleNaNKeypoints (some 10) (some 1)
      exampleNaNSet).physical_adjacency_.test 0 1 = true ∧
    euclideanDistance nanFloat (exampleNaNSet.training_points_.getD 0 nanFloat.origin)
      (exampleNaNSet.training_points_.getD 1 nanFloat.origin) = none ∧
    nanLe
      (nanFloat.abs (nanFloat.sub
        (euclideanDistance nanFloat (exampleNaNSet.training_points_.getD 0 nanFloat.origin)
          (exampleNaNSet.training_points_.getD 1 nanFloat.origin))
        (euclideanDistance nanFloat (exampleNaNSet.query_points_.getD 0 nanFloat.origin)
          (exampleNaNSet.query_points_.getD 1 nanFloat.origin))))
      (nanFloat.mul (nanFloat.ofNat 4) (some 1)) = false := by
  refine ⟨?_, ?_, ?_⟩
  · rw [(FillAdjacency_physical_test nanFloat exampleNaNKeypoints (some 10) (some 1)
      exampleNaNSet 0 1 (by decide) (by decide)).1]
    simp [physicalCondition, exampleNaNSet, squaredEuclideanDistance, euclideanDistance,
      nanFloat, FloatOps.origin]
    norm_num
  · simp [exampleNaNSet, squaredEuclideanDistance, euclideanDistance, nanFloat]
  · simp [exampleNaNSet, squaredEuclideanDistance, euclideanDistance, nanFloat, nanLe]

/-- Witness for C4 on `exampleSet`. -/
theorem FillAdjacency_physical_iff_witness :
    (FillAdjacency (FloatOps.exact exampleSqrt) exampleKeypoints 10 1
        exampleSet).physical_adjacency_.test 0 1 = true ↔
      (euclideanDistance (FloatOps.exact exampleSqrt)
          (exampleSet.query_points_.getD 0 (FloatOps.exact exampleSqrt).origin)
          (exampleSet.query_points_.getD 1 (FloatOps.exact exampleSqrt).origin) ≤ 10 + 2 * 1 ∧
       |euclideanDistance (FloatOps.exact exampleSqrt)
          (exampleSet.training_points_.getD 0 (FloatOps.exact exampleSqrt).origin)
          (exampleSet.training_points_.getD 1 (FloatOps.exact exampleSqrt).origin) -
        euclideanDistance (FloatOps.exact exampleSqrt)
          (exampleSet.query_points_.getD 0 (FloatOps.exact exampleSqrt).origin)
          (exampleSet.query_points_.getD 1 (FloatOps.exact exampleSqrt).origin)| ≤ 4 * 1) :=
  (FillAdjacency_physical_iff nanFloat exampleNaNKeypoints (some 10) (some 1) exampleNaNSet 0 1
    (by decide) (by decide) exampleSqrt exampleKeypoints 10 1 exampleSet).2.2 (by decide)
    (by norm_num) (by norm_num)
    (by norm_num [exampleSet, squaredEuclideanDistance, euclideanDistance, FloatOps.exact,
      exampleSqrt, FloatOps.origin])

theorem inlierIsGood_iff (physical : AdjacencyMatrix) (x : Nat) :
    ∀ (l : List Nat), (x ∈ l → ∀ s ∈ l, s ≠ x → physical.test x s = true) →
      (inlierIsGood physical x l = true ↔ ∀ s ∈ l, s ≠ x → physical.test x s = true) := by
  intro l
  induction l with
  | nil => intro _; simp [inlierIsGood]
  | cons s rest ih =>
    intro hA
    unfold inlierIsGood
    by_cases h1 : s = x
    · rw [if_pos h1]
      simp only [true_iff]
      exact hA (h1 ▸ List.mem_cons_self _ _)
    · rw [if_neg h1]
      by_cases h2 : physical.test x s = true
      · have hA' : x ∈ rest → ∀ s' ∈ rest, s' ≠ x → physical.test x s' = true :=
          fun hx s' hs' hne => hA (List.mem_cons_of_mem _ hx) s' (List.mem_cons_of_mem _ hs') hne
        simp only [h2, Bool.not_true, Bool.false_eq_true, if_false]
        rw [ih hA']
        constructor
        · intro h s' hs' hne
          rcases List.mem_cons.mp hs' with h3 | h3
          · rw [h3]; exact h2
          · exact h s' h3 hne
        · intro h s' hs' hne
          exact h s' (List.mem_cons_of_mem _ hs') hne
      · have h2' : physical.test x s = false := by simpa using h2
        simp only [h2', Bool.not_false, if_true, Bool.false_eq_true, false_iff]
        intro h
        have := h s (List.mem_cons_self _ _) h1
        rw [h2'] at this
        exact Bool.false_ne_true this

theorem inlierIsGood_of_not_mem (physical : AdjacencyMatrix) (x : Nat) :
    ∀ (l : List Nat), x ∉ l → inlierIsGood physical x l = true →
      ∀ s ∈ l, physical.test x s = true := by
  intro l
  induction l with
  | nil => intro _ _ s hs; simp at hs
  | cons s rest ih =>
    intro hx hg s' hs'
    unfold inlierIsGood at hg
    have h1 : s ≠ x := fun h => hx (h ▸ List.mem_cons_self _ _)
    rw [if_neg h1] at hg
    by_cases h2 : physical.test x s = true
    · simp only [h2, Bool.not_true, Bool.false_eq_true, if_false] at hg
      rcases List.mem_cons.mp hs' with h3 | h3
      · rw [h3]; exact h2
      · exact ih (fun h => hx (List.mem_cons_of_mem _ h)) hg s' h3
    · have h2' : physical.test x s = false := by simpa using h2
      simp [h2'] at hg

theorem selectWithinDistance_subset (FindClique : Graph → Nat → List Nat)
    (model : SampleConsensusModelRegistrationGraph) (possible_inliers : List Nat) (x : Nat)
    (hx : x ∈ (selectWithinDistance FindClique model possible_inliers).in_inliers) :
    x ∈ possible_inliers ∧ inlierIsGood model.physical_adjacency_ x model.samples_ = true := by
  unfold selectWithinDistance at hx
  cases hc : candidateInliers model possible_inliers with
  | none => rw [hc] at hx; simp at hx
  | some c =>
    rw [hc] at hx
    have hcx : x ∈ c → x ∈ possible_inliers ∧
        inlierIsGood model.physical_adjacency_ x model.samples_ = true := by
      intro h
      unfold candidateInliers at hc
      split_ifs at hc
      have hc' := Option.some.inj hc
      rw [← hc'] at h
      exact List.mem_filter.mp h
    dsimp only at hx
    split_ifs at hx
    · exact hcx hx
    · simp at hx
    · exact hcx hx

/-- C6, as stated, fails when a member of the stored sample does not pass the
distance test: with sample `[0, 1]`, 0 and 1 physically adjacent, and only index
1 within the threshold, index 1 passes the distance test and is adjacent to
every other sample member, yet the method returns at once with no inlier. -/
theorem candidateInliers_sample_outside_counterexample :
    (∀ a ∈ exampleModel.samples_, ∀ b ∈ exampleModel.samples_, a ≠ b →
      exampleModel.physical_adjacency_.test a b = true) ∧
    (1 ∈ [1] ∧ ∀ s ∈ exampleModel.samples_, s ≠ 1 →
      exampleModel.physical_adjacency_.test 1 s = true) ∧
    candidateInliers exampleModel [1] = none ∧
    (selectWithinDistance (fun _ _ => []) exampleModel [1]).in_inliers = [] := by
  decide

/-- C6 (amended). Inlier classification under the adjacency constraint, for a
stored sample whose members are pairwise physically adjacent.  When every
sample member passes the distance test, the candidate inlier set built before
clique validation is exactly the set of indices that pass the distance test and
are physically adjacent to every sample member other than themselves; when some
sample member does not pass it, the method returns with no inlier.  In both
cases every returned inlier outside the sample is adjacent to all sample members. -/
theorem candidateInliers_iff (model : SampleConsensusModelRegistrationGraph)
    (possible_inliers : List Nat)
    (hsample : ∀ a ∈ model.samples_, ∀ b ∈ model.samples_, a ≠ b →
      model.physical_adjacency_.test a b = true) :
    ((∀ s ∈ model.samples_, s ∈ possible_inliers) →
      ∃ c, candidateInliers model possible_inliers = some c ∧
        ∀ x, x ∈ c ↔ (x ∈ possible_inliers ∧
          ∀ s ∈ model.samples_, s ≠ x → model.physical_adjacency_.test x s = true)) ∧
    ((∃ s ∈ model.samples_, s ∉ possible_inliers) →
      candidateInliers model possible_inliers = none ∧
      ∀ FindClique, (selectWithinDistance FindClique model possible_inliers).in_inliers = []) ∧
    (∀ FindClique x,
      x ∈ (selectWithinDistance FindClique model possible_inliers).in_inliers →
      x ∉ model.samples_ → ∀ s ∈ model.samples_, model.physical_adjacency_.test x s = true) := by
  refine ⟨?_, ?_, ?_⟩
  · intro hall
    have hcond : model.samples_.all (fun sample => decide (sample ∈ possible_inliers)) = true := by
      rw [List.all_eq_true]
      intro s hs
      exact decide_eq_true (hall s hs)
    refine ⟨_, by unfold candidateInliers; rw [if_pos hcond], ?_⟩
    intro x
    rw [List.mem_filter, inlierIsGood_iff _ _ _ (fun hx s hs hne => hsample x hx s hs hne.symm)]
  · rintro ⟨s, hs, hns⟩
    have hcond : ¬ model.samples_.all (fun sample => decide (sample ∈ possible_inliers)) = true := by
      rw [List.all_eq_true]
      intro h
      exact hns (of_decide_eq_true (h s hs))
    have hnone : candidateInliers model possible_inliers = none := by
      unfold candidateInliers; rw [if_neg hcond]
    refine ⟨hnone, ?_⟩
    intro FindClique
    unfold selectWithinDistance
    rw [hnone]
  · intro FindClique x hx hxs
    exact inlierIsGood_of_not_mem _ _ _ hxs
      (selectWithinDistance_subset FindClique model possible_inliers x hx).2

/-- Witness for C6 (amended): `exampleModel` with both sample members within the threshold. -/
theorem candidateInliers_iff_witness :
    ∃ c, candidateInliers exampleModel [0, 1] = some c ∧
      ∀ x, x ∈ c ↔ (x ∈ [0, 1] ∧
        ∀ s ∈ exampleModel.samples_, s ≠ x → exampleModel.physical_adjacency_.test x s = true) :=
  (candidateInliers_iff exampleModel [0, 1] (by decide)).1 (by decide)

/-! ## The scan of `InvalidateQueryIndices` -/

theorem scanQueryIndices_acc (qi : List Nat) (past_end : Nat) :
    ∀ (valid iter acc : List Nat) (x : Nat), x ∈ acc →
      x ∈ scanQueryIndices qi past_end valid iter acc := by
  intro valid
  induction valid with
  | nil => intro iter acc x hx; simpa [scanQueryIndices] using hx
  | cons v rest ih =>
    intro iter acc x hx
    unfold scanQueryIndices
    dsimp only
    split_ifs
    · exact ih _ _ x hx
    · exact ih _ _ x (List.mem_append_left _ hx)
    · exact hx
    · exact ih _ _ x hx

theorem scanQueryIndices_subset (qi : List Nat) (past_end : Nat) :
    ∀ (valid iter acc : List Nat) (x : Nat),
      x ∈ scanQueryIndices qi past_end valid iter acc → x ∈ acc ∨ x ∈ valid := by
  intro valid
  induction valid with
  | nil => intro iter acc x hx; left; simpa [scanQueryIndices] using hx
  | cons v rest ih =>
    intro iter acc x hx
    unfold scanQueryIndices at hx
    dsimp only at hx
    split_ifs at hx
    · rcases ih _ _ x hx with h | h
      · exact Or.inl h
      · exact Or.inr (List.mem_cons_of_mem _ h)
    · rcases ih _ _ x hx with h | h
      · rcases List.mem_append.mp h with h | h
        · exact Or.inl h
        · rw [List.mem_singleton] at h; rw [h]; exact Or.inr (List.mem_cons_self _ _)
      · exact Or.inr (List.mem_cons_of_mem _ h)
    · exact Or.inl hx
    · rcases ih _ _ x hx with h | h
      · exact Or.inl h
      · exact Or.inr (List.mem_cons_of_mem _ h)

theorem mem_dropWhile_of_le (q x : Nat) :
    ∀ (l : List Nat), x ∈ l → q ≤ x → x ∈ l.dropWhile (fun y => decide (q > y)) := by
  intro l
  induction l with
  | nil => intro h; simp at h
  | cons a t ih =>
    intro hx hq
    rw [List.dropWhile_cons]
    by_cases ha : q > a
    · rw [if_pos (decide_eq_true ha)]
      rcases List.mem_cons.mp hx with h | h
      · omega
      · exact ih h hq
    · rw [if_neg (by simpa using ha)]
      exact hx

theorem dropWhile_head_ge (q : Nat) :
    ∀ (l : List Nat) (a : Nat) (t : List Nat),
      l.dropWhile (fun y => decide (q > y)) = a :: t → q ≤ a := by
  intro l
  induction l with
  | nil => intro a t h; simp at h
  | cons b l ih =>
    intro a t h
    rw [List.dropWhile_cons] at h
    by_cases hb : q > b
    · rw [if_pos (decide_eq_true hb)] at h
      exact ih a t h
    · rw [if_neg (by simpa using hb)] at h
      have := (List.cons.inj h).1
      omega

theorem scanQueryIndices_complete (qi : List Nat) (past_end : Nat) (P : Nat → Prop) :
    ∀ (valid iter acc : List Nat), iter.Sorted (· < ·) →
      (valid.map (fun i => qi.getD i 0)).Sorted (· ≤ ·) →
      (∀ v ∈ valid, P (qi.getD v 0) → qi.getD v 0 ∈ iter) →
      ∀ v ∈ valid, P (qi.getD v 0) → v ∈ scanQueryIndices qi past_end valid iter acc := by
  intro valid
  induction valid with
  | nil => intro iter acc _ _ _ v hv; simp at hv
  | cons w rest ih =>
    intro iter acc hiter hmono hin v hv hP
    rw [List.map_cons] at hmono
    have hmono' := List.sorted_cons.mp hmono
    have hrest_mono : (rest.map (fun i => qi.getD i 0)).Sorted (· ≤ ·) := hmono'.2
    have hge : ∀ v' ∈ rest, qi.getD w 0 ≤ qi.getD v' 0 := by
      intro v' hv'
      exact hmono'.1 _ (List.mem_map.mpr ⟨v', hv', rfl⟩)
    have hin_rest : ∀ v' ∈ rest, P (qi.getD v' 0) → qi.getD v' 0 ∈ iter :=
      fun v' hv' h => hin v' (List.mem_cons_of_mem _ hv') h
    have hdrop_sorted : (iter.dropWhile (fun y => decide (qi.getD w 0 > y))).Sorted (· < ·) :=
      List.Pairwise.sublist (List.dropWhile_sublist _) hiter
    have hin_drop : ∀ v' ∈ rest, P (qi.getD v' 0) →
        qi.getD v' 0 ∈ iter.dropWhile (fun y => decide (qi.getD w 0 > y)) :=
      fun v' hv' h => mem_dropWhile_of_le _ _ _ (hin_rest v' hv' h) (hge v' hv')
    -- when the identifier of `w` is wanted, the iterator stops exactly on it
    have hhead : P (qi.getD w 0) →
        (iter.dropWhile (fun y => decide (qi.getD w 0 > y))).headD past_end = qi.getD w 0 := by
      intro hPw
      have hmem := mem_dropWhile_of_le (qi.getD w 0) (qi.getD w 0) iter
        (hin w (List.mem_cons_self _ _) hPw) (Nat.le_refl _)
      cases hd : iter.dropWhile (fun y => decide (qi.getD w 0 > y)) with
      | nil => rw [hd] at hmem; simp at hmem
      | cons a t =>
        rw [hd] at hmem hdrop_sorted
        have h1 := dropWhile_head_ge _ _ _ _ hd
        have h2 := List.sorted_cons.mp hdrop_sorted
        simp only [List.headD_cons]
        rcases List.mem_cons.mp hmem with h3 | h3
        · exact h3.symm
        · have := h2.1 _ h3; omega
    have hnot_lt : P (qi.getD w 0) → ¬ qi.getD w 0 < iter.headD past_end := by
      intro hPw hlt
      have hmem := hin w (List.mem_cons_self _ _) hPw
      cases hi : iter with
      | nil => rw [hi] at hmem; simp at hmem
      | cons a t =>
        rw [hi] at hmem hlt hiter
        simp only [List.headD_cons] at hlt
        have h2 := List.sorted_cons.mp hiter
        rcases List.mem_cons.mp hmem with h3 | h3
        · omega
        · have := h2.1 _ h3; omega
    unfold scanQueryIndices
    dsimp only
    rcases List.mem_cons.mp hv with hvw | hvr
    · subst hvw
      rw [if_neg (hnot_lt hP), if_pos (hhead hP).symm]
      exact scanQueryIndices_acc _ _ _ _ _ _ (List.mem_append_right _ (List.mem_singleton_self _))
    · split_ifs with h1 h2 h3
      · exact ih _ _ hiter hrest_mono hin_rest v hvr hP
      · exact ih _ _ hdrop_sorted hrest_mono hin_drop v hvr hP
      · have := hin_drop v hvr hP
        rw [h3] at this
        simp at this
      · exact ih _ _ hdrop_sorted hrest_mono hin_drop v hvr hP

/-! ## Invalidation on well-formed correspondence sets -/

section Invalidate

variable {F : Type}

theorem getD_le_getD_of_sorted {qi : List Nat} (h : qi.Sorted (· ≤ ·)) {a b : Nat}
    (hab : a < b) (hb : b < qi.length) : qi.getD a 0 ≤ qi.getD b 0 := by
  have ha : a < qi.length := by omega
  rw [List.getD_eq_getElem _ _ ha, List.getD_eq_getElem _ _ hb]
  exact (List.pairwise_iff_getElem.mp h) a b ha hb hab

theorem WellFormed.map_sorted {s : AdjacencyRansac F} (h : WellFormed s) :
    (s.valid_indices_.map (fun i => s.query_indices_.getD i 0)).Sorted (· ≤ ·) := by
  obtain ⟨h1, h2, h3⟩ := h
  apply List.Pairwise.map (fun i => s.query_indices_.getD i 0) _
    (List.Pairwise.imp_of_mem (S := fun a b => a < b ∧ b < s.query_indices_.length) _ h1)
  · intro a b hab
    exact getD_le_getD_of_sorted h3 hab.1 hab.2
  · intro a b _ hb hab
    exact ⟨hab, h2 b hb⟩

theorem InvalidateIndices_query_indices (indices : List Nat) (s : AdjacencyRansac F) :
    (InvalidateIndices indices s).query_indices_ = s.query_indices_ := rfl

theorem InvalidateIndices_valid_subset (indices : List Nat) (s : AdjacencyRansac F) (x : Nat)
    (h : x ∈ (InvalidateIndices indices s).valid_indices_) : x ∈ s.valid_indices_ :=
  mem_of_mem_set_difference h

theorem mem_InvalidateIndices_valid (indices : List Nat) (s : AdjacencyRansac F) (x : Nat)
    (hs : s.valid_indices_.Sorted (· < ·)) :
    x ∈ (InvalidateIndices indices s).valid_indices_ ↔ x ∈ s.valid_indices_ ∧ x ∉ indices := by
  show x ∈ set_difference s.valid_indices_ (sort_unique indices) ↔ _
  rw [mem_set_difference_iff hs (sort_unique_sorted_le indices), mem_sort_unique]

theorem WellFormed.InvalidateIndices (indices : List Nat) {s : AdjacencyRansac F}
    (h : WellFormed s) : WellFormed (InvalidateIndices indices s) :=
  ⟨set_difference_sorted _ h.1, fun i hi => h.2.1 i (mem_of_mem_set_difference hi), h.2.2⟩

theorem InvalidateQueryIndices_query_indices (l : List Nat) (past_end : Nat)
    (s : AdjacencyRansac F) :
    (InvalidateQueryIndices l past_end s).query_indices_ = s.query_indices_ := by
  unfold InvalidateQueryIndices
  split_ifs <;> rfl

theorem InvalidateQueryIndices_valid_subset (l : List Nat) (past_end : Nat)
    (s : AdjacencyRansac F) (x : Nat)
    (h : x ∈ (InvalidateQueryIndices l past_end s).valid_indices_) : x ∈ s.valid_indices_ := by
  unfold InvalidateQueryIndices at h
  split_ifs at h
  · exact h
  · exact InvalidateIndices_valid_subset _ s x h

theorem WellFormed.InvalidateQueryIndices (l : List Nat) (past_end : Nat)
    {s : AdjacencyRansac F} (h : WellFormed s) :
    WellFormed (InvalidateQueryIndices l past_end s) := by
  unfold tod.InvalidateQueryIndices
  split_ifs
  · exact h
  · exact h.InvalidateIndices _

theorem InvalidateQueryIndices_removes (l : List Nat) (past_end : Nat)
    (s : AdjacencyRansac F) (h : WellFormed s) (x : Nat)
    (hx : x ∈ (InvalidateQueryIndices l past_end s).valid_indices_) :
    s.query_indices_.getD x 0 ∉ l := by
  intro hmem
  have hne : l ≠ [] := List.ne_nil_of_mem hmem
  unfold InvalidateQueryIndices at hx
  rw [if_neg hne] at hx
  dsimp only at hx
  rw [mem_InvalidateIndices_valid _ _ _ h.1] at hx
  apply hx.2
  exact scanQueryIndices_complete s.query_indices_ past_end (fun q => q ∈ l)
    s.valid_indices_ (sort_unique l) [] (sort_unique_sorted l) h.map_sorted
    (fun v _ hv => mem_sort_unique.mpr hv) x hx.1 hmem

end Invalidate

/-! ## Sets built by `AddPoints` and `ClusterPerObject` -/

section Built

variable {F : Type}

theorem WellFormed.empty : WellFormed (AdjacencyRansac.empty : AdjacencyRansac F) := by
  refine ⟨List.sorted_nil, ?_, List.sorted_nil⟩
  intro i hi
  simp [AdjacencyRansac.empty] at hi

theorem WellFormed.AddPoints {s : AdjacencyRansac F} (h : WellFormed s)
    (training_point query_point : Point3 F) (query_index : Nat)
    (hq : ∀ x ∈ s.query_indices_, x ≤ query_index) :
    WellFormed (AddPoints s training_point query_point query_index) := by
  obtain ⟨h1, h2, h3⟩ := h
  refine ⟨?_, ?_, ?_⟩
  · show (s.valid_indices_ ++ [s.query_indices_.length]).Sorted (· < ·)
    refine List.pairwise_append.mpr ⟨h1, List.pairwise_singleton _ _, ?_⟩
    intro a ha b hb
    rw [List.mem_singleton] at hb
    rw [hb]
    exact h2 a ha
  · intro i hi
    change i ∈ s.valid_indices_ ++ [s.query_indices_.length] at hi
    show i < (s.query_indices_ ++ [query_index]).length
    rw [List.length_append, List.length_singleton]
    rcases List.mem_append.mp hi with h | h
    · have := h2 i h; omega
    · rw [List.mem_singleton] at h; omega
  · show (s.query_indices_ ++ [query_index]).Sorted (· ≤ ·)
    refine List.pairwise_append.mpr ⟨h3, List.pairwise_singleton _ _, ?_⟩
    intro a ha b hb
    rw [List.mem_singleton] at hb
    rw [hb]
    exact hq a ha

theorem AddPoints_query_indices (s : AdjacencyRansac F) (t q : Point3 F) (query_index : Nat) :
    (AddPoints s t q query_index).query_indices_ = s.query_indices_ ++ [query_index] := rfl

theorem wellFormed_foldl_AddPoints :
    ∀ (pts : List (Point3 F × Point3 F × Nat)) (s : AdjacencyRansac F), WellFormed s →
      (pts.map (fun p => p.2.2)).Sorted (· ≤ ·) →
      (∀ x ∈ s.query_indices_, ∀ p ∈ pts, x ≤ p.2.2) →
      WellFormed (pts.foldl (fun s p => AddPoints s p.1 p.2.1 p.2.2) s) := by
  intro pts
  induction pts with
  | nil => intro s h _ _; exact h
  | cons p rest ih =>
    intro s h hs hle
    rw [List.map_cons] at hs
    have hs' := List.sorted_cons.mp hs
    rw [List.foldl_cons]
    apply ih _ (h.AddPoints _ _ _ (fun x hx => hle x hx p (List.mem_cons_self _ _))) hs'.2
    intro x hx q hq
    rw [AddPoints_query_indices] at hx
    rcases List.mem_append.mp hx with h1 | h1
    · exact hle x h1 q (List.mem_cons_of_mem _ hq)
    · rw [List.mem_singleton] at h1
      rw [h1]
      exact hs'.1 _ (List.mem_map.mpr ⟨q, hq, rfl⟩)

theorem WellFormed.run (c : InvalidateCall) {s : AdjacencyRansac F} (h : WellFormed s) :
    WellFormed (c.run s) := by
  cases c with
  | byIndex l => exact h.InvalidateIndices l
  | byQueryIndex l p => exact h.InvalidateQueryIndices l p

theorem wellFormed_foldl_run (calls : List InvalidateCall) (s : AdjacencyRansac F)
    (h : WellFormed s) : WellFormed (calls.foldl (fun st c => c.run st) s) := by
  induction calls generalizing s with
  | nil => exact h
  | cons c cs ih => exact ih _ (h.run c)

end Built

/-! ## Invalidation by observed-point identifier (C8) -/

/-- C8, as stated, fails when the identifiers are not in non-decreasing order:
for the set built by `AddPoints` with identifiers 5 then 3, invalidating the
identifiers `[3, 5]` removes index 0 only, and index 1, whose identifier 3 is
in the list, stays valid (whatever lies past the end of the list). -/
theorem InvalidateQueryIndices_unordered_counterexample :
    (InvalidateQueryIndices [3, 5] 0
      (AddPoints (AddPoints (AdjacencyRansac.empty : AdjacencyRansac ℚ)
        Point3.origin Point3.origin 5) Point3.origin Point3.origin 3)).valid_indices_ = [1] ∧
    (AddPoints (AddPoints (AdjacencyRansac.empty : AdjacencyRansac ℚ)
        Point3.origin Point3.origin 5) Point3.origin Point3.origin 3).query_indices_.getD 1 0
      = 3 ∧
    3 ∈ [3, 5] := by
  refine ⟨?_, ?_, ?_⟩
  · simp [InvalidateQueryIndices, InvalidateIndices, AddPoints, AdjacencyRansac.empty,
      sort_unique, unique, scanQueryIndices, set_difference, List.dropWhile]
  · simp [AddPoints, AdjacencyRansac.empty]
  · simp

/-- C8 (amended). Invalidation by observed-point identifier is complete on sets
whose identifiers are in non-decreasing order, which is how `ClusterPerObject`
builds them: for every correspondence set built by `AddPoints` with
non-decreasing identifiers (repeats allowed), after any earlier invalidation
calls, and for every list of identifiers, after `InvalidateQueryIndices` no
index remaining in the valid-index set has an observed-point identifier that
occurs in the list. -/
theorem InvalidateQueryIndices_complete {F : Type}
    (pts : List (Point3 F × Point3 F × Nat)) (calls : List InvalidateCall)
    (query_indices : List Nat) (past_end : Nat)
    (hsorted : (pts.map (fun p => p.2.2)).Sorted (· ≤ ·)) :
    ∀ i ∈ (InvalidateQueryIndices query_indices past_end
        (calls.foldl (fun st c => c.run st)
          (pts.foldl (fun s p => AddPoints s p.1 p.2.1 p.2.2)
            AdjacencyRansac.empty))).valid_indices_,
      (calls.foldl (fun st c => c.run st)
          (pts.foldl (fun s p => AddPoints s p.1 p.2.1 p.2.2)
            AdjacencyRansac.empty)).query_indices_.getD i 0 ∉ query_indices := by
  intro i hi
  have hwf := wellFormed_foldl_run calls _
    (wellFormed_foldl_AddPoints pts (AdjacencyRansac.empty : AdjacencyRansac F)
      WellFormed.empty hsorted (fun x hx => by simp [AdjacencyRansac.empty] at hx))
  exact InvalidateQueryIndices_removes query_indices past_end _ hwf i hi

/-- Witness for C8 (amended): with identifiers 3, 3, 5, invalidating identifier 3
removes index 1, whose identifier is 3. -/
theorem InvalidateQueryIndices_complete_witness :
    1 ∉ (InvalidateQueryIndices [3] 0
      (([] : List InvalidateCall).foldl (fun st c => c.run st)
        (examplePoints.foldl (fun s p => AddPoints s p.1 p.2.1 p.2.2)
          AdjacencyRansac.empty))).valid_indices_ :=
  fun h => InvalidateQueryIndices_complete examplePoints [] [3] 0
    (by simp [examplePoints]) 1 h (by simp [examplePoints, AddPoints, AdjacencyRansac.empty])

/-! ## Sets built by `ClusterPerObject` -/

section Cluster

variable {F : Type} [LinearOrderedField F]

theorem cluster_inner_inv (q : Nat) (query_point : Point3 F) (local_matches : List DMatch)
    (local_matches_3d : List (Point3 F)) :
    ∀ (ms : List Nat) (object_points : Nat → AdjacencyRansac F),
      (∀ oid, WellFormed (object_points oid) ∧
        ∀ x ∈ (object_points oid).query_indices_, x ≤ q) →
      ∀ oid, WellFormed (ms.foldl
          (fun object_points match_index =>
            Function.update object_points (local_matches.getD match_index ⟨0⟩).imgIdx
              (AddPoints (object_points (local_matches.getD match_index ⟨0⟩).imgIdx)
                (local_matches_3d.getD match_index Point3.origin) query_point q))
          object_points oid) ∧
        ∀ x ∈ (ms.foldl
          (fun object_points match_index =>
            Function.update object_points (local_matches.getD match_index ⟨0⟩).imgIdx
              (AddPoints (object_points (local_matches.getD match_index ⟨0⟩).imgIdx)
                (local_matches_3d.getD match_index Point3.origin) query_point q))
          object_points oid).query_indices_, x ≤ q := by
  intro ms
  induction ms with
  | nil => intro op h; exact h
  | cons m rest ih =>
    intro op h
    rw [List.foldl_cons]
    apply ih
    intro oid
    by_cases ho : oid = (local_matches.getD m ⟨0⟩).imgIdx
    · rw [ho, Function.update_same]
      refine ⟨(h _).1.AddPoints _ _ _ (h _).2, ?_⟩
      intro x hx
      rw [AddPoints_query_indices] at hx
      rcases List.mem_append.mp hx with h1 | h1
      · exact (h _).2 x h1
      · rw [List.mem_singleton] at h1; omega
    · rw [Function.update_noteq ho]
      exact h oid

theorem cluster_outer_inv (keypoints : List (KeyPoint F)) (point_cloud : F → F → Option (Point3 F))
    (matches_ : List (List DMatch)) (matches_3d : List (List (Point3 F))) :
    ∀ (qs : List Nat) (object_points : Nat → AdjacencyRansac F) (b : Nat),
      qs.Sorted (· ≤ ·) → (∀ q ∈ qs, b ≤ q) →
      (∀ oid, WellFormed (object_points oid) ∧
        ∀ x ∈ (object_points oid).query_indices_, x ≤ b) →
      ∀ oid, WellFormed (qs.foldl
        (fun object_points query_index =>
          match point_cloud (keypoints.getD query_index KeyPoint.origin).pt.y
              (keypoints.getD query_index KeyPoint.origin).pt.x with
          | none => object_points
          | some query_point =>
            (List.range (matches_.getD query_index []).length).foldl
              (fun object_points match_index =>
                Function.update object_points
                  ((matches_.getD query_index []).getD match_index ⟨0⟩).imgIdx
                  (AddPoints
                    (object_points ((matches_.getD query_index []).getD match_index ⟨0⟩).imgIdx)
                    ((matches_3d.getD query_index []).getD match_index Point3.origin)
                    query_point query_index))
              object_points)
        object_points oid) := by
  intro qs
  induction qs with
  | nil => intro op b _ _ h oid; exact (h oid).1
  | cons q rest ih =>
    intro op b hs hb h
    have hs' := List.sorted_cons.mp hs
    have hq : ∀ oid, WellFormed (op oid) ∧ ∀ x ∈ (op oid).query_indices_, x ≤ q := by
      intro oid
      refine ⟨(h oid).1, fun x hx => ?_⟩
      have h1 := (h oid).2 x hx
      have h2 := hb q (List.mem_cons_self _ _)
      omega
    rw [List.foldl_cons]
    apply ih _ q hs'.2 hs'.1
    cases hpc : point_cloud (keypoints.getD q KeyPoint.origin).pt.y
        (keypoints.getD q KeyPoint.origin).pt.x with
    | none => exact hq
    | some query_point =>
      exact cluster_inner_inv q query_point _ _ _ op hq

theorem wellFormed_ClusterPerObject (keypoints : List (KeyPoint F))
    (point_cloud : F → F → Option (Point3 F))
    (matches_ : List (List DMatch)) (matches_3d : List (List (Point3 F))) (oid : Nat) :
    WellFormed (ClusterPerObject keypoints point_cloud matches_ matches_3d
      (fun _ => AdjacencyRansac.empty) oid) := by
  unfold ClusterPerObject
  apply cluster_outer_inv keypoints point_cloud matches_ matches_3d
    (List.range matches_.length) (fun _ => AdjacencyRansac.empty) 0
    (List.Pairwise.imp (fun h => Nat.le_of_lt h) (List.pairwise_lt_range _))
    (fun q _ => Nat.zero_le q)
  intro _
  exact ⟨WellFormed.empty, fun x hx => by simp [AdjacencyRansac.empty] at hx⟩

theorem wellFormed_object_points_filled (fl : FloatOps F) (keypoints : List (KeyPoint F))
    (point_cloud : F → F → Option (Point3 F))
    (matches_ : List (List DMatch)) (matches_3d : List (List (Point3 F)))
    (object_span sensor_error : F) (oid : Nat) :
    WellFormed (object_points_filled fl keypoints point_cloud matches_ matches_3d
      object_span sensor_error oid) :=
  wellFormed_ClusterPerObject keypoints point_cloud matches_ matches_3d oid

end Cluster

/-! ## The extraction loop (C9, C10) -/

section LoopFacts

variable {F : Type} {C : Type}

theorem process_iteration_some {Ransac : AdjacencyRansac F → C × List Nat} {min_inliers : Nat}
    {past_end : Nat} {s s' : AdjacencyRansac F} {pose : EmittedPose C}
    (h : process_iteration Ransac min_inliers past_end s = some (pose, s')) :
    min_inliers ≤ (Ransac s).2.length ∧ pose.inliers = (Ransac s).2 ∧
    s' = InvalidateQueryIndices
      ((Ransac s).2.map (fun inlier => s.query_indices_.getD inlier 0)) past_end s := by
  unfold process_iteration at h
  dsimp only at h
  split_ifs at h with hlt
  have h' := Option.some.inj h
  have h1 := congrArg Prod.fst h'
  have h2 := congrArg Prod.snd h'
  simp only at h1 h2
  exact ⟨Nat.not_lt.mp hlt, by rw [← h1], h2.symm⟩

theorem process_iteration_wellFormed {Ransac : AdjacencyRansac F → C × List Nat}
    {min_inliers : Nat} {past_end : Nat} {s s' : AdjacencyRansac F} {pose : EmittedPose C}
    (h : process_iteration Ransac min_inliers past_end s = some (pose, s'))
    (hwf : WellFormed s) : WellFormed s' := by
  rw [(process_iteration_some h).2.2]
  exact hwf.InvalidateQueryIndices _ _

theorem process_iteration_shrinks {Ransac : AdjacencyRansac F → C × List Nat}
    {min_inliers : Nat} {past_end : Nat} {s s' : AdjacencyRansac F} {pose : EmittedPose C}
    (h : process_iteration Ransac min_inliers past_end s = some (pose, s'))
    (hwf : WellFormed s) (hmin : 1 ≤ min_inliers)
    (hR : ∀ x ∈ (Ransac s).2, x ∈ s.valid_indices_) :
    (∀ x ∈ s'.valid_indices_, x ∈ s.valid_indices_) ∧
    ∃ x ∈ s.valid_indices_, x ∉ s'.valid_indices_ := by
  obtain ⟨hlen, -, hs'⟩ := process_iteration_some h
  refine ⟨?_, ?_⟩
  · intro x hx
    rw [hs'] at hx
    exact InvalidateQueryIndices_valid_subset _ _ _ _ hx
  · cases hin : (Ransac s).2 with
    | nil => rw [hin] at hlen; simp at hlen; omega
    | cons x rest =>
      have hx : x ∈ (Ransac s).2 := by rw [hin]; exact List.mem_cons_self _ _
      refine ⟨x, hR x hx, ?_⟩
      intro hx'
      rw [hs'] at hx'
      exact InvalidateQueryIndices_removes _ _ s hwf x hx'
        (List.mem_map.mpr ⟨x, hx, rfl⟩)

theorem loop_state_wellFormed (Ransac : Nat → AdjacencyRansac F → C × List Nat)
    (min_inliers : Nat) (past_end : Nat → Nat) :
    ∀ (n k : Nat) (s sn : AdjacencyRansac F), WellFormed s →
      loop_state Ransac min_inliers past_end n k s = some sn → WellFormed sn := by
  intro n
  induction n with
  | zero =>
    intro k s sn hwf h
    rw [loop_state] at h
    rw [← Option.some.inj h]
    exact hwf
  | succ n ih =>
    intro k s sn hwf h
    rw [loop_state] at h
    cases hit : process_iteration (Ransac k) min_inliers (past_end k) s with
    | none => rw [hit] at h; simp at h
    | some r =>
      obtain ⟨pose, s'⟩ := r
      rw [hit] at h
      exact ih (k + 1) s' sn (process_iteration_wellFormed hit hwf) h

theorem process_loop_poses (Ransac : Nat → AdjacencyRansac F → C × List Nat)
    (min_inliers : Nat) (past_end : Nat → Nat)
    (hR : ∀ k s, ∀ x ∈ (Ransac k s).2, x ∈ s.valid_indices_) :
    ∀ (fuel k : Nat) (s : AdjacencyRansac F), WellFormed s →
      (∀ p ∈ (process_loop Ransac min_inliers past_end fuel k s).poses,
        ∀ x ∈ p.inliers, x ∈ s.valid_indices_) ∧
      (process_loop Ransac min_inliers past_end fuel k s).poses.Pairwise
        (fun p q => (∀ x ∈ p.inliers, x ∉ q.inliers) ∧
          ∀ x ∈ p.inliers, ∀ y ∈ q.inliers,
            s.query_indices_.getD x 0 ≠ s.query_indices_.getD y 0) := by
  intro fuel
  induction fuel with
  | zero =>
    intro k s _
    rw [process_loop]
    exact ⟨fun p hp => by simp at hp, List.Pairwise.nil⟩
  | succ fuel ih =>
    intro k s hwf
    rw [process_loop]
    cases hit : process_iteration (Ransac k) min_inliers (past_end k) s with
    | none => exact ⟨fun p hp => by simp at hp, List.Pairwise.nil⟩
    | some r =>
      obtain ⟨pose, s'⟩ := r
      obtain ⟨-, hpose, hs'⟩ := process_iteration_some hit
      have hwf' := process_iteration_wellFormed hit hwf
      obtain ⟨ih1, ih2⟩ := ih (k + 1) s' hwf'
      have hqi : s'.query_indices_ = s.query_indices_ := by
        rw [hs']; exact InvalidateQueryIndices_query_indices _ _ _
      have hsub : ∀ x ∈ s'.valid_indices_, x ∈ s.valid_indices_ := by
        intro x hx
        rw [hs'] at hx
        exact InvalidateQueryIndices_valid_subset _ _ _ _ hx
      have hgone : ∀ y ∈ s'.valid_indices_, ∀ x ∈ pose.inliers,
          s.query_indices_.getD x 0 ≠ s.query_indices_.getD y 0 := by
        intro y hy x hx heq
        rw [hs'] at hy
        apply InvalidateQueryIndices_removes _ _ s hwf y hy
        rw [← heq, hpose] at *
        exact List.mem_map.mpr ⟨x, hx, rfl⟩
      dsimp only
      refine ⟨?_, ?_⟩
      · intro p hp x hx
        rcases List.mem_cons.mp hp with h1 | h1
        · rw [h1, hpose] at hx
          exact hR k s x hx
        · exact hsub x (ih1 p h1 x hx)
      · refine List.Pairwise.cons ?_ (hqi ▸ ih2)
        intro q hq
        refine ⟨?_, ?_⟩
        · intro x hx hxq
          exact hgone x (ih1 q hq x hxq) x hx rfl
        · intro x hx y hy
          exact hgone y (ih1 q hq y hy) x hx

end LoopFacts

section LoopClaims

variable {F : Type} [LinearOrderedField F] {C : Type}

/-- C9. Instances do not share observed points.  For the correspondence set of
any object as `process` builds it (`ClusterPerObject`, then `FillAdjacency`)
and `Ransac` calls whose inliers are valid indices of the set they are given:
however long the `while` loop runs, any two poses it stores have no inlier index
in common and no inlier observed-point identifier in common. -/
theorem poses_share_no_observed_point (fl : FloatOps F) (keypoints : List (KeyPoint F))
    (point_cloud : F → F → Option (Point3 F)) (matches_ : List (List DMatch))
    (matches_3d : List (List (Point3 F))) (object_span sensor_error : F)
    (opencv_object_id : Nat) (Ransac : Nat → AdjacencyRansac F → C × List Nat)
    (min_inliers : Nat) (past_end : Nat → Nat) (fuel : Nat)
    (hR : ∀ k s, ∀ x ∈ (Ransac k s).2, x ∈ s.valid_indices_) :
    (process_loop Ransac min_inliers past_end fuel 0
      (object_points_filled fl keypoints point_cloud matches_ matches_3d object_span
        sensor_error opencv_object_id)).poses.Pairwise
      (fun p q => (∀ x ∈ p.inliers, x ∉ q.inliers) ∧
        ∀ x ∈ p.inliers, ∀ y ∈ q.inliers,
          (object_points_filled fl keypoints point_cloud matches_ matches_3d object_span
            sensor_error opencv_object_id).query_indices_.getD x 0 ≠
          (object_points_filled fl keypoints point_cloud matches_ matches_3d object_span
            sensor_error opencv_object_id).query_indices_.getD y 0) :=
  (process_loop_poses Ransac min_inliers past_end hR fuel 0 _
    (wellFormed_object_points_filled fl keypoints point_cloud matches_ matches_3d
      object_span sensor_error opencv_object_id)).2

/-- C10. Monotonicity of the valid-index set.  `InvalidateIndices` and
`InvalidateQueryIndices` never add an index to the valid-index set; and in the
`while` loop of `process` on the correspondence set of any object
(`ClusterPerObject`, then `FillAdjacency`), with `min_inliers` at least 1 and
`Ransac` calls whose inliers are valid indices of the set they are given, every
pass that stores a pose leaves a valid-index set that is a strict subset of the
one it started with. -/
theorem valid_indices_strictly_shrink (fl : FloatOps F) (keypoints : List (KeyPoint F))
    (point_cloud : F → F → Option (Point3 F)) (matches_ : List (List DMatch))
    (matches_3d : List (List (Point3 F))) (object_span sensor_error : F)
    (opencv_object_id : Nat) (Ransac : Nat → AdjacencyRansac F → C × List Nat)
    (min_inliers : Nat) (past_end : Nat → Nat)
    (hmin : 1 ≤ min_inliers)
    (hR : ∀ k s, ∀ x ∈ (Ransac k s).2, x ∈ s.valid_indices_) :
    (∀ (indices : List Nat) (s : AdjacencyRansac F),
      ∀ x ∈ (InvalidateIndices indices s).valid_indices_, x ∈ s.valid_indices_) ∧
    (∀ (query_indices : List Nat) (p : Nat) (s : AdjacencyRansac F),
      ∀ x ∈ (InvalidateQueryIndices query_indices p s).valid_indices_, x ∈ s.valid_indices_) ∧
    (∀ (n : Nat) (s s' : AdjacencyRansac F) (pose : EmittedPose C),
      loop_state Ransac min_inliers past_end n 0
        (object_points_filled fl keypoints point_cloud matches_ matches_3d object_span
          sensor_error opencv_object_id) = some s →
      process_iteration (Ransac n) min_inliers (past_end n) s = some (pose, s') →
      (∀ x ∈ s'.valid_indices_, x ∈ s.valid_indices_) ∧
      ∃ x ∈ s.valid_indices_, x ∉ s'.valid_indices_) := by
  refine ⟨?_, ?_, ?_⟩
  · intro indices s x hx
    exact InvalidateIndices_valid_subset indices s x hx
  · intro l p s x hx
    exact InvalidateQueryIndices_valid_subset l p s x hx
  · intro n s s' pose hstate hit
    have hwf := loop_state_wellFormed Ransac min_inliers past_end n 0 _ s
      (wellFormed_object_points_filled fl keypoints point_cloud matches_ matches_3d
        object_span sensor_error opencv_object_id) hstate
    exact process_iteration_shrinks hit hwf hmin (hR n s)

end LoopClaims

/-! ## Witnesses for C9 and C10 -/

theorem exampleRansac_valid :
    ∀ (k : Nat) (s : AdjacencyRansac ℚ), ∀ x ∈ (exampleRansac k s).2, x ∈ s.valid_indices_ :=
  fun _ _ _ hx => List.mem_of_mem_take hx

/-- Witness for C9: object 0 of `exampleMatches`, one inlier per pose, five passes allowed. -/
theorem poses_share_no_observed_point_witness :
    (process_loop exampleRansac 1 (fun _ => 0) 5 0
      (object_points_filled exampleFloat exampleKeypoints3 (fun _ _ => some Point3.origin)
        exampleMatches [] 1 1 0)).poses.Pairwise
      (fun p q => (∀ x ∈ p.inliers, x ∉ q.inliers) ∧
        ∀ x ∈ p.inliers, ∀ y ∈ q.inliers,
          (object_points_filled exampleFloat exampleKeypoints3 (fun _ _ => some Point3.origin)
            exampleMatches [] 1 1 0).query_indices_.getD x 0 ≠
          (object_points_filled exampleFloat exampleKeypoints3 (fun _ _ => some Point3.origin)
            exampleMatches [] 1 1 0).query_indices_.getD y 0) :=
  poses_share_no_observed_point exampleFloat exampleKeypoints3 (fun _ _ => some Point3.origin)
    exampleMatches [] 1 1 0 exampleRansac 1 (fun _ => 0) 5 exampleRansac_valid

/-- Witness for C10: the first pass on object 0 of `exampleMatches` with
`min_inliers = 1` stores a pose and strictly shrinks the valid-index set. -/
theorem valid_indices_strictly_shrink_witness :
    (∀ x ∈ (InvalidateQueryIndices
        ((exampleRansac 0 exampleObject).2.map
          (fun inlier => exampleObject.query_indices_.getD inlier 0)) 0
        exampleObject).valid_indices_, x ∈ exampleObject.valid_indices_) ∧
    ∃ x ∈ exampleObject.valid_indices_,
      x ∉ (InvalidateQueryIndices
        ((exampleRansac 0 exampleObject).2.map
          (fun inlier => exampleObject.query_indices_.getD inlier 0)) 0
        exampleObject).valid_indices_ := by
  have hlen : ¬ (exampleRansac 0 exampleObject).2.length < 1 := by decide
  exact (valid_indices_strictly_shrink exampleFloat exampleKeypoints3
    (fun _ _ => some Point3.origin) exampleMatches [] 1 1 0 exampleRansac 1 (fun _ => 0)
    (by decide) exampleRansac_valid).2.2 0 exampleObject _
    ⟨(exampleRansac 0 exampleObject).1, (exampleRansac 0 exampleObject).2⟩ rfl
    (by unfold process_iteration; dsimp only; rw [if_neg hlen])

/-! ## Termination of the extraction loop (C11) -/

section LoopTermination

variable {F : Type} {C : Type}

theorem WellFormed.valid_length_le {s : AdjacencyRansac F} (h : WellFormed s) :
    s.valid_indices_.length ≤ s.query_indices_.length := by
  have hnd : s.valid_indices_.Nodup := List.Pairwise.imp (fun h => Nat.ne_of_lt h) h.1
  have hsub : s.valid_indices_ ⊆ List.range s.query_indices_.length :=
    fun x hx => List.mem_range.mpr (h.2.1 x hx)
  have := (List.subperm_of_subset hnd hsub).length_le
  simpa using this

theorem process_iteration_length {Ransac : AdjacencyRansac F → C × List Nat}
    {min_inliers : Nat} {past_end : Nat} {s s' : AdjacencyRansac F} {pose : EmittedPose C}
    (h : process_iteration Ransac min_inliers past_end s = some (pose, s'))
    (hwf : WellFormed s) (hnd : (Ransac s).2.Nodup)
    (hR : ∀ x ∈ (Ransac s).2, x ∈ s.valid_indices_) :
    s'.valid_indices_.length + min_inliers ≤ s.valid_indices_.length := by
  obtain ⟨hlen, -, hs'⟩ := process_iteration_some h
  have hwf' := process_iteration_wellFormed h hwf
  have hnd' : s'.valid_indices_.Nodup := List.Pairwise.imp (fun h => Nat.ne_of_lt h) hwf'.1
  have hdisj : ∀ x ∈ s'.valid_indices_, x ∉ (Ransac s).2 := by
    intro x hx hxI
    rw [hs'] at hx
    exact InvalidateQueryIndices_removes _ _ s hwf x hx (List.mem_map.mpr ⟨x, hxI, rfl⟩)
  have hnd2 : (s'.valid_indices_ ++ (Ransac s).2).Nodup :=
    List.nodup_append.mpr ⟨hnd', hnd, fun x hx hxI => hdisj x hx hxI⟩
  have hsub : s'.valid_indices_ ++ (Ransac s).2 ⊆ s.valid_indices_ := by
    intro x hx
    rcases List.mem_append.mp hx with h1 | h1
    · rw [hs'] at h1
      exact InvalidateQueryIndices_valid_subset _ _ _ _ h1
    · exact hR x h1
  have := (List.subperm_of_subset hnd2 hsub).length_le
  rw [List.length_append] at this
  omega

theorem process_loop_bound (Ransac : Nat → AdjacencyRansac F → C × List Nat)
    (min_inliers : Nat) (past_end : Nat → Nat)
    (hR : ∀ k s, (Ransac k s).2.Nodup ∧ ∀ x ∈ (Ransac k s).2, x ∈ s.valid_indices_) :
    ∀ (fuel k : Nat) (s : AdjacencyRansac F), WellFormed s →
      (process_loop Ransac min_inliers past_end fuel k s).poses.length * min_inliers
        ≤ s.valid_indices_.length ∧
      (s.valid_indices_.length < fuel * min_inliers →
        (process_loop Ransac min_inliers past_end fuel k s).finished = true) := by
  intro fuel
  induction fuel with
  | zero =>
    intro k s _
    rw [process_loop]
    exact ⟨by simp, fun h => by simp at h⟩
  | succ fuel ih =>
    intro k s hwf
    rw [process_loop]
    cases hit : process_iteration (Ransac k) min_inliers (past_end k) s with
    | none => exact ⟨by simp, fun _ => rfl⟩
    | some r =>
      obtain ⟨pose, s'⟩ := r
      have hwf' := process_iteration_wellFormed hit hwf
      have hlen := process_iteration_length hit hwf (hR k s).1 (hR k s).2
      obtain ⟨ih1, ih2⟩ := ih (k + 1) s' hwf'
      dsimp only
      refine ⟨?_, ?_⟩
      · rw [List.length_cons, Nat.add_mul, Nat.one_mul]
        omega
      · intro hlt
        apply ih2
        rw [Nat.add_mul, Nat.one_mul] at hlt
        omega

end LoopTermination

section LoopTerminationClaim

variable {F : Type} [LinearOrderedField F] {C : Type}

/-- C11. The multi-instance extraction loop terminates.  For the correspondence
set of any object as `process` builds it, with `N` correspondences, every
`min_inliers` at least 1 and `Ransac` calls that return distinct inliers taken
from the valid-index set they are given: however long the `while` loop runs it
stores at most `N / min_inliers` poses, and it has been left (by its `break`)
within `N / min_inliers + 1` passes. -/
theorem process_loop_terminates (fl : FloatOps F) (keypoints : List (KeyPoint F))
    (point_cloud : F → F → Option (Point3 F)) (matches_ : List (List DMatch))
    (matches_3d : List (List (Point3 F))) (object_span sensor_error : F)
    (opencv_object_id : Nat) (Ransac : Nat → AdjacencyRansac F → C × List Nat)
    (min_inliers : Nat) (past_end : Nat → Nat)
    (hmin : 1 ≤ min_inliers)
    (hR : ∀ k s, (Ransac k s).2.Nodup ∧ ∀ x ∈ (Ransac k s).2, x ∈ s.valid_indices_) :
    (∀ fuel, (process_loop Ransac min_inliers past_end fuel 0
        (object_points_filled fl keypoints point_cloud matches_ matches_3d object_span
          sensor_error opencv_object_id)).poses.length ≤
      (object_points_filled fl keypoints point_cloud matches_ matches_3d object_span
        sensor_error opencv_object_id).query_indices_.length / min_inliers) ∧
    (process_loop Ransac min_inliers past_end
        ((object_points_filled fl keypoints point_cloud matches_ matches_3d object_span
          sensor_error opencv_object_id).query_indices_.length / min_inliers + 1) 0
        (object_points_filled fl keypoints point_cloud matches_ matches_3d object_span
          sensor_error opencv_object_id)).finished = true := by
  have hwf := wellFormed_object_points_filled fl keypoints point_cloud matches_ matches_3d
    object_span sensor_error opencv_object_id
  have hN := hwf.valid_length_le
  have hpos : 0 < min_inliers := hmin
  refine ⟨?_, ?_⟩
  · intro fuel
    have h := (process_loop_bound Ransac min_inliers past_end hR fuel 0 _ hwf).1
    rw [Nat.le_div_iff_mul_le hpos]
    exact Nat.le_trans h hN
  · apply (process_loop_bound Ransac min_inliers past_end hR _ 0 _ hwf).2
    have := Nat.lt_div_mul_add hpos
      (a := (object_points_filled fl keypoints point_cloud matches_ matches_3d object_span
        sensor_error opencv_object_id).query_indices_.length)
    rw [Nat.add_mul, Nat.one_mul]
    omega

end LoopTerminationClaim

/-- Witness for C11: object 0 of `exampleMatches` (three correspondences), one inlier
per pose, `min_inliers = 1`: the loop is left within four passes. -/
theorem process_loop_terminates_witness :
    (process_loop exampleRansac 1 (fun _ => 0)
      ((object_points_filled exampleFloat exampleKeypoints3 (fun _ _ => some Point3.origin)
        exampleMatches [] 1 1 0).query_indices_.length / 1 + 1) 0
      (object_points_filled exampleFloat exampleKeypoints3 (fun _ _ => some Point3.origin)
        exampleMatches [] 1 1 0)).finished = true :=
  (process_loop_terminates exampleFloat exampleKeypoints3 (fun _ _ => some Point3.origin)
    exampleMatches [] 1 1 0 exampleRansac 1 (fun _ => 0) (by decide)
    (fun k s => ⟨by
      unfold exampleRansac
      cases s.valid_indices_ with
      | nil => simp
      | cons a t => simp, exampleRansac_valid k s⟩)).2

/-! ## `set_difference` as a filter; reachable sets -/

theorem set_difference_eq_filter :
    ∀ {a b : List Nat}, a.Sorted (· < ·) → b.Sorted (· ≤ ·) →
      set_difference a b = a.filter (fun x => decide (x ∉ b)) := by
  intro a b
  induction a, b using set_difference.induct with
  | case1 b => intro _ _; simp [set_difference]
  | case2 a as => intro _ _; simp [set_difference]
  | case3 a as b bs hlt ih =>
    intro ha hb
    rw [set_difference, if_pos hlt]
    have ha2 := List.sorted_cons.mp ha
    have hb2 := List.sorted_cons.mp hb
    have hna : a ∉ b :: bs := by
      intro h
      rcases List.mem_cons.mp h with h1 | h1
      · omega
      · have := hb2.1 _ h1; omega
    rw [List.filter_cons_of_pos (by simpa using hna), ih ha2.2 hb]
  | case4 a as b bs hlt hlt2 ih =>
    intro ha hb
    rw [set_difference, if_neg hlt, if_pos hlt2]
    have ha2 := List.sorted_cons.mp ha
    have hb2 := List.sorted_cons.mp hb
    rw [ih ha hb2.2]
    apply List.filter_congr
    intro x hx
    have hxb : x ≠ b := by
      rcases List.mem_cons.mp hx with h1 | h1
      · omega
      · have := ha2.1 _ h1; omega
    simp [hxb]
  | case5 a as b bs hlt hlt2 ih =>
    intro ha hb
    rw [set_difference, if_neg hlt, if_neg hlt2]
    have hab : a = b := by omega
    have ha2 := List.sorted_cons.mp ha
    have hb2 := List.sorted_cons.mp hb
    subst hab
    rw [List.filter_cons_of_neg (by simp), ih ha2.2 hb2.2]
    apply List.filter_congr
    intro x hx
    have hxa : x ≠ a := by have := ha2.1 _ hx; omega
    simp [hxa]

theorem set_difference_idem {a b : List Nat} (ha : a.Sorted (· < ·)) (hb : b.Sorted (· ≤ ·)) :
    set_difference (set_difference a b) b = set_difference a b := by
  rw [set_difference_eq_filter (set_difference_sorted b ha) hb, set_difference_eq_filter ha hb,
    List.filter_filter]
  apply List.filter_congr
  intro x _
  simp

theorem set_difference_nil_right (a : List Nat) : set_difference a [] = a := by
  cases a <;> simp [set_difference]

theorem sort_unique_nil : sort_unique [] = [] := by
  simp [sort_unique, unique]

theorem invalidate_rows_sorted (indices : List Nat) :
    ∀ (rows : List (List Nat)) (k : Nat), (∀ r ∈ rows, r.Sorted (· < ·)) →
      ∀ r ∈ AdjacencyMatrix.invalidate_rows indices k rows, r.Sorted (· < ·) := by
  intro rows
  induction rows with
  | nil => intro k _ r hr; simp [AdjacencyMatrix.invalidate_rows] at hr
  | cons r0 rs ih =>
    intro k h r hr
    rw [AdjacencyMatrix.invalidate_rows] at hr
    rcases List.mem_cons.mp hr with h1 | h1
    · rw [h1]
      split_ifs
      · exact List.sorted_nil
      · exact set_difference_sorted _ (h r0 (List.mem_cons_self _ _))
    · exact ih (k + 1) (fun r' hr' => h r' (List.mem_cons_of_mem _ hr')) r h1

theorem invalidate_rows_idem (indices : List Nat) (hidx : indices.Sorted (· ≤ ·)) :
    ∀ (rows : List (List Nat)) (k : Nat), (∀ r ∈ rows, r.Sorted (· < ·)) →
      AdjacencyMatrix.invalidate_rows indices k
        (AdjacencyMatrix.invalidate_rows indices k rows) =
      AdjacencyMatrix.invalidate_rows indices k rows := by
  intro rows
  induction rows with
  | nil => intro k _; simp [AdjacencyMatrix.invalidate_rows]
  | cons r0 rs ih =>
    intro k h
    rw [AdjacencyMatrix.invalidate_rows, AdjacencyMatrix.invalidate_rows,
      ih (k + 1) (fun r' hr' => h r' (List.mem_cons_of_mem _ hr'))]
    congr 1
    by_cases hk : k ∈ indices
    · simp [hk]
    · simp only [hk, if_false]
      exact set_difference_idem (h r0 (List.mem_cons_self _ _)) hidx

theorem invalidate_rows_nil :
    ∀ (rows : List (List Nat)) (k : Nat), AdjacencyMatrix.invalidate_rows [] k rows = rows := by
  intro rows
  induction rows with
  | nil => intro k; simp [AdjacencyMatrix.invalidate_rows]
  | cons r0 rs ih =>
    intro k
    rw [AdjacencyMatrix.invalidate_rows, ih (k + 1)]
    simp [set_difference_nil_right]

theorem rows_sorted_of_neighbors (m : AdjacencyMatrix)
    (h : ∀ a, (m.neighbors a).Sorted (· < ·)) : ∀ r ∈ m.adjacency_, r.Sorted (· < ·) := by
  intro r hr
  obtain ⟨i, hi, rfl⟩ := List.getElem_of_mem hr
  have := h i
  unfold AdjacencyMatrix.neighbors at this
  rwa [List.getD_eq_getElem _ _ hi] at this

section ReachableFacts

variable {F : Type} [LinearOrderedField F]

theorem RepInv.of_reachable {s : AdjacencyRansac F} (h : Reachable s) : RepInv s := by
  induction h with
  | empty =>
    refine ⟨List.sorted_nil, ?_, ?_, ?_⟩ <;> intro x hx <;> simp [AdjacencyRansac.empty] at hx
  | addPoints s t q i _ ih =>
    obtain ⟨h1, h2, h3, h4⟩ := ih
    refine ⟨?_, ?_, h3, h4⟩
    · show (s.valid_indices_ ++ [s.query_indices_.length]).Sorted (· < ·)
      refine List.pairwise_append.mpr ⟨h1, List.pairwise_singleton _ _, ?_⟩
      intro a ha b hb
      rw [List.mem_singleton] at hb
      rw [hb]
      exact h2 a ha
    · intro x hx
      change x ∈ s.valid_indices_ ++ [s.query_indices_.length] at hx
      show x < (s.query_indices_ ++ [i]).length
      rw [List.length_append, List.length_singleton]
      rcases List.mem_append.mp hx with h | h
      · have := h2 x h; omega
      · rw [List.mem_singleton] at h; omega
  | fillAdjacency fl keypoints span err s _ ih =>
    obtain ⟨h1, h2, -, -⟩ := ih
    obtain ⟨⟨-, hs1, -⟩, ⟨-, hs2, -⟩⟩ := FillAdjacency_inv fl keypoints span err s
    exact ⟨h1, h2, rows_sorted_of_neighbors _ hs1, rows_sorted_of_neighbors _ hs2⟩
  | invalidateIndices indices s _ ih =>
    obtain ⟨h1, h2, h3, h4⟩ := ih
    exact ⟨set_difference_sorted _ h1, fun x hx => h2 x (mem_of_mem_set_difference hx),
      invalidate_rows_sorted _ _ 0 h3, invalidate_rows_sorted _ _ 0 h4⟩
  | invalidateQueryIndices l p s _ ih =>
    obtain ⟨h1, h2, h3, h4⟩ := ih
    unfold InvalidateQueryIndices
    split_ifs
    · exact ⟨h1, h2, h3, h4⟩
    · exact ⟨set_difference_sorted _ h1, fun x hx => h2 x (mem_of_mem_set_difference hx),
        invalidate_rows_sorted _ _ 0 h3, invalidate_rows_sorted _ _ 0 h4⟩
  | clearAdjacency s _ ih =>
    obtain ⟨h1, h2, -, -⟩ := ih
    refine ⟨h1, h2, ?_, ?_⟩ <;> intro r hr <;>
      simp [clear_adjacency, AdjacencyMatrix.clear] at hr

end ReachableFacts

/-! ## `InvalidateIndices` as a set difference (C13) -/

section SetDifferenceClaim

variable {F : Type} [LinearOrderedField F]

/-- C13. `InvalidateIndices` computes a set difference.  For every reachable
correspondence set and every index list `S` (any order, repeats allowed,
possibly naming indices that are not valid), after `InvalidateIndices(S)` the
valid-index list is the previous one with the members of `S` filtered out, so
an index is valid afterwards exactly when it was valid and is not in `S`; the
list is still strictly increasing; and the number of correspondences, their
observed-point identifiers and their points are unchanged. -/
theorem InvalidateIndices_set_difference (s : AdjacencyRansac F) (S : List Nat)
    (hreach : Reachable s) :
    (InvalidateIndices S s).valid_indices_ = s.valid_indices_.filter (fun x => decide (x ∉ S)) ∧
    (∀ x, x ∈ (InvalidateIndices S s).valid_indices_ ↔ x ∈ s.valid_indices_ ∧ x ∉ S) ∧
    (InvalidateIndices S s).valid_indices_.Sorted (· < ·) ∧
    n_points (InvalidateIndices S s) = n_points s ∧
    (InvalidateIndices S s).query_indices_ = s.query_indices_ ∧
    (InvalidateIndices S s).query_points_ = s.query_points_ ∧
    (InvalidateIndices S s).training_points_ = s.training_points_ := by
  have hinv := RepInv.of_reachable hreach
  refine ⟨?_, ?_, set_difference_sorted _ hinv.1, rfl, rfl, rfl, rfl⟩
  · show set_difference s.valid_indices_ (sort_unique S) = _
    rw [set_difference_eq_filter hinv.1 (sort_unique_sorted_le S)]
    apply List.filter_congr
    intro x _
    simp [mem_sort_unique]
  · intro x
    exact mem_InvalidateIndices_valid S s x hinv.1

/-- Witness for C13: indices 1 and 7 (twice) invalidated in a set of two correspondences. -/
theorem InvalidateIndices_set_difference_witness :
    (InvalidateIndices [7, 1, 7] exampleOrdered).valid_indices_ =
      exampleOrdered.valid_indices_.filter (fun x => decide (x ∉ [7, 1, 7])) :=
  (InvalidateIndices_set_difference exampleOrdered [7, 1, 7]
    (Reachable.addPoints _ _ _ _ (Reachable.addPoints _ _ _ _ Reachable.empty))).1

end SetDifferenceClaim

/-! ## Idempotence of invalidation (C12) -/

section Idempotence

variable {F : Type}

theorem AdjacencyRansac.eq_of_fields {s t : AdjacencyRansac F}
    (h1 : s.physical_adjacency_ = t.physical_adjacency_)
    (h2 : s.sample_adjacency_ = t.sample_adjacency_)
    (h3 : s.query_points_ = t.query_points_) (h4 : s.training_points_ = t.training_points_)
    (h5 : s.query_indices_ = t.query_indices_) (h6 : s.valid_indices_ = t.valid_indices_) :
    s = t := by
  cases s; cases t
  simp only at h1 h2 h3 h4 h5 h6
  subst h1 h2 h3 h4 h5 h6
  rfl

theorem InvalidateIndices_idem (S : List Nat) (s : AdjacencyRansac F) (h : RepInv s) :
    InvalidateIndices S (InvalidateIndices S s) = InvalidateIndices S s := by
  obtain ⟨h1, -, h3, h4⟩ := h
  apply AdjacencyRansac.eq_of_fields
  · show AdjacencyMatrix.mk _ = AdjacencyMatrix.mk _
    congr 1
    exact invalidate_rows_idem _ (sort_unique_sorted_le S) _ 0 h3
  · show AdjacencyMatrix.mk _ = AdjacencyMatrix.mk _
    congr 1
    exact invalidate_rows_idem _ (sort_unique_sorted_le S) _ 0 h4
  · rfl
  · rfl
  · rfl
  · exact set_difference_idem h1 (sort_unique_sorted_le S)

theorem InvalidateIndices_nil (s : AdjacencyRansac F) : InvalidateIndices [] s = s := by
  apply AdjacencyRansac.eq_of_fields
  · show AdjacencyMatrix.mk _ = s.physical_adjacency_
    rw [sort_unique_nil, invalidate_rows_nil]
  · show AdjacencyMatrix.mk _ = s.sample_adjacency_
    rw [sort_unique_nil, invalidate_rows_nil]
  · rfl
  · rfl
  · rfl
  · show set_difference s.valid_indices_ (sort_unique []) = s.valid_indices_
    rw [sort_unique_nil, set_difference_nil_right]

theorem scanQueryIndices_nothing (qi : List Nat) (past_end : Nat) (L : List Nat) :
    ∀ (valid iter acc : List Nat), (∀ x ∈ iter, x ∈ L) →
      (∀ v ∈ valid, qi.getD v 0 ∉ L ∧ qi.getD v 0 ≠ past_end) →
      scanQueryIndices qi past_end valid iter acc = acc := by
  intro valid
  induction valid with
  | nil => intro iter acc _ _; simp [scanQueryIndices]
  | cons w rest ih =>
    intro iter acc hiter hv
    have hrest : ∀ v ∈ rest, qi.getD v 0 ∉ L ∧ qi.getD v 0 ≠ past_end :=
      fun v hv' => hv v (List.mem_cons_of_mem _ hv')
    have hw := hv w (List.mem_cons_self _ _)
    have hdrop : ∀ x ∈ iter.dropWhile (fun y => decide (qi.getD w 0 > y)), x ∈ L :=
      fun x hx => hiter x ((List.dropWhile_sublist _).subset hx)
    unfold scanQueryIndices
    dsimp only
    split_ifs with h1 h2 h3
    · exact ih _ _ hiter hrest
    · exfalso
      cases hd : iter.dropWhile (fun y => decide (qi.getD w 0 > y)) with
      | nil => rw [hd] at h2; exact hw.2 h2
      | cons a t =>
        rw [hd] at h2 hdrop
        simp only [List.headD_cons] at h2
        exact hw.1 (h2 ▸ hdrop a (List.mem_cons_self _ _))
    · rfl
    · exact ih _ _ hdrop hrest

theorem InvalidateQueryIndices_idem (L : List Nat) (pe1 pe2 : Nat) (s : AdjacencyRansac F)
    (hwf : WellFormed s)
    (hpe : ∀ v ∈ s.valid_indices_, s.query_indices_.getD v 0 ≠ pe2) :
    InvalidateQueryIndices L pe2 (InvalidateQueryIndices L pe1 s) =
      InvalidateQueryIndices L pe1 s := by
  by_cases hL : L = []
  · subst hL
    simp [InvalidateQueryIndices]
  · have hscan : scanQueryIndices (InvalidateQueryIndices L pe1 s).query_indices_ pe2
        (InvalidateQueryIndices L pe1 s).valid_indices_ (sort_unique L) [] = [] := by
      apply scanQueryIndices_nothing _ _ L
      · intro x hx; exact mem_sort_unique.mp hx
      · intro v hv
        rw [InvalidateQueryIndices_query_indices]
        exact ⟨InvalidateQueryIndices_removes L pe1 s hwf v hv,
          hpe v (InvalidateQueryIndices_valid_subset L pe1 s v hv)⟩
    have hstep : ∀ (pe : Nat) (t : AdjacencyRansac F), InvalidateQueryIndices L pe t =
        InvalidateIndices
          (scanQueryIndices t.query_indices_ pe t.valid_indices_ (sort_unique L) []) t := by
      intro pe t
      unfold InvalidateQueryIndices
      rw [if_neg hL]
    rw [hstep pe2 (InvalidateQueryIndices L pe1 s), hscan]
    exact InvalidateIndices_nil _

end Idempotence

section IdempotenceClaim

variable {F : Type} [LinearOrderedField F]

/-- C12, as stated, fails for `InvalidateQueryIndices` on a set whose identifiers
are not in non-decreasing order: with identifiers 5 then 3 and the identifier
list `[3, 5]`, the first call leaves index 1 valid and the second call, with
the same list, removes it. -/
theorem InvalidateQueryIndices_twice_counterexample :
    (InvalidateQueryIndices [3, 5] 0 exampleUnordered).valid_indices_ = [1] ∧
    (InvalidateQueryIndices [3, 5] 0
      (InvalidateQueryIndices [3, 5] 0 exampleUnordered)).valid_indices_ = [] := by
  refine ⟨?_, ?_⟩
  · simp [InvalidateQueryIndices, InvalidateIndices, exampleUnordered, AddPoints,
      AdjacencyRansac.empty, sort_unique, unique, scanQueryIndices, set_difference,
      List.dropWhile]
  · simp [InvalidateQueryIndices, InvalidateIndices, exampleUnordered, AddPoints,
      AdjacencyRansac.empty, sort_unique, unique, scanQueryIndices, set_difference,
      List.dropWhile]

/-- C12 (amended). Invalidation is idempotent.  For every reachable
correspondence set and every index list `S`, calling `InvalidateIndices(S)` a
second time leaves the whole set, hence the valid-index set and both adjacency
matrices, exactly as after the first call.  Likewise for
`InvalidateQueryIndices` with the same identifier list on a set whose
identifiers are in non-decreasing index order, as long as the value read past
the end of the identifier list in the second call is not the identifier of a
valid correspondence. -/
theorem invalidation_idempotent (s : AdjacencyRansac F) (hreach : Reachable s) :
    (∀ S : List Nat, InvalidateIndices S (InvalidateIndices S s) = InvalidateIndices S s) ∧
    (∀ (L : List Nat) (pe1 pe2 : Nat), s.query_indices_.Sorted (· ≤ ·) →
      (∀ v ∈ s.valid_indices_, s.query_indices_.getD v 0 ≠ pe2) →
      InvalidateQueryIndices L pe2 (InvalidateQueryIndices L pe1 s) =
        InvalidateQueryIndices L pe1 s) := by
  have hinv := RepInv.of_reachable hreach
  refine ⟨fun S => InvalidateIndices_idem S s hinv, ?_⟩
  intro L pe1 pe2 hq hpe
  exact InvalidateQueryIndices_idem L pe1 pe2 s ⟨hinv.1, hinv.2.1, hq⟩ hpe

/-- Witness for C12 (amended): a set with identifiers 3 and 5, index list `[1, 0, 1]`. -/
theorem invalidation_idempotent_witness :
    InvalidateIndices [1, 0, 1] (InvalidateIndices [1, 0, 1] exampleOrdered) =
      InvalidateIndices [1, 0, 1] exampleOrdered :=
  (invalidation_idempotent exampleOrdered
    (Reachable.addPoints _ _ _ _ (Reachable.addPoints _ _ _ _ Reachable.empty))).1 [1, 0, 1]

end IdempotenceClaim

/-! ## Facts about `merge` and one growth pass -/

theorem mem_merge {x : Nat} : ∀ {a b : List Nat}, x ∈ merge a b ↔ x ∈ a ∨ x ∈ b := by
  intro a b
  induction a, b using merge.induct with
  | case1 b => simp [merge]
  | case2 a as => simp [merge]
  | case3 a as b bs hlt ih =>
    rw [merge, if_pos hlt, List.mem_cons, ih]
    simp only [List.mem_cons]
    tauto
  | case4 a as b bs hlt ih =>
    rw [merge, if_neg hlt, List.mem_cons, ih]
    simp only [List.mem_cons]
    tauto

theorem merge_sorted :
    ∀ {a b : List Nat}, a.Sorted (· < ·) → b.Sorted (· < ·) → (∀ x ∈ a, x ∉ b) →
      (merge a b).Sorted (· < ·) := by
  intro a b
  induction a, b using merge.induct with
  | case1 b => intro _ hb _; simpa [merge] using hb
  | case2 a as => intro ha _ _; simpa [merge] using ha
  | case3 a as b bs hlt ih =>
    intro ha hb hd
    rw [merge, if_pos hlt]
    have ha2 := List.sorted_cons.mp ha
    have hb2 := List.sorted_cons.mp hb
    refine List.sorted_cons.mpr ⟨?_, ih ha hb2.2 (fun x hx hxb => hd x hx (List.mem_cons_of_mem _ hxb))⟩
    intro y hy
    rcases mem_merge.mp hy with h | h
    · rcases List.mem_cons.mp h with h1 | h1
      · omega
      · have := ha2.1 _ h1; omega
    · exact hb2.1 _ h
  | case4 a as b bs hlt ih =>
    intro ha hb hd
    rw [merge, if_neg hlt]
    have ha2 := List.sorted_cons.mp ha
    have hb2 := List.sorted_cons.mp hb
    have hne : a ≠ b := fun h => hd a (List.mem_cons_self _ _) (h ▸ List.mem_cons_self _ _)
    refine List.sorted_cons.mpr ⟨?_,
      ih ha2.2 hb (fun x hx hxb => hd x (List.mem_cons_of_mem _ hx) hxb)⟩
    intro y hy
    rcases mem_merge.mp hy with h | h
    · exact ha2.1 _ h
    · rcases List.mem_cons.mp h with h1 | h1
      · omega
      · have := hb2.1 _ h1; omega

section GrowthFacts

variable {F : Type} [LinearOrderedField F]

theorem growthPass_fields (svd : Matrix3 F → Matrix3 F × Matrix3 F)
    (qp tp : List (Point3 F)) (thresh : F) (c : List F) (inliers pool : List Nat) :
    (growthPass svd qp tp thresh c inliers pool).thresh = thresh ∧
    (growthPass svd qp tp thresh c inliers pool).coefficients =
      optimizeModelCoefficients svd qp tp inliers c ∧
    (growthPass svd qp tp thresh c inliers pool).inliers_before = inliers ∧
    (growthPass svd qp tp thresh c inliers pool).valid_indices_vect_before = pool ∧
    (growthPass svd qp tp thresh c inliers pool).extra_inliers =
      pool.filter (fun index => decide (squaredResidual
        (optimizeModelCoefficients svd qp tp inliers c) (qp.getD index Point3.origin)
        (tp.getD index Point3.origin) < thresh)) ∧
    (growthPass svd qp tp thresh c inliers pool).inliers =
      merge inliers (growthPass svd qp tp thresh c inliers pool).extra_inliers ∧
    (growthPass svd qp tp thresh c inliers pool).valid_indices_vect =
      set_difference pool (growthPass svd qp tp thresh c inliers pool).extra_inliers :=
  ⟨rfl, rfl, rfl, rfl, rfl, rfl, rfl⟩

theorem growthPass_inv (svd : Matrix3 F → Matrix3 F × Matrix3 F)
    (qp tp : List (Point3 F)) (thresh : F) (c : List F) (valid inliers pool : List Nat)
    (h : GrowthInv valid inliers pool) :
    GrowthInv valid (growthPass svd qp tp thresh c inliers pool).inliers
      (growthPass svd qp tp thresh c inliers pool).valid_indices_vect ∧
    (∀ x ∈ inliers, x ∈ (growthPass svd qp tp thresh c inliers pool).inliers) ∧
    (inliers.Sorted (· < ·) →
      (growthPass svd qp tp thresh c inliers pool).inliers.Sorted (· < ·)) := by
  obtain ⟨h2, h3, h4⟩ := h
  obtain ⟨-, -, -, -, he, hi, hv⟩ := growthPass_fields svd qp tp thresh c inliers pool
  generalize (growthPass svd qp tp thresh c inliers pool).extra_inliers = extra at he hi hv
  generalize (growthPass svd qp tp thresh c inliers pool).inliers = inl at hi
  generalize (growthPass svd qp tp thresh c inliers pool).valid_indices_vect = pool' at hv
  have hesub : List.Sublist extra pool := by rw [he]; exact List.filter_sublist _
  have hes : extra.Sorted (· < ·) := List.Pairwise.sublist hesub h2
  have hes' : extra.Sorted (· ≤ ·) := List.Pairwise.imp (fun h => Nat.le_of_lt h) hes
  have hmem : ∀ x, x ∈ pool' ↔ x ∈ pool ∧ x ∉ extra := by
    intro x; rw [hv]; exact mem_set_difference_iff h2 hes'
  refine ⟨⟨?_, ?_, ?_⟩, ?_, ?_⟩
  · rw [hv]; exact set_difference_sorted _ h2
  · intro x hx hx'
    rw [hi] at hx
    have hp := (hmem x).mp hx'
    rcases mem_merge.mp hx with h | h
    · exact h3 x h hp.1
    · exact hp.2 h
  · intro x
    rw [hi, mem_merge, hmem, ← h4]
    constructor
    · rintro ((h | h) | h)
      · exact Or.inl h
      · exact Or.inr (hesub.subset h)
      · exact Or.inr h.1
    · rintro (h | h)
      · exact Or.inl (Or.inl h)
      · by_cases hx : x ∈ extra
        · exact Or.inl (Or.inr hx)
        · exact Or.inr ⟨h, hx⟩
  · intro x hx
    rw [hi]
    exact mem_merge.mpr (Or.inl hx)
  · intro h1
    rw [hi]
    exact merge_sorted h1 hes (fun x hx hxe => h3 x hx (hesub.subset hxe))

end GrowthFacts

/-! ## The growth loop of `Ransac` -/

section GrowthLoopFacts

variable {F : Type} [LinearOrderedField F]

theorem growthPass_pool (svd : Matrix3 F → Matrix3 F × Matrix3 F)
    (qp tp : List (Point3 F)) (thresh : F) (c : List F) (inliers pool : List Nat)
    (h2 : pool.Sorted (· < ·)) :
    (growthPass svd qp tp thresh c inliers pool).valid_indices_vect.Sorted (· < ·) ∧
    ((growthPass svd qp tp thresh c inliers pool).extra_inliers ≠ [] →
      (growthPass svd qp tp thresh c inliers pool).valid_indices_vect.length < pool.length) ∧
    (growthPass svd qp tp thresh c inliers pool).valid_indices_vect.length ≤ pool.length := by
  obtain ⟨-, -, -, -, he, -, hv⟩ := growthPass_fields svd qp tp thresh c inliers pool
  generalize (growthPass svd qp tp thresh c inliers pool).extra_inliers = extra at he hv
  generalize (growthPass svd qp tp thresh c inliers pool).valid_indices_vect = pool' at hv
  have hesub : List.Sublist extra pool := by rw [he]; exact List.filter_sublist _
  have hes : extra.Sorted (· < ·) := List.Pairwise.sublist hesub h2
  have hes' : extra.Sorted (· ≤ ·) := List.Pairwise.imp (fun h => Nat.le_of_lt h) hes
  refine ⟨?_, ?_, ?_⟩
  · rw [hv]; exact set_difference_sorted _ h2
  · intro hne
    obtain ⟨x, hx⟩ := List.exists_mem_of_ne_nil _ hne
    rw [hv, set_difference_eq_filter h2 hes']
    exact List.length_filter_lt_length_iff_exists.mpr ⟨x, hesub.subset hx, by simpa using hx⟩
  · rw [hv]
    exact (set_difference_sublist _ _).length_le

theorem growthLoop_final (svd : Matrix3 F → Matrix3 F × Matrix3 F)
    (qp tp : List (Point3 F)) (fuel : Nat) (thresh : F) (c : List F) (inliers pool : List Nat) :
    growthLoop svd qp tp (fuel + 1) true thresh c inliers pool =
      some ⟨(growthPass svd qp tp thresh c inliers pool).coefficients,
        (growthPass svd qp tp thresh c inliers pool).inliers,
        [growthPass svd qp tp thresh c inliers pool]⟩ := by
  rw [growthLoop]
  rfl

theorem growthLoop_step (svd : Matrix3 F → Matrix3 F × Matrix3 F)
    (qp tp : List (Point3 F)) (fuel : Nat) (thresh : F) (c : List F) (inliers pool : List Nat) :
    growthLoop svd qp tp (fuel + 1) false thresh c inliers pool =
      match growthLoop svd qp tp fuel
          (if (growthPass svd qp tp thresh c inliers pool).extra_inliers = [] then true
            else false)
          (if (growthPass svd qp tp thresh c inliers pool).extra_inliers = [] then thresh * 4
            else thresh)
          (growthPass svd qp tp thresh c inliers pool).coefficients
          (growthPass svd qp tp thresh c inliers pool).inliers
          (growthPass svd qp tp thresh c inliers pool).valid_indices_vect with
      | none => none
      | some r => some ⟨r.coefficients, r.inliers,
          growthPass svd qp tp thresh c inliers pool :: r.passes⟩ := by
  rw [growthLoop]
  rfl

/-- Every result of the growth loop started with `do_final = false` consists of
passes that admitted something, one pass that admitted nothing, and one last
pass with the threshold multiplied by 4, whose inliers are the ones returned. -/
theorem growthLoop_shape (svd : Matrix3 F → Matrix3 F × Matrix3 F)
    (qp tp : List (Point3 F)) (thresh : F) :
    ∀ (fuel : Nat) (c : List F) (inliers pool : List Nat) (r : RansacResult F),
      growthLoop svd qp tp fuel false thresh c inliers pool = some r →
      ∃ (adm : List (GrowthPass F)) (e f : GrowthPass F),
        r.passes = adm ++ [e, f] ∧
        (∀ p ∈ adm, p.extra_inliers ≠ [] ∧ p.thresh = thresh) ∧
        e.extra_inliers = [] ∧ e.thresh = thresh ∧ f.thresh = thresh * 4 ∧
        r.inliers = f.inliers ∧ r.coefficients = f.coefficients := by
  intro fuel
  induction fuel with
  | zero => intro c inliers pool r h; simp [growthLoop] at h
  | succ fuel ih =>
    intro c inliers pool r h
    rw [growthLoop_step] at h
    by_cases he : (growthPass svd qp tp thresh c inliers pool).extra_inliers = []
    · simp only [he, if_true] at h
      cases fuel with
      | zero => simp [growthLoop] at h
      | succ fuel =>
        rw [growthLoop_final] at h
        simp only [Option.some.injEq] at h
        refine ⟨[], growthPass svd qp tp thresh c inliers pool,
          growthPass svd qp tp (thresh * 4)
            (growthPass svd qp tp thresh c inliers pool).coefficients
            (growthPass svd qp tp thresh c inliers pool).inliers
            (growthPass svd qp tp thresh c inliers pool).valid_indices_vect,
          ?_, ?_, he, rfl, rfl, ?_, ?_⟩
        · rw [← h]; rfl
        · intro p hp; simp at hp
        · rw [← h]
        · rw [← h]
    · simp only [he, if_false] at h
      cases hrec : growthLoop svd qp tp fuel false thresh
          (growthPass svd qp tp thresh c inliers pool).coefficients
          (growthPass svd qp tp thresh c inliers pool).inliers
          (growthPass svd qp tp thresh c inliers pool).valid_indices_vect with
      | none => rw [hrec] at h; simp at h
      | some r' =>
        rw [hrec] at h
        simp only [Option.some.injEq] at h
        obtain ⟨adm, e, f, h1, h2, h3, h4, h5, h6, h7⟩ := ih _ _ _ r' hrec
        refine ⟨growthPass svd qp tp thresh c inliers pool :: adm, e, f, ?_, ?_, h3, h4, h5,
          ?_, ?_⟩
        · rw [← h]; simp [h1]
        · intro p hp
          rcases List.mem_cons.mp hp with hp1 | hp1
          · rw [hp1]; exact ⟨he, rfl⟩
          · exact h2 p hp1
        · rw [← h]; exact h6
        · rw [← h]; exact h7

/-- With a strictly increasing pool, `pool.length + 2` passes suffice. -/
theorem growthLoop_total (svd : Matrix3 F → Matrix3 F × Matrix3 F)
    (qp tp : List (Point3 F)) :
    ∀ (fuel : Nat) (do_final : Bool) (thresh : F) (c : List F) (inliers pool : List Nat),
      pool.Sorted (· < ·) → pool.length + 2 ≤ fuel →
      ∃ r, growthLoop svd qp tp fuel do_final thresh c inliers pool = some r ∧
        r.passes.length ≤ pool.length + 2 := by
  intro fuel
  induction fuel with
  | zero => intro _ _ _ _ pool _ h; omega
  | succ fuel ih =>
    intro do_final thresh c inliers pool hs hfuel
    cases do_final with
    | true =>
      refine ⟨_, growthLoop_final svd qp tp fuel thresh c inliers pool, ?_⟩
      simp
    | false =>
      obtain ⟨hs', hlt, hle⟩ := growthPass_pool svd qp tp thresh c inliers pool hs
      rw [growthLoop_step]
      by_cases he : (growthPass svd qp tp thresh c inliers pool).extra_inliers = []
      · simp only [he, if_true]
        cases fuel with
        | zero => omega
        | succ fuel =>
          rw [growthLoop_final]
          exact ⟨_, rfl, by simp⟩
      · simp only [he, if_false]
        obtain ⟨r', hr', hlen⟩ := ih false thresh
          (growthPass svd qp tp thresh c inliers pool).coefficients
          (growthPass svd qp tp thresh c inliers pool).inliers
          (growthPass svd qp tp thresh c inliers pool).valid_indices_vect hs'
          (by have := hlt he; omega)
        rw [hr']
        refine ⟨_, rfl, ?_⟩
        have := hlt he
        simp only [List.length_cons]
        omega

/-- Every pass recorded by the growth loop is a `growthPass` of its own fields. -/
theorem growthLoop_passes (svd : Matrix3 F → Matrix3 F × Matrix3 F)
    (qp tp : List (Point3 F)) :
    ∀ (fuel : Nat) (do_final : Bool) (thresh : F) (c : List F) (inliers pool : List Nat)
      (r : RansacResult F),
      growthLoop svd qp tp fuel do_final thresh c inliers pool = some r →
      ∀ p ∈ r.passes, ∃ c', p = growthPass svd qp tp p.thresh c' p.inliers_before
        p.valid_indices_vect_before := by
  intro fuel
  induction fuel with
  | zero => intro _ _ _ _ _ r h; simp [growthLoop] at h
  | succ fuel ih =>
    intro do_final thresh c inliers pool r h p hp
    cases do_final with
    | true =>
      rw [growthLoop_final] at h
      simp only [Option.some.injEq] at h
      rw [← h] at hp
      simp only [List.mem_singleton] at hp
      exact ⟨c, by rw [hp]; rfl⟩
    | false =>
      rw [growthLoop_step] at h
      cases hrec : growthLoop svd qp tp fuel
          (if (growthPass svd qp tp thresh c inliers pool).extra_inliers = [] then true
            else false)
          (if (growthPass svd qp tp thresh c inliers pool).extra_inliers = [] then thresh * 4
            else thresh)
          (growthPass svd qp tp thresh c inliers pool).coefficients
          (growthPass svd qp tp thresh c inliers pool).inliers
          (growthPass svd qp tp thresh c inliers pool).valid_indices_vect with
      | none => rw [hrec] at h; simp at h
      | some r' =>
        rw [hrec] at h
        simp only [Option.some.injEq] at h
        rw [← h] at hp
        rcases List.mem_cons.mp hp with hp1 | hp1
        · exact ⟨c, by rw [hp1]; rfl⟩
        · exact ih _ _ _ _ _ r' hrec p hp1

/-- The loop invariant holds before and after every recorded pass, no pass
drops an inlier, the inliers returned include the inliers the loop started
with, and they are strictly increasing when those were. -/
theorem growthLoop_inv (svd : Matrix3 F → Matrix3 F × Matrix3 F)
    (qp tp : List (Point3 F)) (valid : List Nat) :
    ∀ (fuel : Nat) (do_final : Bool) (thresh : F) (c : List F) (inliers pool : List Nat)
      (r : RansacResult F), GrowthInv valid inliers pool →
      growthLoop svd qp tp fuel do_final thresh c inliers pool = some r →
      (∀ p ∈ r.passes,
        GrowthInv valid p.inliers_before p.valid_indices_vect_before ∧
        GrowthInv valid p.inliers p.valid_indices_vect ∧
        (∀ x ∈ p.inliers_before, x ∈ p.inliers)) ∧
      (∀ x ∈ inliers, x ∈ r.inliers) ∧
      (∃ pool', GrowthInv valid r.inliers pool') ∧
      (inliers.Sorted (· < ·) → r.inliers.Sorted (· < ·)) := by
  intro fuel
  induction fuel with
  | zero => intro _ _ _ _ _ r _ h; simp [growthLoop] at h
  | succ fuel ih =>
    intro do_final thresh c inliers pool r hinv h
    obtain ⟨hinv', hkeep, hsort⟩ := growthPass_inv svd qp tp thresh c valid inliers pool hinv
    cases do_final with
    | true =>
      rw [growthLoop_final] at h
      simp only [Option.some.injEq] at h
      rw [← h]
      refine ⟨?_, hkeep, ⟨_, hinv'⟩, hsort⟩
      intro p hp
      simp only [List.mem_singleton] at hp
      rw [hp]
      exact ⟨hinv, hinv', hkeep⟩
    | false =>
      rw [growthLoop_step] at h
      cases hrec : growthLoop svd qp tp fuel
          (if (growthPass svd qp tp thresh c inliers pool).extra_inliers = [] then true
            else false)
          (if (growthPass svd qp tp thresh c inliers pool).extra_inliers = [] then thresh * 4
            else thresh)
          (growthPass svd qp tp thresh c inliers pool).coefficients
          (growthPass svd qp tp thresh c inliers pool).inliers
          (growthPass svd qp tp thresh c inliers pool).valid_indices_vect with
      | none => rw [hrec] at h; simp at h
      | some r' =>
        rw [hrec] at h
        simp only [Option.some.injEq] at h
        obtain ⟨ih1, ih2, ih3, ih4⟩ := ih _ _ _ _ _ r' hinv' hrec
        rw [← h]
        refine ⟨?_, fun x hx => ih2 x (hkeep x hx), ih3, fun hs => ih4 (hsort hs)⟩
        intro p hp
        rcases List.mem_cons.mp hp with hp1 | hp1
        · rw [hp1]; exact ⟨hinv, hinv', hkeep⟩
        · exact ih1 p hp1

/-- With a strictly increasing pool, every recorded pass starts from a strictly
increasing pool and, when it admits something, leaves a shorter one. -/
theorem growthLoop_shrinks (svd : Matrix3 F → Matrix3 F × Matrix3 F)
    (qp tp : List (Point3 F)) :
    ∀ (fuel : Nat) (do_final : Bool) (thresh : F) (c : List F) (inliers pool : List Nat)
      (r : RansacResult F), pool.Sorted (· < ·) →
      growthLoop svd qp tp fuel do_final thresh c inliers pool = some r →
      ∀ p ∈ r.passes, p.extra_inliers ≠ [] →
        p.valid_indices_vect.length < p.valid_indices_vect_before.length := by
  intro fuel
  induction fuel with
  | zero => intro _ _ _ _ _ r _ h; simp [growthLoop] at h
  | succ fuel ih =>
    intro do_final thresh c inliers pool r hs h
    obtain ⟨hs', hlt, -⟩ := growthPass_pool svd qp tp thresh c inliers pool hs
    cases do_final with
    | true =>
      rw [growthLoop_final] at h
      simp only [Option.some.injEq] at h
      rw [← h]
      intro p hp
      simp only [List.mem_singleton] at hp
      rw [hp]
      exact hlt
    | false =>
      rw [growthLoop_step] at h
      cases hrec : growthLoop svd qp tp fuel
          (if (growthPass svd qp tp thresh c inliers pool).extra_inliers = [] then true
            else false)
          (if (growthPass svd qp tp thresh c inliers pool).extra_inliers = [] then thresh * 4
            else thresh)
          (growthPass svd qp tp thresh c inliers pool).coefficients
          (growthPass svd qp tp thresh c inliers pool).inliers
          (growthPass svd qp tp thresh c inliers pool).valid_indices_vect with
      | none => rw [hrec] at h; simp at h
      | some r' =>
        rw [hrec] at h
        simp only [Option.some.injEq] at h
        rw [← h]
        intro p hp
        rcases List.mem_cons.mp hp with hp1 | hp1
        · rw [hp1]; exact hlt
        · exact ih _ _ _ _ _ r' hs' hrec p hp1

end GrowthLoopFacts

/-! ## `Ransac`: stopping rule, sortedness, growth and termination (C14, C16, C17, C18) -/

section RansacClaims

variable {F : Type} [LinearOrderedField F]

theorem Ransac_some (svd : Matrix3 F → Matrix3 F × Matrix3 F) (mc : List F) (ci : List Nat)
    (sensor_error : F) (fuel : Nat) (s : AdjacencyRansac F) :
    Ransac svd (some (mc, ci)) sensor_error fuel s =
      growthLoop svd s.query_points_ s.training_points_ fuel false
        (sensor_error * sensor_error) mc (ci.insertionSort (· ≤ ·))
        (set_difference s.valid_indices_ (ci.insertionSort (· ≤ ·))) := rfl

theorem growthInv_start (valid ci : List Nat) (hv : valid.Sorted (· < ·))
    (hsub : ∀ x ∈ ci, x ∈ valid) :
    GrowthInv valid (ci.insertionSort (· ≤ ·))
      (set_difference valid (ci.insertionSort (· ≤ ·))) := by
  have hs : (ci.insertionSort (· ≤ ·)).Sorted (· ≤ ·) := List.sorted_insertionSort _ ci
  have hmem : ∀ x, x ∈ ci.insertionSort (· ≤ ·) ↔ x ∈ ci :=
    fun x => (List.perm_insertionSort _ ci).mem_iff
  refine ⟨set_difference_sorted _ hv, ?_, ?_⟩
  · intro x hx hx'
    exact ((mem_set_difference_iff hv hs).mp hx').2 hx
  · intro x
    rw [mem_set_difference_iff hv hs, hmem]
    constructor
    · rintro (h | h)
      · exact hsub x h
      · exact h.1
    · intro h
      by_cases hx : x ∈ ci
      · exact Or.inl hx
      · exact Or.inr ⟨h, hx⟩

/-- C14. Growth stopping rule.  Whenever the consensus stage succeeds and `Ransac`
returns, its growth passes are: some passes at the base threshold
`sensor_error * sensor_error` that each admitted something, then one pass at
the base threshold that admitted nothing, then exactly one pass with the
threshold multiplied by 4, after which it returns the inliers of that last pass
(whether or not it admitted anything); so the number of passes is the number of
admitting passes plus 2.  On a reachable correspondence set `Ransac` does
return, given as many passes as remaining correspondences plus 2. -/
theorem Ransac_stopping_rule (svd : Matrix3 F → Matrix3 F × Matrix3 F) (mc : List F)
    (ci : List Nat) (sensor_error : F) (fuel : Nat) (s : AdjacencyRansac F) :
    (∀ r, Ransac svd (some (mc, ci)) sensor_error fuel s = some r →
      ∃ (adm : List (GrowthPass F)) (e f : GrowthPass F),
        r.passes = adm ++ [e, f] ∧
        (∀ p ∈ adm, p.extra_inliers ≠ [] ∧ p.thresh = sensor_error * sensor_error) ∧
        e.extra_inliers = [] ∧ e.thresh = sensor_error * sensor_error ∧
        f.thresh = sensor_error * sensor_error * 4 ∧
        r.inliers = f.inliers ∧ r.passes.length = adm.length + 2) ∧
    (Reachable s →
      (set_difference s.valid_indices_ (ci.insertionSort (· ≤ ·))).length + 2 ≤ fuel →
      ∃ r, Ransac svd (some (mc, ci)) sensor_error fuel s = some r) := by
  refine ⟨?_, ?_⟩
  · intro r hr
    rw [Ransac_some] at hr
    obtain ⟨adm, e, f, h1, h2, h3, h4, h5, h6, -⟩ :=
      growthLoop_shape svd _ _ _ fuel _ _ _ r hr
    exact ⟨adm, e, f, h1, h2, h3, h4, h5, h6, by rw [h1]; simp⟩
  · intro hreach hfuel
    have hinv := RepInv.of_reachable hreach
    rw [Ransac_some]
    obtain ⟨r, hr, -⟩ := growthLoop_total svd s.query_points_ s.training_points_ fuel false
      (sensor_error * sensor_error) mc (ci.insertionSort (· ≤ ·)) _
      (set_difference_sorted _ hinv.1) hfuel
    exact ⟨r, hr⟩

/-- C16. `Ransac` returns a sorted inlier list.  For every reachable
correspondence set, whenever the consensus stage reports distinct inliers
taken from the valid-index set (or fails), the inlier list that `Ransac` returns
is strictly increasing and every entry is a valid index of the set; and `Ransac`
does return, given as many passes as valid indices plus 2. -/
theorem Ransac_inliers_sorted (svd : Matrix3 F → Matrix3 F × Matrix3 F)
    (computeModel : Option (List F × List Nat)) (sensor_error : F) (fuel : Nat)
    (s : AdjacencyRansac F) (hreach : Reachable s)
    (hci : ∀ mc ci, computeModel = some (mc, ci) →
      ci.Nodup ∧ ∀ x ∈ ci, x ∈ s.valid_indices_) :
    (∀ r, Ransac svd computeModel sensor_error fuel s = some r →
      r.inliers.Sorted (· < ·) ∧ ∀ x ∈ r.inliers, x ∈ s.valid_indices_) ∧
    (s.valid_indices_.length + 2 ≤ fuel →
      ∃ r, Ransac svd computeModel sensor_error fuel s = some r) := by
  have hinv := RepInv.of_reachable hreach
  cases hcm : computeModel with
  | none =>
    refine ⟨?_, fun _ => ⟨_, rfl⟩⟩
    intro r hr
    simp only [Ransac, Option.some.injEq] at hr
    rw [← hr]
    exact ⟨List.sorted_nil, fun x hx => by simp at hx⟩
  | some m =>
    obtain ⟨mc, ci⟩ := m
    obtain ⟨hnd, hsub⟩ := hci mc ci hcm
    refine ⟨?_, ?_⟩
    · intro r hr
      rw [Ransac_some] at hr
      obtain ⟨-, -, ⟨pool', hp⟩, hsorted⟩ := growthLoop_inv svd _ _ s.valid_indices_ fuel
        false _ _ _ _ r (growthInv_start s.valid_indices_ ci hinv.1 hsub) hr
      refine ⟨hsorted ?_, fun x hx => (hp.2.2 x).mp (Or.inl hx)⟩
      exact List.Sorted.lt_of_le (List.sorted_insertionSort _ ci)
        ((List.perm_insertionSort _ ci).nodup_iff.mpr hnd)
    · intro hfuel
      rw [Ransac_some]
      obtain ⟨r, hr, -⟩ := growthLoop_total svd s.query_points_ s.training_points_ fuel false
        (sensor_error * sensor_error) mc (ci.insertionSort (· ≤ ·)) _
        (set_difference_sorted _ hinv.1)
        (le_trans (Nat.add_le_add_right (set_difference_sublist s.valid_indices_
          (ci.insertionSort (· ≤ ·))).length_le 2) hfuel)
      exact ⟨r, hr⟩

/-- C17. Growth never removes an inlier.  For every reachable correspondence set
and consensus inliers taken from its valid-index set, in every growth pass of a
returning `Ransac` call: the inlier list after the pass contains every index it
contained before, the inlier list and the remaining pool are disjoint, and
their union is the valid-index set of the call; so every inlier reported by the
consensus stage is in the list returned. -/
theorem Ransac_growth_keeps_inliers (svd : Matrix3 F → Matrix3 F × Matrix3 F)
    (mc : List F) (ci : List Nat) (sensor_error : F) (fuel : Nat)
    (s : AdjacencyRansac F) (hreach : Reachable s)
    (hsub : ∀ x ∈ ci, x ∈ s.valid_indices_) :
    (∀ r, Ransac svd (some (mc, ci)) sensor_error fuel s = some r →
      (∀ p ∈ r.passes,
        (∀ x ∈ p.inliers_before, x ∈ p.inliers) ∧
        (∀ x ∈ p.inliers, x ∉ p.valid_indices_vect) ∧
        (∀ x, x ∈ p.inliers ∨ x ∈ p.valid_indices_vect ↔ x ∈ s.valid_indices_)) ∧
      (∀ x ∈ ci, x ∈ r.inliers)) ∧
    (s.valid_indices_.length + 2 ≤ fuel →
      ∃ r, Ransac svd (some (mc, ci)) sensor_error fuel s = some r) := by
  have hinv := RepInv.of_reachable hreach
  refine ⟨?_, ?_⟩
  · intro r hr
    rw [Ransac_some] at hr
    obtain ⟨hpasses, hkeep, -, -⟩ := growthLoop_inv svd _ _ s.valid_indices_ fuel
      false _ _ _ _ r (growthInv_start s.valid_indices_ ci hinv.1 hsub) hr
    refine ⟨?_, ?_⟩
    · intro p hp
      obtain ⟨-, h2, h3⟩ := hpasses p hp
      exact ⟨h3, h2.2.1, h2.2.2⟩
    · intro x hx
      exact hkeep x ((List.perm_insertionSort _ ci).mem_iff.mpr hx)
  · intro hfuel
    rw [Ransac_some]
    obtain ⟨r, hr, -⟩ := growthLoop_total svd s.query_points_ s.training_points_ fuel false
      (sensor_error * sensor_error) mc (ci.insertionSort (· ≤ ·)) _
      (set_difference_sorted _ hinv.1)
      (le_trans (Nat.add_le_add_right (set_difference_sublist s.valid_indices_
          (ci.insertionSort (· ≤ ·))).length_le 2) hfuel)
    exact ⟨r, hr⟩

/-- C18. The growth loop terminates.  For every reachable correspondence set and
every outcome of the consensus stage, with `r` the number of valid
correspondences that are not consensus inliers when growth starts: given at
least `r + 2` passes, `Ransac` returns after at most `r + 2` growth passes, and
every pass that admitted something left a strictly shorter remaining pool. -/
theorem Ransac_growth_terminates (svd : Matrix3 F → Matrix3 F × Matrix3 F)
    (mc : List F) (ci : List Nat) (sensor_error : F) (fuel : Nat)
    (s : AdjacencyRansac F) (hreach : Reachable s)
    (hfuel : (set_difference s.valid_indices_ (ci.insertionSort (· ≤ ·))).length + 2 ≤ fuel) :
    ∃ r, Ransac svd (some (mc, ci)) sensor_error fuel s = some r ∧
      r.passes.length ≤
        (set_difference s.valid_indices_ (ci.insertionSort (· ≤ ·))).length + 2 ∧
      ∀ p ∈ r.passes, p.extra_inliers ≠ [] →
        p.valid_indices_vect.length < p.valid_indices_vect_before.length := by
  have hinv := RepInv.of_reachable hreach
  rw [Ransac_some]
  obtain ⟨r, hr, hlen⟩ := growthLoop_total svd s.query_points_ s.training_points_ fuel false
    (sensor_error * sensor_error) mc (ci.insertionSort (· ≤ ·)) _
    (set_difference_sorted _ hinv.1) hfuel
  exact ⟨r, hr, hlen, growthLoop_shrinks svd _ _ fuel false _ _ _ _ r
    (set_difference_sorted _ hinv.1) hr⟩

end RansacClaims

/-! ## Evaluation of `Ransac` on `exampleGrowthSet` -/

theorem exampleGrowthSet_fit (c : List ℚ) :
    optimizeModelCoefficients exampleSVD exampleGrowthSet.query_points_
      exampleGrowthSet.training_points_ [0] c = [1, 0, 0, 0, 0, 1, 0, 0, 0, 0, 1, 0, 0, 0, 0, 1] := by
  have h : ¬ ((1 : ℚ) < 0) := by norm_num
  simp [optimizeModelCoefficients, estimateRigidTransformationSVD, exampleSVD, rotationFromSVD,
    compute3DCentroid, exampleGrowthSet, AddPoints, AdjacencyRansac.empty, Point3.toVec,
    Point3.origin, Matrix.mulVec, Matrix.dotProduct, Fin.sum_univ_three, h, Matrix.one_apply]

theorem exampleGrowthSet_residual :
    squaredResidual [1, 0, 0, 0, 0, 1, 0, 0, 0, 0, 1, 0, 0, 0, 0, 1]
      (exampleGrowthSet.query_points_.getD 1 Point3.origin)
      (exampleGrowthSet.training_points_.getD 1 Point3.origin) = 9 := by
  simp [squaredResidual, transformRow, exampleGrowthSet, AddPoints, AdjacencyRansac.empty,
    Point3.origin]
  norm_num

theorem exampleGrowthSet_pass (thresh : ℚ) (c : List ℚ) (h : thresh ≤ 9) :
    growthPass exampleSVD exampleGrowthSet.query_points_ exampleGrowthSet.training_points_
      thresh c [0] [1] =
    ⟨thresh, [1, 0, 0, 0, 0, 1, 0, 0, 0, 0, 1, 0, 0, 0, 0, 1], [0], [1], [], [0], [1]⟩ := by
  have h9 : ¬ ((9 : ℚ) < thresh) := not_lt.mpr h
  have hf : [1].filter (fun index => decide (squaredResidual
      [1, 0, 0, 0, 0, 1, 0, 0, 0, 0, 1, 0, 0, 0, 0, 1]
      (exampleGrowthSet.query_points_.getD index Point3.origin)
      (exampleGrowthSet.training_points_.getD index Point3.origin) < thresh)) = [] := by
    rw [List.filter_cons, exampleGrowthSet_residual]
    simp [h9]
  simp only [growthPass, exampleGrowthSet_fit, hf]
  simp [merge, set_difference]

theorem exampleGrowthSet_Ransac :
    Ransac exampleSVD (some ([], [0])) 1 4 exampleGrowthSet =
      some ⟨[1, 0, 0, 0, 0, 1, 0, 0, 0, 0, 1, 0, 0, 0, 0, 1], [0],
        [⟨1, [1, 0, 0, 0, 0, 1, 0, 0, 0, 0, 1, 0, 0, 0, 0, 1], [0], [1], [], [0], [1]⟩,
         ⟨4, [1, 0, 0, 0, 0, 1, 0, 0, 0, 0, 1, 0, 0, 0, 0, 1], [0], [1], [], [0], [1]⟩]⟩ := by
  have hv : set_difference exampleGrowthSet.valid_indices_ [0] = [1] := by
    simp [exampleGrowthSet, AddPoints, AdjacencyRansac.empty, set_difference]
  simp only [Ransac, List.insertionSort, List.orderedInsert, hv, growthLoop, mul_one]
  rw [exampleGrowthSet_pass 1 [] (by norm_num)]
  simp only [if_true]
  rw [exampleGrowthSet_pass (1 * 4) _ (by norm_num)]
  simp

theorem exampleGrowthSet_reachable : Reachable exampleGrowthSet :=
  Reachable.addPoints _ _ _ _ (Reachable.addPoints _ _ _ _ Reachable.empty)

theorem exampleGrowthSet_pool :
    set_difference exampleGrowthSet.valid_indices_ ([0].insertionSort (· ≤ ·)) = [1] := by
  simp [exampleGrowthSet, AddPoints, AdjacencyRansac.empty, set_difference]

theorem exampleGrowthSet_consensus (computeModel : Option (List ℚ × List Nat))
    (h : computeModel = some ([], [0])) :
    ∀ mc ci, computeModel = some (mc, ci) → ci.Nodup ∧ ∀ x ∈ ci, x ∈ exampleGrowthSet.valid_indices_ := by
  intro mc ci hc
  rw [h] at hc
  simp only [Option.some.injEq, Prod.mk.injEq] at hc
  rw [← hc.2]
  simp [exampleGrowthSet, AddPoints, AdjacencyRansac.empty]

/-! ## Witnesses of the `Ransac` claims and the admission thresholds (C14 to C18) -/

theorem Ransac_stopping_rule_witness :
    ∃ r, Ransac exampleSVD (some ([], [0])) 1 4 exampleGrowthSet = some r ∧
      ∃ adm e f, r.passes = adm ++ [e, f] ∧ e.extra_inliers = [] ∧ f.thresh = 1 * 1 * 4 := by
  obtain ⟨h1, h2⟩ := Ransac_stopping_rule exampleSVD [] [0] 1 4 exampleGrowthSet
  obtain ⟨r, hr⟩ := h2 exampleGrowthSet_reachable (by rw [exampleGrowthSet_pool]; decide)
  obtain ⟨adm, e, f, hp, -, he, -, hf, -, -⟩ := h1 r hr
  exact ⟨r, hr, adm, e, f, hp, he, hf⟩

theorem Ransac_inliers_sorted_witness :
    ∃ r, Ransac exampleSVD (some ([], [0])) 1 4 exampleGrowthSet = some r ∧
      r.inliers.Sorted (· < ·) ∧ ∀ x ∈ r.inliers, x ∈ exampleGrowthSet.valid_indices_ := by
  obtain ⟨h1, h2⟩ := Ransac_inliers_sorted exampleSVD (some ([], [0])) 1 4 exampleGrowthSet
    exampleGrowthSet_reachable (exampleGrowthSet_consensus _ rfl)
  obtain ⟨r, hr⟩ := h2 (by simp [exampleGrowthSet, AddPoints, AdjacencyRansac.empty])
  exact ⟨r, hr, h1 r hr⟩

theorem Ransac_growth_keeps_inliers_witness :
    ∃ r, Ransac exampleSVD (some ([], [0])) 1 4 exampleGrowthSet = some r ∧ 0 ∈ r.inliers := by
  obtain ⟨h1, h2⟩ := Ransac_growth_keeps_inliers exampleSVD [] [0] 1 4 exampleGrowthSet
    exampleGrowthSet_reachable ((exampleGrowthSet_consensus _ rfl) [] [0] rfl).2
  obtain ⟨r, hr⟩ := h2 (by simp [exampleGrowthSet, AddPoints, AdjacencyRansac.empty])
  exact ⟨r, hr, (h1 r hr).2 0 (by simp)⟩

theorem Ransac_growth_terminates_witness :
    ∃ r, Ransac exampleSVD (some ([], [0])) 1 4 exampleGrowthSet = some r ∧
      r.passes.length ≤ 1 + 2 := by
  obtain ⟨r, hr, hlen, -⟩ := Ransac_growth_terminates exampleSVD [] [0] 1 4 exampleGrowthSet
    exampleGrowthSet_reachable (by rw [exampleGrowthSet_pool]; decide)
  rw [exampleGrowthSet_pool] at hlen
  exact ⟨r, hr, hlen⟩

/-! ## Admission thresholds of the growth passes (C15) -/

section RansacThreshold

variable {F : Type} [LinearOrderedField F]

theorem growthPass_admits (svd : Matrix3 F → Matrix3 F × Matrix3 F)
    (qp tp : List (Point3 F)) (p : GrowthPass F) (c : List F)
    (hp : p = growthPass svd qp tp p.thresh c p.inliers_before p.valid_indices_vect_before) :
    ∀ i ∈ p.valid_indices_vect_before,
      (i ∈ p.extra_inliers ↔
        squaredResidual p.coefficients (qp.getD i Point3.origin)
          (tp.getD i Point3.origin) < p.thresh) := by
  obtain ⟨-, h2, -, -, h5, -, -⟩ := growthPass_fields svd qp tp p.thresh c
    p.inliers_before p.valid_indices_vect_before
  rw [← hp] at h2 h5
  intro i hi
  rw [h5, List.mem_filter, ← h2]
  simp [hi]

theorem lt_four_mul_self_iff (d e : F) (hd : 0 ≤ d) (he : 0 ≤ e) :
    d * d < e * e * 4 ↔ d < 2 * e := by
  have h : e * e * 4 = (2 * e) * (2 * e) := by ring
  rw [h]
  exact (mul_self_lt_mul_self_iff hd (by positivity)).symm

/-- C15 (amended). Thresholds of the growth passes.  For every reachable
correspondence set, `Ransac` given enough passes returns, and in every pass but
the last a remaining correspondence is admitted exactly when the squared
distance between its transformed observed point and its model point is below
`sensor_error * sensor_error`; in the last pass it is the squared threshold that
is multiplied by 4: a remaining correspondence is admitted exactly when that
squared distance is below `sensor_error * sensor_error * 4`, which for a
non-negative `sensor_error` means that the distance is below `2 * sensor_error`. -/
theorem Ransac_admission_thresholds (svd : Matrix3 F → Matrix3 F × Matrix3 F)
    (mc : List F) (ci : List Nat) (sensor_error : F) (fuel : Nat)
    (s : AdjacencyRansac F) (hreach : Reachable s)
    (hfuel : (set_difference s.valid_indices_ (ci.insertionSort (· ≤ ·))).length + 2 ≤ fuel) :
    ∃ (r : RansacResult F) (early : List (GrowthPass F)) (f : GrowthPass F),
      Ransac svd (some (mc, ci)) sensor_error fuel s = some r ∧
      r.passes = early ++ [f] ∧
      (∀ p ∈ early, ∀ i ∈ p.valid_indices_vect_before,
        (i ∈ p.extra_inliers ↔
          squaredResidual p.coefficients (s.query_points_.getD i Point3.origin)
            (s.training_points_.getD i Point3.origin) < sensor_error * sensor_error)) ∧
      (∀ i ∈ f.valid_indices_vect_before,
        (i ∈ f.extra_inliers ↔
          squaredResidual f.coefficients (s.query_points_.getD i Point3.origin)
            (s.training_points_.getD i Point3.origin) < sensor_error * sensor_error * 4)) ∧
      (0 ≤ sensor_error → ∀ i ∈ f.valid_indices_vect_before, ∀ d : F, 0 ≤ d →
        d * d = squaredResidual f.coefficients (s.query_points_.getD i Point3.origin)
            (s.training_points_.getD i Point3.origin) →
        (i ∈ f.extra_inliers ↔ d < 2 * sensor_error)) := by
  have hinv := RepInv.of_reachable hreach
  obtain ⟨r, hr, -⟩ := growthLoop_total svd s.query_points_ s.training_points_ fuel false
    (sensor_error * sensor_error) mc (ci.insertionSort (· ≤ ·)) _
    (set_difference_sorted _ hinv.1) hfuel
  obtain ⟨adm, e, f, h1, h2, -, h4, h5, -, -⟩ := growthLoop_shape svd _ _ _ fuel _ _ _ r hr
  have hpass := growthLoop_passes svd _ _ fuel false _ _ _ _ r hr
  have hf : ∀ i ∈ f.valid_indices_vect_before,
      (i ∈ f.extra_inliers ↔
        squaredResidual f.coefficients (s.query_points_.getD i Point3.origin)
          (s.training_points_.getD i Point3.origin) < sensor_error * sensor_error * 4) := by
    obtain ⟨c, hc⟩ := hpass f (by rw [h1]; simp)
    have := growthPass_admits svd _ _ f c hc
    rwa [h5] at this
  refine ⟨r, adm ++ [e], f, by rw [Ransac_some]; exact hr, by rw [h1]; simp, ?_, hf, ?_⟩
  · intro p hp
    obtain ⟨c, hc⟩ := hpass p (by rw [h1]; simp at hp ⊢; tauto)
    have := growthPass_admits svd _ _ p c hc
    have ht : p.thresh = sensor_error * sensor_error := by
      rcases List.mem_append.mp hp with h | h
      · exact (h2 p h).2
      · rw [List.mem_singleton.mp h]; exact h4
    rwa [ht] at this
  · intro he i hi d hd hdd
    rw [hf i hi, ← hdd]
    exact lt_four_mul_self_iff d sensor_error hd he

end RansacThreshold

/-- C15 counterexample. With `sensor_error = 1`, correspondence 1 of
`exampleGrowthSet` is still in the pool in the final pass, its transformed
observed point is at distance 3 from its model point (squared distance
`3 * 3`), which is below `4 * sensor_error`, and the final pass does not admit
it. -/
theorem Ransac_final_threshold_counterexample :
    ∃ r e f, Ransac exampleSVD (some ([], [0])) 1 4 exampleGrowthSet = some r ∧
      r.passes = [e, f] ∧ 1 ∈ f.valid_indices_vect_before ∧
      squaredResidual f.coefficients (exampleGrowthSet.query_points_.getD 1 Point3.origin)
        (exampleGrowthSet.training_points_.getD 1 Point3.origin) = 3 * 3 ∧
      (0 : ℚ) ≤ 3 ∧ (3 : ℚ) < 4 * 1 ∧ 1 ∉ f.extra_inliers ∧ 1 ∉ r.inliers := by
  refine ⟨_, _, _, exampleGrowthSet_Ransac, rfl, ?_, ?_, by norm_num, by norm_num, ?_, ?_⟩
  · simp
  · rw [exampleGrowthSet_residual]; norm_num
  · simp
  · simp

theorem Ransac_admission_thresholds_witness :
    ∃ r early f, Ransac exampleSVD (some ([], [0])) 1 4 exampleGrowthSet = some r ∧
      r.passes = early ++ [f] ∧
      ∀ i ∈ f.valid_indices_vect_before,
        (i ∈ f.extra_inliers ↔
          squaredResidual f.coefficients (exampleGrowthSet.query_points_.getD i Point3.origin)
            (exampleGrowthSet.training_points_.getD i Point3.origin) < 1 * 1 * 4) := by
  obtain ⟨r, early, f, h1, h2, -, h4, -⟩ := Ransac_admission_thresholds exampleSVD [] [0] 1 4
    exampleGrowthSet exampleGrowthSet_reachable (by rw [exampleGrowthSet_pool]; decide)
  exact ⟨r, early, f, h1, h2, h4⟩

/-! ## The fitted transform: layout, translation and orientation (C19, C20) -/

section FitClaims

variable {F : Type} [LinearOrderedField F]

theorem flipThirdColumn_eq_mul (v : Matrix3 F) :
    flipThirdColumn v = v * Matrix.diagonal ![1, 1, -1] := by
  ext x j
  rw [Matrix.mul_diagonal]
  fin_cases j <;> simp [flipThirdColumn]

theorem flipDiagonal_mul_self :
    (Matrix.diagonal ![1, 1, -1] : Matrix3 F) * Matrix.diagonal ![1, 1, -1] = 1 := by
  have h : (fun i => (![1, 1, -1] : Fin 3 → F) i * (![1, 1, -1] : Fin 3 → F) i) = fun _ => 1 := by
    funext i
    fin_cases i <;> simp
  rw [Matrix.diagonal_mul_diagonal, h, Matrix.diagonal_one]

theorem flipDiagonal_det : (Matrix.diagonal ![1, 1, -1] : Matrix3 F).det = -1 := by
  rw [Matrix.det_diagonal, Fin.prod_univ_three]
  simp

theorem det_mul_self_of_orthogonal (u : Matrix3 F) (hu : u.transpose * u = 1) :
    u.det * u.det = 1 := by
  have h := congrArg Matrix.det hu
  rwa [Matrix.det_mul, Matrix.det_transpose, Matrix.det_one] at h

theorem det_of_orthogonal (u : Matrix3 F) (hu : u.transpose * u = 1) :
    u.det = 1 ∨ u.det = -1 :=
  mul_self_eq_one_iff.mp (det_mul_self_of_orthogonal u hu)

/-- C20. The fit never returns a reflection.  For every pair of orthogonal 3x3
factors `u`, `v`, the matrix `R = v * u.transpose` that `rotationFromSVD` computes
after negating the third column of `v` exactly when `det u * det v < 0` is
orthogonal and has determinant 1. -/
theorem rotationFromSVD_no_reflection (u v : Matrix3 F) (hu : u.transpose * u = 1)
    (hv : v.transpose * v = 1) :
    (rotationFromSVD u v).transpose * rotationFromSVD u v = 1 ∧
      (rotationFromSVD u v).det = 1 := by
  have hu2 : u * u.transpose = 1 := Matrix.mul_eq_one_comm.mp hu
  have hdu := det_of_orthogonal u hu
  have hdv := det_of_orthogonal v hv
  unfold rotationFromSVD
  by_cases h : u.det * v.det < 0
  · simp only [h, if_true]
    rw [flipThirdColumn_eq_mul]
    constructor
    · rw [Matrix.transpose_mul, Matrix.transpose_mul, Matrix.transpose_transpose,
        Matrix.diagonal_transpose]
      calc u * (Matrix.diagonal ![1, 1, -1] * v.transpose) *
            (v * Matrix.diagonal ![1, 1, -1] * u.transpose)
          = u * (Matrix.diagonal ![1, 1, -1] * (v.transpose * v) *
              Matrix.diagonal ![1, 1, -1]) * u.transpose := by
            simp only [Matrix.mul_assoc]
        _ = 1 := by rw [hv, Matrix.mul_one, flipDiagonal_mul_self, Matrix.mul_one, hu2]
    · rw [Matrix.det_mul, Matrix.det_mul, Matrix.det_transpose, flipDiagonal_det]
      rcases hdu with h1 | h1 <;> rcases hdv with h2 | h2 <;> rw [h1, h2] at h ⊢ <;>
        norm_num at h ⊢
  · simp only [h, if_false]
    constructor
    · rw [Matrix.transpose_mul, Matrix.transpose_transpose]
      calc u * v.transpose * (v * u.transpose)
          = u * ((v.transpose * v) * u.transpose) := by simp only [Matrix.mul_assoc]
        _ = 1 := by rw [hv, Matrix.one_mul, hu2]
    · rw [Matrix.det_mul, Matrix.det_transpose]
      rcases hdu with h1 | h1 <;> rcases hdv with h2 | h2 <;> rw [h1, h2] at h ⊢ <;>
        norm_num at h ⊢

theorem transformRow_rows (a0 a1 a2 a3 a4 a5 a6 a7 a8 a9 a10 a11 a12 a13 a14 a15 : F)
    (p : Point3 F) :
    transformRow [a0, a1, a2, a3, a4, a5, a6, a7, a8, a9, a10, a11, a12, a13, a14, a15] 0 p =
      a0 * p.x + a1 * p.y + a2 * p.z + a3 * 1 ∧
    transformRow [a0, a1, a2, a3, a4, a5, a6, a7, a8, a9, a10, a11, a12, a13, a14, a15] 1 p =
      a4 * p.x + a5 * p.y + a6 * p.z + a7 * 1 ∧
    transformRow [a0, a1, a2, a3, a4, a5, a6, a7, a8, a9, a10, a11, a12, a13, a14, a15] 2 p =
      a8 * p.x + a9 * p.y + a10 * p.z + a11 * 1 ∧
    transformRow [a0, a1, a2, a3, a4, a5, a6, a7, a8, a9, a10, a11, a12, a13, a14, a15] 3 p =
      a12 * p.x + a13 * p.y + a14 * p.z + a15 * 1 :=
  ⟨rfl, rfl, rfl, rfl⟩

/-- C19. Layout and translation of the fitted transform.  For non-empty index
lists, with `R` the rotation computed from the decomposition of the
correlation matrix and `t = centroid_tgt - R * centroid_src`, the 16
coefficients of `estimateRigidTransformationSVD` are the rows `[R | t]` followed by
`0, 0, 0, 1`; the centroids are the means of the selected points, and the
transform maps the centroid of the selected source points onto the centroid
of the selected target points. -/
theorem estimateRigidTransformationSVD_layout (svd : Matrix3 F → Matrix3 F × Matrix3 F)
    (cloud_src : List (Point3 F)) (indices_src : List Nat)
    (cloud_tgt : List (Point3 F)) (indices_tgt : List Nat)
    (hsrc : indices_src ≠ []) (htgt : indices_tgt ≠ []) :
    ∃ (R : Matrix3 F) (t centroid_src centroid_tgt : Fin 3 → F),
      centroid_src = compute3DCentroid cloud_src indices_src ∧
      centroid_tgt = compute3DCentroid cloud_tgt indices_tgt ∧
      (∀ c, (indices_src.length : F) * centroid_src c =
        (indices_src.map (fun i => (cloud_src.getD i Point3.origin).toVec c)).sum) ∧
      (∀ c, (indices_tgt.length : F) * centroid_tgt c =
        (indices_tgt.map (fun i => (cloud_tgt.getD i Point3.origin).toVec c)).sum) ∧
      R = rotationFromSVD
        (svd (correlationMatrix (demeanPointCloud cloud_src indices_src centroid_src)
          (demeanPointCloud cloud_tgt indices_tgt centroid_tgt))).1
        (svd (correlationMatrix (demeanPointCloud cloud_src indices_src centroid_src)
          (demeanPointCloud cloud_tgt indices_tgt centroid_tgt))).2 ∧
      (∀ i, t i = centroid_tgt i - (R.mulVec centroid_src) i) ∧
      estimateRigidTransformationSVD svd cloud_src indices_src cloud_tgt indices_tgt =
        [R 0 0, R 0 1, R 0 2, t 0,
         R 1 0, R 1 1, R 1 2, t 1,
         R 2 0, R 2 1, R 2 2, t 2,
         0, 0, 0, 1] ∧
      transformRow (estimateRigidTransformationSVD svd cloud_src indices_src cloud_tgt
        indices_tgt) 0 ⟨centroid_src 0, centroid_src 1, centroid_src 2⟩ = centroid_tgt 0 ∧
      transformRow (estimateRigidTransformationSVD svd cloud_src indices_src cloud_tgt
        indices_tgt) 1 ⟨centroid_src 0, centroid_src 1, centroid_src 2⟩ = centroid_tgt 1 ∧
      transformRow (estimateRigidTransformationSVD svd cloud_src indices_src cloud_tgt
        indices_tgt) 2 ⟨centroid_src 0, centroid_src 1, centroid_src 2⟩ = centroid_tgt 2 ∧
      transformRow (estimateRigidTransformationSVD svd cloud_src indices_src cloud_tgt
        indices_tgt) 3 ⟨centroid_src 0, centroid_src 1, centroid_src 2⟩ = 1 := by
  have hmean : ∀ (cloud : List (Point3 F)) (indices : List Nat), indices ≠ [] → ∀ c,
      (indices.length : F) * compute3DCentroid cloud indices c =
        (indices.map (fun i => (cloud.getD i Point3.origin).toVec c)).sum := by
    intro cloud indices hne c
    have hlen : (indices.length : F) ≠ 0 :=
      Nat.cast_ne_zero.mpr (fun h => hne (List.length_eq_zero.mp h))
    unfold compute3DCentroid
    field_simp
  refine ⟨_, _, _, _, rfl, rfl, hmean _ _ hsrc, hmean _ _ htgt, rfl, fun _ => rfl, rfl,
    ?_, ?_, ?_, ?_⟩
  all_goals
    simp only [estimateRigidTransformationSVD]
    first
      | rw [(transformRow_rows _ _ _ _ _ _ _ _ _ _ _ _ _ _ _ _ _).1]
      | rw [(transformRow_rows _ _ _ _ _ _ _ _ _ _ _ _ _ _ _ _ _).2.1]
      | rw [(transformRow_rows _ _ _ _ _ _ _ _ _ _ _ _ _ _ _ _ _).2.2.1]
      | rw [(transformRow_rows _ _ _ _ _ _ _ _ _ _ _ _ _ _ _ _ _).2.2.2]
    simp only [Matrix.mulVec, Matrix.dotProduct, Fin.sum_univ_three]
    ring

end FitClaims

theorem rotationFromSVD_no_reflection_witness :
    (rotationFromSVD (1 : Matrix3 ℚ) (Matrix.diagonal ![1, 1, -1])).det = 1 :=
  (rotationFromSVD_no_reflection (1 : Matrix3 ℚ) (Matrix.diagonal ![1, 1, -1])
    (by simp)
    (by rw [Matrix.diagonal_transpose]; exact flipDiagonal_mul_self)).2

theorem estimateRigidTransformationSVD_layout_witness :
    ∃ (centroid_src centroid_tgt : Fin 3 → ℚ),
      centroid_src = compute3DCentroid exampleGrowthSet.query_points_ [0, 1] ∧
      centroid_tgt = compute3DCentroid exampleGrowthSet.training_points_ [0, 1] ∧
      transformRow (estimateRigidTransformationSVD exampleSVD exampleGrowthSet.query_points_
        [0, 1] exampleGrowthSet.training_points_ [0, 1]) 0
        ⟨centroid_src 0, centroid_src 1, centroid_src 2⟩ = centroid_tgt 0 := by
  obtain ⟨R, t, cs, ct, h1, h2, -, -, -, -, -, h3, -⟩ :=
    estimateRigidTransformationSVD_layout exampleSVD exampleGrowthSet.query_points_ [0, 1]
      exampleGrowthSet.training_points_ [0, 1] (by simp) (by simp)
  exact ⟨cs, ct, h1, h2, h3⟩

/-! ## The sample pool (C22, C23) -/

theorem BuildNeighbors_fold (adj : AdjacencyMatrix) :
    ∀ (l acc : List Nat),
      l.foldl (fun sample_pool_ j =>
        if (adj.neighbors j).length ≥ 3 then sample_pool_ ++ [j] else sample_pool_) acc =
      acc ++ l.filter (fun j => decide (3 ≤ (adj.neighbors j).length)) := by
  intro l
  induction l with
  | nil => intro acc; simp
  | cons a t ih =>
    intro acc
    rw [List.foldl_cons, ih, List.filter_cons]
    by_cases h : 3 ≤ (adj.neighbors a).length
    · simp [h]
    · simp [h]

theorem construct_sample_pool (indices : List Nat) (physical sample : AdjacencyMatrix) :
    (SampleConsensusModelRegistrationGraph.construct indices physical sample).sample_pool_ =
      if indices ≠ [] then
        set_intersection ((List.range sample.size).filter
          (fun j => decide (3 ≤ (sample.neighbors j).length))) indices
      else (List.range sample.size).filter
          (fun j => decide (3 ≤ (sample.neighbors j).length)) := by
  unfold SampleConsensusModelRegistrationGraph.construct BuildNeighbors
  simp only [BuildNeighbors_fold, List.nil_append]
  by_cases h : indices = []
  · simp [h]
  · simp [h]

theorem neighbors_length_lt_size (adj : AdjacencyMatrix) (j : Nat)
    (h : 0 < (adj.neighbors j).length) : j < adj.size := by
  unfold AdjacencyMatrix.neighbors at h
  unfold AdjacencyMatrix.size
  by_contra hlt
  rw [List.getD_eq_default _ _ (not_lt.mp hlt)] at h
  simp at h

theorem pool_candidates_sorted (adj : AdjacencyMatrix) :
    ((List.range adj.size).filter
      (fun j => decide (3 ≤ (adj.neighbors j).length))).Sorted (· ≤ ·) :=
  ((List.pairwise_lt_range adj.size).imp (fun h => le_of_lt h)).sublist
    (List.filter_sublist _)

/-- C22 counterexample. In a sample adjacency where index 0 has exactly 3
neighbors, with all four indices valid, index 0 is in the sample pool although
its neighbor count does not exceed 3. -/
theorem BuildNeighbors_three_neighbors_counterexample :
    0 ∈ ([0, 1, 2, 3] : List Nat) ∧
    0 ∈ (SampleConsensusModelRegistrationGraph.construct [0, 1, 2, 3] exampleClique4
      exampleClique4).sample_pool_ ∧
    ¬ (3 < (exampleClique4.neighbors 0).length) := by
  refine ⟨by simp, ?_, by decide⟩
  rw [construct_sample_pool]
  simp [exampleClique4, AdjacencyMatrix.size, AdjacencyMatrix.neighbors, List.range_succ,
    List.filter, set_intersection]

/-- C22 (amended). Sample pool connectivity threshold.  For every
sample-adjacency matrix and every strictly increasing valid-index list, a
valid index is in the sample pool built by `BuildNeighbors` if and only if it
has at least 3 sample-adjacency neighbors. -/
theorem BuildNeighbors_pool_iff (indices : List Nat) (physical sample : AdjacencyMatrix)
    (hsorted : indices.Sorted (· < ·)) (j : Nat) (hj : j ∈ indices) :
    j ∈ (SampleConsensusModelRegistrationGraph.construct indices physical sample).sample_pool_ ↔
      3 ≤ (sample.neighbors j).length := by
  have hne : indices ≠ [] := List.ne_nil_of_mem hj
  rw [construct_sample_pool, if_pos hne]
  constructor
  · intro h
    have := (mem_of_mem_set_intersection h).1
    simpa using (List.mem_filter.mp this).2
  · intro h
    refine mem_set_intersection_of_sorted (pool_candidates_sorted sample)
      (hsorted.imp (fun h => le_of_lt h)) ?_ hj
    rw [List.mem_filter]
    exact ⟨List.mem_range.mpr (neighbors_length_lt_size sample j (by omega)), by simpa using h⟩

theorem BuildNeighbors_pool_iff_witness :
    1 ∈ (SampleConsensusModelRegistrationGraph.construct [1, 3] exampleClique4
      exampleClique4).sample_pool_ ↔ 3 ≤ (exampleClique4.neighbors 1).length :=
  BuildNeighbors_pool_iff [1, 3] exampleClique4 exampleClique4 (by simp) 1 (by simp)

/-- C23 counterexample. With an empty valid-index list the pool is not
intersected: index 0 of `exampleClique4` is in the sample pool and is not a
member of the (empty) valid-index list. -/
theorem BuildNeighbors_empty_indices_counterexample :
    0 ∈ (SampleConsensusModelRegistrationGraph.construct [] exampleClique4
      exampleClique4).sample_pool_ ∧ 0 ∉ ([] : List Nat) := by
  refine ⟨?_, by simp⟩
  rw [construct_sample_pool]
  simp [exampleClique4, AdjacencyMatrix.size, AdjacencyMatrix.neighbors, List.range_succ,
    List.filter]

/-- C23 (amended). The sample pool is confined to the valid indices when there
are any.  For every sample-adjacency matrix and every non-empty valid-index
list, every index of the sample pool built by `BuildNeighbors` is a member of
that list; for the empty list the pool is not intersected and holds every
index of the matrix with at least 3 neighbors. -/
theorem BuildNeighbors_pool_subset (indices : List Nat) (physical sample : AdjacencyMatrix) :
    (indices ≠ [] → ∀ j ∈ (SampleConsensusModelRegistrationGraph.construct indices physical
      sample).sample_pool_, j ∈ indices) ∧
    (∀ j, j ∈ (SampleConsensusModelRegistrationGraph.construct [] physical sample).sample_pool_ ↔
      j < sample.size ∧ 3 ≤ (sample.neighbors j).length) := by
  constructor
  · intro hne j hj
    rw [construct_sample_pool, if_pos hne] at hj
    exact (mem_of_mem_set_intersection hj).2
  · intro j
    rw [construct_sample_pool]
    simp [List.mem_filter]

theorem BuildNeighbors_pool_subset_witness :
    (SampleConsensusModelRegistrationGraph.construct [1, 3] exampleClique4
      exampleClique4).sample_pool_ ⊆ [1, 3] :=
  fun j hj => (BuildNeighbors_pool_subset [1, 3] exampleClique4 exampleClique4).1 (by simp) j hj

/-! ## Fewer valid correspondences than `min_inliers` (C24) -/

section FewCorrespondences

variable {F : Type} [LinearOrderedField F]

theorem Ransac_returns (svd : Matrix3 F → Matrix3 F × Matrix3 F)
    (computeModel : Option (List F × List Nat)) (sensor_error : F)
    (s : AdjacencyRansac F) (hreach : Reachable s)
    (hci : ∀ mc ci, computeModel = some (mc, ci) →
      ci.Nodup ∧ ∀ x ∈ ci, x ∈ s.valid_indices_) :
    ∃ r, Ransac svd computeModel sensor_error (s.valid_indices_.length + 2) s = some r ∧
      r.inliers.Sorted (· < ·) ∧ (∀ x ∈ r.inliers, x ∈ s.valid_indices_) ∧
      r.inliers.length ≤ s.valid_indices_.length := by
  have hinv := RepInv.of_reachable hreach
  have hlen : ∀ l : List Nat, l.Sorted (· < ·) → (∀ x ∈ l, x ∈ s.valid_indices_) →
      l.length ≤ s.valid_indices_.length := fun l hl hsub =>
    (List.subperm_of_subset hl.nodup hsub).length_le
  cases hcm : computeModel with
  | none =>
    exact ⟨⟨[], [], []⟩, rfl, List.sorted_nil, fun x hx => by simp at hx, Nat.zero_le _⟩
  | some m =>
    obtain ⟨mc, ci⟩ := m
    obtain ⟨hnd, hsub⟩ := hci mc ci hcm
    rw [Ransac_some]
    obtain ⟨r, hr, -⟩ := growthLoop_total svd s.query_points_ s.training_points_
      (s.valid_indices_.length + 2) false
      (sensor_error * sensor_error) mc (ci.insertionSort (· ≤ ·)) _
      (set_difference_sorted _ hinv.1)
      (Nat.add_le_add_right (set_difference_sublist s.valid_indices_
          (ci.insertionSort (· ≤ ·))).length_le 2)
    obtain ⟨-, -, ⟨pool, hp⟩, hsorted⟩ := growthLoop_inv svd _ _ s.valid_indices_ _
      false _ _ _ _ r (growthInv_start s.valid_indices_ ci hinv.1 hsub) hr
    have h1 : r.inliers.Sorted (· < ·) :=
      hsorted (List.Sorted.lt_of_le (List.sorted_insertionSort _ ci)
        ((List.perm_insertionSort _ ci).nodup_iff.mpr hnd))
    have h2 : ∀ x ∈ r.inliers, x ∈ s.valid_indices_ := fun x hx => (hp.2.2 x).mp (Or.inl hx)
    exact ⟨r, hr, h1, h2, hlen _ h1 h2⟩

/-- C24. Too few correspondences means no pose.  For every reachable
correspondence set with fewer valid correspondences than `min_inliers`, when
the consensus stage reports distinct inliers taken from the valid-index set
(or fails): `Ransac` returns fewer than `min_inliers` inliers, and the extraction
loop, whatever pass it is at, takes its `break` at once: it stores no pose and
leaves the correspondence set, hence the valid indices, as they were. -/
theorem too_few_correspondences_no_pose (svd : Matrix3 F → Matrix3 F × Matrix3 F)
    (computeModel : Nat → AdjacencyRansac F → Option (List F × List Nat))
    (sensor_error : F) (min_inliers : Nat) (past_end : Nat → Nat) (fuel k : Nat)
    (s : AdjacencyRansac F) (hreach : Reachable s)
    (hfew : s.valid_indices_.length < min_inliers)
    (hci : ∀ mc ci, computeModel k s = some (mc, ci) →
      ci.Nodup ∧ ∀ x ∈ ci, x ∈ s.valid_indices_) :
    (∃ r, Ransac svd (computeModel k s) sensor_error (s.valid_indices_.length + 2) s = some r ∧
      r.inliers.length < min_inliers) ∧
    (RansacCall svd (computeModel k) sensor_error s).2.length < min_inliers ∧
    process_iteration (RansacCall svd (computeModel k) sensor_error) min_inliers (past_end k) s
      = none ∧
    process_loop (fun k => RansacCall svd (computeModel k) sensor_error) min_inliers past_end
      (fuel + 1) k s = ⟨[], s, true⟩ := by
  obtain ⟨r, hr, -, -, hlen⟩ := Ransac_returns svd (computeModel k s) sensor_error s hreach hci
  have hcall : (RansacCall svd (computeModel k) sensor_error s).2.length < min_inliers := by
    unfold RansacCall
    rw [hr]
    exact lt_of_le_of_lt hlen hfew
  have hiter : process_iteration (RansacCall svd (computeModel k) sensor_error) min_inliers
      (past_end k) s = none := by
    unfold process_iteration
    simp only [hcall, if_true]
  refine ⟨⟨r, hr, lt_of_le_of_lt hlen hfew⟩, hcall, hiter, ?_⟩
  rw [process_loop, hiter]

end FewCorrespondences

theorem too_few_correspondences_no_pose_witness :
    process_loop (fun _ => RansacCall exampleSVD (fun _ => some ([], [0])) (1 : ℚ)) 3
      (fun _ => 0) 1 0 exampleGrowthSet = ⟨[], exampleGrowthSet, true⟩ :=
  (too_few_correspondences_no_pose exampleSVD (fun _ _ => some ([], [0])) 1 3 (fun _ => 0) 0 0
    exampleGrowthSet exampleGrowthSet_reachable
    (by simp [exampleGrowthSet, AddPoints, AdjacencyRansac.empty])
    (exampleGrowthSet_consensus _ rfl)).2.2.2

/-! ## Malformed input (C25) -/

/-- C25 counterexample. With `sensor_error = 0` and `object_span = -5`, both
non-positive, `FillAdjacency` rejects nothing and links the two correspondences
of `exampleSet` in the physical adjacency. -/
theorem FillAdjacency_nonpositive_counterexample :
    (0 : ℚ) ≤ 0 ∧ (-5 : ℚ) ≤ 0 ∧
    (FillAdjacency exampleFloat exampleKeypoints (-5) 0 exampleSet).physical_adjacency_.test 0 1
      = true := by
  refine ⟨le_refl _, by norm_num, ?_⟩
  rw [(FillAdjacency_physical_test exampleFloat exampleKeypoints (-5) 0 exampleSet 0 1
    (by decide) (by decide)).1]
  norm_num [physicalCondition, exampleSet, squaredEuclideanDistance, euclideanDistance,
    exampleFloat, FloatOps.exact, exampleSqrt, FloatOps.origin]

section Malformed

variable {F : Type} {C : Type}

theorem FillAdjacency_fields (fl : FloatOps F) (keypoints : List (KeyPoint F))
    (object_span sensor_error : F) (s : AdjacencyRansac F) :
    (FillAdjacency fl keypoints object_span sensor_error s).query_points_ = s.query_points_ ∧
    (FillAdjacency fl keypoints object_span sensor_error s).training_points_ =
      s.training_points_ ∧
    (FillAdjacency fl keypoints object_span sensor_error s).query_indices_ = s.query_indices_ ∧
    (FillAdjacency fl keypoints object_span sensor_error s).valid_indices_ = s.valid_indices_ :=
  ⟨rfl, rfl, rfl, rfl⟩

theorem process_loop_break (Ransac : Nat → AdjacencyRansac F → C × List Nat)
    (min_inliers : Nat) (past_end : Nat → Nat) (fuel k : Nat) (s : AdjacencyRansac F)
    (h : (Ransac k s).2.length < min_inliers) :
    process_loop Ransac min_inliers past_end (fuel + 1) k s = ⟨[], s, true⟩ := by
  have hiter : process_iteration (Ransac k) min_inliers (past_end k) s = none := by
    unfold process_iteration
    simp only [h, if_true]
  rw [process_loop, hiter]

/-- C25 (amended). Malformed input is not rejected; it runs through the same
code.  For every `object_span` and `sensor_error` (positive or not), every
correspondence set (empty or not) and whatever the float arithmetic does,
`FillAdjacency` returns the set with its points, identifiers and valid indices
unchanged and with two adjacency matrices of one row per correspondence,
decided by the same tests as for any other input.  On the empty
correspondence set these matrices have size 0, and the extraction loop (with
`min_inliers` at least 1 and `Ransac` calls that take their inliers from the
valid indices) takes its `break` in its first pass with no pose stored and
the set unchanged: the result that every run has in which `Ransac` hands back
fewer than `min_inliers` inliers. -/
theorem malformed_input_runs_through (fl : FloatOps F) (keypoints : List (KeyPoint F))
    (object_span sensor_error : F) (Ransac : Nat → AdjacencyRansac F → C × List Nat)
    (min_inliers : Nat) (past_end : Nat → Nat) (fuel k : Nat) (hmin : 1 ≤ min_inliers)
    (hR : ∀ k s, ∀ x ∈ (Ransac k s).2, x ∈ s.valid_indices_) :
    (∀ s : AdjacencyRansac F,
      (FillAdjacency fl keypoints object_span sensor_error s).query_points_ = s.query_points_ ∧
      (FillAdjacency fl keypoints object_span sensor_error s).training_points_ =
        s.training_points_ ∧
      (FillAdjacency fl keypoints object_span sensor_error s).query_indices_ =
        s.query_indices_ ∧
      (FillAdjacency fl keypoints object_span sensor_error s).valid_indices_ =
        s.valid_indices_ ∧
      (FillAdjacency fl keypoints object_span sensor_error s).physical_adjacency_.size =
        s.training_points_.length ∧
      (FillAdjacency fl keypoints object_span sensor_error s).sample_adjacency_.size =
        s.training_points_.length ∧
      ∀ i j, i < j → j < s.training_points_.length →
        (FillAdjacency fl keypoints object_span sensor_error s).physical_adjacency_.test i j =
          physicalCondition fl object_span sensor_error s.query_points_ s.training_points_
            i j ∧
        (FillAdjacency fl keypoints object_span sensor_error s).sample_adjacency_.test i j =
          (physicalCondition fl object_span sensor_error s.query_points_ s.training_points_
              i j &&
            sampleCondition fl keypoints sensor_error s.query_points_ s.training_points_
              s.query_indices_ i j)) ∧
    (FillAdjacency fl keypoints object_span sensor_error
        AdjacencyRansac.empty).physical_adjacency_.size = 0 ∧
    (FillAdjacency fl keypoints object_span sensor_error
        AdjacencyRansac.empty).sample_adjacency_.size = 0 ∧
    process_loop Ransac min_inliers past_end (fuel + 1) k
        (FillAdjacency fl keypoints object_span sensor_error AdjacencyRansac.empty) =
      ⟨[], FillAdjacency fl keypoints object_span sensor_error AdjacencyRansac.empty, true⟩ ∧
    (∀ s : AdjacencyRansac F, (Ransac k s).2.length < min_inliers →
      process_loop Ransac min_inliers past_end (fuel + 1) k s = ⟨[], s, true⟩) := by
  refine ⟨?_, rfl, rfl, ?_, ?_⟩
  · intro s
    obtain ⟨⟨h1, -, -⟩, ⟨h2, -, -⟩⟩ := FillAdjacency_inv fl keypoints object_span sensor_error s
    refine ⟨rfl, rfl, rfl, rfl, h1, h2, ?_⟩
    intro i j hij hj
    exact ⟨(FillAdjacency_physical_test fl keypoints object_span sensor_error s i j hij hj).1,
      (FillAdjacency_sample_test fl keypoints object_span sensor_error s i j hij hj).1⟩
  · apply process_loop_break
    have hv : (FillAdjacency fl keypoints object_span sensor_error
        (AdjacencyRansac.empty : AdjacencyRansac F)).valid_indices_ = [] := rfl
    have hin : (Ransac k (FillAdjacency fl keypoints object_span sensor_error
        AdjacencyRansac.empty)).2 = [] := by
      apply List.eq_nil_iff_forall_not_mem.mpr
      intro x hx
      have := hR k _ x hx
      rw [hv] at this
      simp at this
    rw [hin]
    exact hmin
  · intro s hs
    exact process_loop_break Ransac min_inliers past_end fuel k s hs

end Malformed

theorem malformed_input_runs_through_witness :
    (process_loop exampleRansac 1 (fun _ => 0) 1 0
      (FillAdjacency exampleFloat exampleKeypoints 0 0 AdjacencyRansac.empty)).poses = [] ∧
    (process_loop exampleRansac 1 (fun _ => 0) 1 0
      (FillAdjacency exampleFloat exampleKeypoints 0 0 AdjacencyRansac.empty)).finished = true := by
  have h := (malformed_input_runs_through exampleFloat exampleKeypoints 0 0 exampleRansac 1
    (fun _ => 0) 0 0 (le_refl 1)
    (fun k s x hx => List.mem_of_mem_take hx)).2.2.2.1
  rw [h]
  exact ⟨rfl, rfl⟩

/-! ## Representation invariants and the identifier scan (C26 to C30) -/

theorem foldl_addPoints_valid {F : Type} (pts : List (Point3 F × Point3 F × Nat)) :
    ∀ s : AdjacencyRansac F,
      (pts.foldl (fun s p => AddPoints s p.1 p.2.1 p.2.2) s).valid_indices_ =
        s.valid_indices_ ++ List.range' s.query_indices_.length pts.length ∧
      (pts.foldl (fun s p => AddPoints s p.1 p.2.1 p.2.2) s).query_indices_.length =
        s.query_indices_.length + pts.length := by
  induction pts with
  | nil => intro s; simp
  | cons p t ih =>
    intro s
    rw [List.foldl_cons]
    obtain ⟨h1, h2⟩ := ih (AddPoints s p.1 p.2.1 p.2.2)
    rw [h1, h2]
    simp [AddPoints, List.range'_succ]
    omega

theorem buildInv_representation {c : Nat → Nat → Prop} {n : Nat} {m : AdjacencyMatrix}
    (h : BuildInv c n (fun a b => a < b ∧ b < n) m) :
    m.size = n ∧ (∀ i j, j ∈ m.neighbors i ↔ i ∈ m.neighbors j) ∧
      (∀ i, i ∉ m.neighbors i) ∧ (∀ i, (m.neighbors i).Sorted (· < ·)) := by
  obtain ⟨h1, h2, h3⟩ := h
  refine ⟨h1, ?_, ?_, h2⟩
  · intro i j
    rw [h3 i j, h3 j i]
    exact Or.comm
  · intro i hi
    rcases (h3 i i).mp hi with ⟨⟨hlt, -⟩, -⟩ | ⟨⟨hlt, -⟩, -⟩ <;> exact lt_irrefl _ hlt

/-- C26. Representation of the adjacency matrices after a build.  With
`set_sorted` appending each endpoint to the neighbor list of the other, after
`FillAdjacency` both matrices have one row per correspondence, are symmetric
(`j` is a neighbor of `i` exactly when `i` is a neighbor of `j`), have no
self-loop, and every neighbor list is strictly increasing. -/
theorem FillAdjacency_representation {F : Type} (fl : FloatOps F) (keypoints : List (KeyPoint F))
    (object_span sensor_error : F) (s : AdjacencyRansac F) :
    ((FillAdjacency fl keypoints object_span sensor_error s).physical_adjacency_.size =
        s.training_points_.length ∧
      (∀ i j, j ∈ (FillAdjacency fl keypoints object_span sensor_error
            s).physical_adjacency_.neighbors i ↔
          i ∈ (FillAdjacency fl keypoints object_span sensor_error
            s).physical_adjacency_.neighbors j) ∧
      (∀ i, i ∉ (FillAdjacency fl keypoints object_span sensor_error
          s).physical_adjacency_.neighbors i) ∧
      (∀ i, ((FillAdjacency fl keypoints object_span sensor_error
          s).physical_adjacency_.neighbors i).Sorted (· < ·))) ∧
    ((FillAdjacency fl keypoints object_span sensor_error s).sample_adjacency_.size =
        s.training_points_.length ∧
      (∀ i j, j ∈ (FillAdjacency fl keypoints object_span sensor_error
            s).sample_adjacency_.neighbors i ↔
          i ∈ (FillAdjacency fl keypoints object_span sensor_error
            s).sample_adjacency_.neighbors j) ∧
      (∀ i, i ∉ (FillAdjacency fl keypoints object_span sensor_error
          s).sample_adjacency_.neighbors i) ∧
      (∀ i, ((FillAdjacency fl keypoints object_span sensor_error
          s).sample_adjacency_.neighbors i).Sorted (· < ·))) :=
  ⟨buildInv_representation (FillAdjacency_inv fl keypoints object_span sensor_error s).1,
    buildInv_representation (FillAdjacency_inv fl keypoints object_span sensor_error s).2⟩

section Representation

variable {F : Type} [LinearOrderedField F]

/-- C28. `ClusterPerObject` builds identifier-ordered sets.  For every keypoint
list, point cloud and match lists, in the correspondence set of every object
that `ClusterPerObject` produces from an empty map, the stored observed-point
identifiers are non-decreasing in correspondence-index order; the same holds
after `FillAdjacency`, when the extraction loop starts. -/
theorem ClusterPerObject_identifiers_sorted (fl : FloatOps F) (keypoints : List (KeyPoint F))
    (point_cloud : F → F → Option (Point3 F))
    (matches_ : List (List DMatch)) (matches_3d : List (List (Point3 F)))
    (object_span sensor_error : F) (opencv_object_id : Nat) :
    (ClusterPerObject keypoints point_cloud matches_ matches_3d
      (fun _ => AdjacencyRansac.empty) opencv_object_id).query_indices_.Sorted (· ≤ ·) ∧
    (object_points_filled fl keypoints point_cloud matches_ matches_3d object_span
      sensor_error opencv_object_id).query_indices_.Sorted (· ≤ ·) :=
  ⟨(wellFormed_ClusterPerObject keypoints point_cloud matches_ matches_3d opencv_object_id).2.2,
    (wellFormed_object_points_filled fl keypoints point_cloud matches_ matches_3d object_span
      sensor_error opencv_object_id).2.2⟩

theorem reachable_foldl_run (calls : List (MethodCall F)) :
    ∀ s : AdjacencyRansac F, Reachable s → Reachable (calls.foldl (fun s c => c.run s) s) := by
  induction calls with
  | nil => intro s hs; exact hs
  | cons c t ih =>
    intro s hs
    rw [List.foldl_cons]
    apply ih
    cases c with
    | addPoints tp qp qi => exact Reachable.addPoints _ _ _ _ hs
    | invalidateIndices l => exact Reachable.invalidateIndices _ _ hs
    | invalidateQueryIndices l pe => exact Reachable.invalidateQueryIndices _ _ _ hs

/-- C30. Valid-index representation invariant.  Starting from the empty
correspondence set, after any sequence of `AddPoints`, `InvalidateIndices` and
`InvalidateQueryIndices` calls the valid-index list is strictly increasing and
every entry is smaller than the number of correspondences; after `k` calls of
`AddPoints` and no invalidation it is exactly `0, 1, ..., k-1`. -/
theorem valid_indices_representation (calls : List (MethodCall F))
    (pts : List (Point3 F × Point3 F × Nat)) :
    (calls.foldl (fun s c => c.run s) AdjacencyRansac.empty).valid_indices_.Sorted (· < ·) ∧
    (∀ i ∈ (calls.foldl (fun s c => c.run s) AdjacencyRansac.empty).valid_indices_,
      i < n_points (calls.foldl (fun s c => c.run s) AdjacencyRansac.empty)) ∧
    (pts.foldl (fun s p => AddPoints s p.1 p.2.1 p.2.2)
      (AdjacencyRansac.empty : AdjacencyRansac F)).valid_indices_ = List.range pts.length ∧
    n_points (pts.foldl (fun s p => AddPoints s p.1 p.2.1 p.2.2)
      (AdjacencyRansac.empty : AdjacencyRansac F)) = pts.length := by
  have h := RepInv.of_reachable (reachable_foldl_run calls _ Reachable.empty)
  obtain ⟨h1, h2⟩ := foldl_addPoints_valid pts (AdjacencyRansac.empty : AdjacencyRansac F)
  refine ⟨h.1, h.2.1, ?_, ?_⟩
  · rw [h1]
    simp [AdjacencyRansac.empty, List.range_eq_range']
  · unfold n_points
    rw [h2]
    simp [AdjacencyRansac.empty]

end Representation

/-- C27 at the failing input. Identifiers 0 and 7, identifier list `[3]`, and
the value 7 past the end of the list: index 1 was valid, its identifier 7 is
not in the list, and it is no longer valid after the call. -/
theorem InvalidateQueryIndices_removes_unlisted :
    1 ∈ examplePastEndSet.valid_indices_ ∧
    examplePastEndSet.query_indices_.getD 1 0 ∉ [3] ∧
    1 ∉ (InvalidateQueryIndices [3] 7 examplePastEndSet).valid_indices_ := by
  simp [examplePastEndSet, AddPoints, AdjacencyRansac.empty, InvalidateQueryIndices,
    InvalidateIndices, scanQueryIndices, sort_unique, unique, set_difference]

/-- C29 at the failing input. Identifiers 0 and 7 and the identifier list `[3]`:
the scan evaluates `*iter` with `iter == end`, and what `InvalidateQueryIndices`
leaves valid depends on the value found there. -/
theorem InvalidateQueryIndices_reads_past_end :
    InvalidateQueryIndices_readsPastEnd [3] 0 examplePastEndSet = true ∧
    (InvalidateQueryIndices [3] 0 examplePastEndSet).valid_indices_ = [0, 1] ∧
    (InvalidateQueryIndices [3] 7 examplePastEndSet).valid_indices_ = [0] := by
  refine ⟨?_, ?_, ?_⟩
  · simp [InvalidateQueryIndices_readsPastEnd, examplePastEndSet, AddPoints,
      AdjacencyRansac.empty, scanReadsPastEnd, sort_unique, unique]
  · simp [examplePastEndSet, AddPoints, AdjacencyRansac.empty, InvalidateQueryIndices,
      InvalidateIndices, scanQueryIndices, sort_unique, unique, set_difference]
  · simp [examplePastEndSet, AddPoints, AdjacencyRansac.empty, InvalidateQueryIndices,
      InvalidateIndices, scanQueryIndices, sort_unique, unique, set_difference]

/-! ## Round trip of the closed-form fit (C21) -/

section RoundTrip

variable {F : Type} [LinearOrderedField F]

theorem eq_zero_of_sq_sum {a b c : F} (h : a * a + b * b + c * c = 1) (ha : a = 1) :
    b = 0 ∧ c = 0 := by
  subst ha
  have hb := mul_self_nonneg b
  have hc := mul_self_nonneg c
  have hb0 : b * b = 0 := by linarith
  have hc0 : c * c = 0 := by linarith
  exact ⟨mul_self_eq_zero.mp hb0, mul_self_eq_zero.mp hc0⟩

theorem le_one_of_sq_sum {a b c : F} (h : a * a + b * b + c * c = 1) : a ≤ 1 := by
  have hb := mul_self_nonneg b
  have hc := mul_self_nonneg c
  by_contra hgt
  have hgt1 : 1 < a := not_le.mp hgt
  have : 1 < a * a := by nlinarith
  linarith

/-- Entries of an orthogonal matrix: the squares along a row and along a column
add up to 1. -/
theorem orthogonal_row_col (W : Matrix3 F) (h : W.transpose * W = 1) (i : Fin 3) :
    W i 0 * W i 0 + W i 1 * W i 1 + W i 2 * W i 2 = 1 ∧
    W 0 i * W 0 i + W 1 i * W 1 i + W 2 i * W 2 i = 1 := by
  have h2 : W * W.transpose = 1 := Matrix.mul_eq_one_comm.mp h
  have r := congrFun (congrFun h2 i) i
  have c := congrFun (congrFun h i) i
  simp only [Matrix.mul_apply, Fin.sum_univ_three, Matrix.transpose_apply, Matrix.one_apply_eq]
    at r c
  exact ⟨r, c⟩

/-- The test matrix of the positivity argument: for orthogonal `W` with `D * W`
symmetric, `(1 - W) * (D * W) * (1 - W.transpose) = D * W - D - D + D * W.transpose`. -/
theorem sandwich_identity (D W : Matrix3 F) (hW : W.transpose * W = 1)
    (hs : W.transpose * D = D * W) :
    (1 - W) * (D * W) * (1 - W.transpose) = D * W - D - D + D * W.transpose := by
  have hW2 : W * W.transpose = 1 := Matrix.mul_eq_one_comm.mp hW
  have h1 : W * (D * W) = D := by
    rw [← hs, ← Matrix.mul_assoc, hW2, Matrix.one_mul]
  have h2 : D * W * W.transpose = D := by
    rw [Matrix.mul_assoc, hW2, Matrix.mul_one]
  rw [Matrix.sub_mul, Matrix.one_mul, h1, Matrix.mul_sub, Matrix.mul_one, Matrix.sub_mul, h2]
  abel

theorem diag_entry_eq_one (σ : Fin 3 → F) (W : Matrix3 F) (hW : W.transpose * W = 1)
    (hs : W.transpose * Matrix.diagonal σ = Matrix.diagonal σ * W)
    (hpsd : ∀ (N : Matrix3 F) (i : Fin 3),
      0 ≤ (N.transpose * (Matrix.diagonal σ * W) * N) i i)
    (i : Fin 3) (hi : 0 < σ i) : W i i = 1 := by
  have h := hpsd (1 - W.transpose) i
  rw [Matrix.transpose_sub, Matrix.transpose_one, Matrix.transpose_transpose,
    sandwich_identity _ W hW hs] at h
  simp only [Matrix.add_apply, Matrix.sub_apply, Matrix.diagonal_mul, Matrix.diagonal_apply_eq,
    Matrix.transpose_apply] at h
  have hge : 1 ≤ W i i := by
    by_contra hlt
    have hlt1 : W i i < 1 := not_le.mp hlt
    have : σ i * W i i < σ i * 1 := mul_lt_mul_of_pos_left hlt1 hi
    linarith
  have hle : W i i ≤ 1 := by
    have h2 : W * W.transpose = 1 := Matrix.mul_eq_one_comm.mp hW
    have r : ∑ j, W i j * W i j = 1 := by
      simpa [Matrix.mul_apply] using congrFun (congrFun h2 i) i
    have hsq : W i i * W i i ≤ 1 := by
      rw [← r]
      exact Finset.single_le_sum (f := fun j => W i j * W i j)
        (fun j _ => mul_self_nonneg _) (Finset.mem_univ i)
    by_contra hgt
    have hgt1 : 1 < W i i := not_le.mp hgt
    nlinarith
  exact le_antisymm hle hge

theorem orthogonal_of_diag_one (W : Matrix3 F) (hW : W.transpose * W = 1)
    (h0 : W 0 0 = 1) (h1 : W 1 1 = 1) :
    W = Matrix.diagonal ![1, 1, W 2 2] ∧ W 2 2 * W 2 2 = 1 := by
  obtain ⟨r0, c0⟩ := orthogonal_row_col W hW 0
  obtain ⟨r1, c1⟩ := orthogonal_row_col W hW 1
  obtain ⟨r2, -⟩ := orthogonal_row_col W hW 2
  obtain ⟨h01, h02⟩ := eq_zero_of_sq_sum r0 h0
  obtain ⟨h10, h20⟩ := eq_zero_of_sq_sum c0 h0
  obtain ⟨h1x, h12⟩ := eq_zero_of_sq_sum (a := W 1 1) (b := W 1 0) (c := W 1 2)
    (by linarith) h1
  obtain ⟨h0y, h21⟩ := eq_zero_of_sq_sum (a := W 1 1) (b := W 0 1) (c := W 2 1)
    (by linarith) h1
  constructor
  · ext i j
    fin_cases i <;> fin_cases j <;> simp [h0, h1, h01, h02, h10, h20, h12, h21]
  · rw [h20, h21] at r2
    simpa using r2

theorem svd_conjugate (U V R P : Matrix3 F) (σ : Fin 3 → F)
    (hU : U.transpose * U = 1) (hR : R.transpose * R = 1)
    (hH : U * Matrix.diagonal σ * V.transpose = P * R.transpose) :
    Matrix.diagonal σ * (V.transpose * R * U) = U.transpose * P * U := by
  have e1 : U.transpose * (U * Matrix.diagonal σ * V.transpose) * R * U =
      Matrix.diagonal σ * (V.transpose * R * U) := by
    simp only [← Matrix.mul_assoc, hU, Matrix.one_mul]
  rw [← e1, hH]
  have e2 : R.transpose * (R * U) = U := by
    rw [← Matrix.mul_assoc, hR, Matrix.one_mul]
  simp only [Matrix.mul_assoc, e2]

/-- The rotation is recovered from a decomposition of `P * R.transpose`, with `P`
symmetric and positive semidefinite, as soon as two singular values are positive. -/
theorem rotationFromSVD_recovers (U V R P : Matrix3 F) (σ : Fin 3 → F)
    (hU : U.transpose * U = 1) (hV : V.transpose * V = 1) (hR : R.transpose * R = 1)
    (hdet : R.det = 1) (hPs : P.transpose = P)
    (hpsd : ∀ (N : Matrix3 F) (i : Fin 3), 0 ≤ (N.transpose * P * N) i i)
    (hH : U * Matrix.diagonal σ * V.transpose = P * R.transpose)
    (h0 : 0 < σ 0) (h1 : 0 < σ 1) : rotationFromSVD U V = R := by
  have hU2 : U * U.transpose = 1 := Matrix.mul_eq_one_comm.mp hU
  have hV2 : V * V.transpose = 1 := Matrix.mul_eq_one_comm.mp hV
  -- the orthogonal matrix W and the symmetric matrix D * W
  have hA := svd_conjugate U V R P σ hU hR hH
  have hW : (V.transpose * R * U).transpose * (V.transpose * R * U) = 1 := by
    have e1 : R.transpose * (V * (V.transpose * (R * U))) = U := by
      rw [← Matrix.mul_assoc V, hV2, Matrix.one_mul, ← Matrix.mul_assoc, hR, Matrix.one_mul]
    simp only [Matrix.transpose_mul, Matrix.transpose_transpose, Matrix.mul_assoc, e1, hU]
  have hs : (V.transpose * R * U).transpose * Matrix.diagonal σ =
      Matrix.diagonal σ * (V.transpose * R * U) := by
    have e := congrArg Matrix.transpose hA
    rw [Matrix.transpose_mul, Matrix.diagonal_transpose] at e
    rw [e, hA]
    simp only [Matrix.transpose_mul, Matrix.transpose_transpose, hPs, Matrix.mul_assoc]
  have hpsdW : ∀ (N : Matrix3 F) (i : Fin 3),
      0 ≤ (N.transpose * (Matrix.diagonal σ * (V.transpose * R * U)) * N) i i := by
    intro N i
    have := hpsd (U * N) i
    rw [hA]
    simpa only [Matrix.transpose_mul, Matrix.mul_assoc] using this
  have w0 := diag_entry_eq_one σ _ hW hs hpsdW 0 h0
  have w1 := diag_entry_eq_one σ _ hW hs hpsdW 1 h1
  obtain ⟨hWd, hw2⟩ := orthogonal_of_diag_one _ hW w0 w1
  -- R in terms of W
  have hRW : V * (V.transpose * R * U) * U.transpose = R := by
    simp only [← Matrix.mul_assoc, hV2, Matrix.one_mul]
    rw [Matrix.mul_assoc, hU2, Matrix.mul_one]
  have hdetW : (V.transpose * R * U).det = U.det * V.det := by
    rw [Matrix.det_mul, Matrix.det_mul, Matrix.det_transpose, hdet]
    ring
  have hdetd : (V.transpose * R * U).det = (V.transpose * R * U) 2 2 := by
    conv_lhs => rw [hWd]
    rw [Matrix.det_diagonal, Fin.prod_univ_three]
    simp
  have hw : (V.transpose * R * U) 2 2 = 1 ∨ (V.transpose * R * U) 2 2 = -1 :=
    mul_self_eq_one_iff.mp hw2
  unfold rotationFromSVD
  by_cases h : U.det * V.det < 0
  · simp only [h, if_true]
    rw [flipThirdColumn_eq_mul]
    have hm1 : (V.transpose * R * U) 2 2 = -1 := by
      rcases hw with h' | h'
      · rw [← hdetW, hdetd, h'] at h
        exact absurd h (by norm_num)
      · exact h'
    rw [hm1] at hWd
    rw [← hWd]
    exact hRW
  · simp only [h, if_false]
    have hp1 : (V.transpose * R * U) 2 2 = 1 := by
      rcases hw with h' | h'
      · exact h'
      · rw [← hdetW, hdetd, h'] at h
        exact absurd (by norm_num : (-1 : F) < 0) h
    rw [hp1] at hWd
    have hone : (Matrix.diagonal ![1, 1, 1] : Matrix3 F) = 1 := by
      have hv : (![1, 1, 1] : Fin 3 → F) = fun _ => 1 := by
        funext i
        fin_cases i <;> rfl
      rw [hv, Matrix.diagonal_one]
    rw [hone] at hWd
    rw [hWd, Matrix.mul_one] at hRW
    exact hRW

/-! Correlation matrices of lists of vectors. -/

theorem correlationMatrix_cons (x y : Fin 3 → F) (A B : List (Fin 3 → F)) :
    correlationMatrix (x :: A) (y :: B) = Matrix.vecMulVec x y + correlationMatrix A B := by
  ext r c
  simp [correlationMatrix, Matrix.vecMulVec_apply]

theorem correlationMatrix_nil (B : List (Fin 3 → F)) :
    correlationMatrix ([] : List (Fin 3 → F)) B = 0 := by
  ext r c
  simp [correlationMatrix]

theorem correlationMatrix_map_mulVec (R : Matrix3 F) (A : List (Fin 3 → F)) :
    correlationMatrix A (A.map R.mulVec) = correlationMatrix A A * R.transpose := by
  induction A with
  | nil => simp [correlationMatrix_nil]
  | cons x A ih =>
    rw [List.map_cons, correlationMatrix_cons, correlationMatrix_cons, ih, Matrix.add_mul]
    congr 1
    ext r c
    simp [Matrix.vecMulVec_apply, Matrix.mul_apply, Matrix.mulVec, Matrix.dotProduct,
      Fin.sum_univ_three]
    ring

theorem correlationMatrix_self_transpose (A : List (Fin 3 → F)) :
    (correlationMatrix A A).transpose = correlationMatrix A A := by
  induction A with
  | nil => simp [correlationMatrix_nil]
  | cons x A ih =>
    rw [correlationMatrix_cons, Matrix.transpose_add, ih]
    congr 1
    ext r c
    simp [Matrix.vecMulVec_apply, mul_comm]

theorem sandwich_vecMulVec (N : Matrix3 F) (x : Fin 3 → F) (i : Fin 3) :
    (N.transpose * Matrix.vecMulVec x x * N) i i =
      (N 0 i * x 0 + N 1 i * x 1 + N 2 i * x 2) * (N 0 i * x 0 + N 1 i * x 1 + N 2 i * x 2) := by
  simp [Matrix.mul_apply, Matrix.vecMulVec_apply, Fin.sum_univ_three]
  ring

theorem sandwich_correlationMatrix_cons (N : Matrix3 F) (x : Fin 3 → F) (A : List (Fin 3 → F))
    (i : Fin 3) :
    (N.transpose * correlationMatrix (x :: A) (x :: A) * N) i i =
      (N 0 i * x 0 + N 1 i * x 1 + N 2 i * x 2) * (N 0 i * x 0 + N 1 i * x 1 + N 2 i * x 2) +
        (N.transpose * correlationMatrix A A * N) i i := by
  rw [correlationMatrix_cons, Matrix.mul_add, Matrix.add_mul, Matrix.add_apply,
    sandwich_vecMulVec]

theorem sandwich_correlationMatrix_nonneg (N : Matrix3 F) (i : Fin 3) (A : List (Fin 3 → F)) :
    0 ≤ (N.transpose * correlationMatrix A A * N) i i := by
  induction A with
  | nil => simp [correlationMatrix_nil]
  | cons x A ih =>
    rw [sandwich_correlationMatrix_cons]
    exact add_nonneg (mul_self_nonneg _) ih

theorem sandwich_correlationMatrix_zero (N : Matrix3 F) (i : Fin 3) (A : List (Fin 3 → F))
    (h : (N.transpose * correlationMatrix A A * N) i i = 0) :
    ∀ x ∈ A, N 0 i * x 0 + N 1 i * x 1 + N 2 i * x 2 = 0 := by
  induction A with
  | nil => intro x hx; simp at hx
  | cons y A ih =>
    rw [sandwich_correlationMatrix_cons] at h
    have h1 := mul_self_nonneg (N 0 i * y 0 + N 1 i * y 1 + N 2 i * y 2)
    have h2 := sandwich_correlationMatrix_nonneg N i A
    intro x hx
    rcases List.mem_cons.mp hx with rfl | hx
    · exact mul_self_eq_zero.mp (by linarith)
    · exact ih (by linarith) x hx

theorem second_singular_value_pos (U V R : Matrix3 F) (A : List (Fin 3 → F)) (σ : Fin 3 → F)
    (hU : U.transpose * U = 1) (hR : R.transpose * R = 1)
    (hH : U * Matrix.diagonal σ * V.transpose = correlationMatrix A A * R.transpose)
    (hσ1 : σ 2 ≤ σ 1) (hσ2 : 0 ≤ σ 2)
    (hnd : ¬ ∃ u : Fin 3 → F, ∀ x ∈ A, ∃ α : F, x = α • u) : 0 < σ 1 := by
  by_contra hle
  have h1 : σ 1 = 0 := le_antisymm (not_lt.mp hle) (le_trans hσ2 hσ1)
  have h2 : σ 2 = 0 := le_antisymm (by rw [← h1]; exact hσ1) hσ2
  have hU2 : U * U.transpose = 1 := Matrix.mul_eq_one_comm.mp hU
  have hA := svd_conjugate U V R (correlationMatrix A A) σ hU hR hH
  have z1 : (U.transpose * correlationMatrix A A * U) 1 1 = 0 := by
    rw [← hA, Matrix.diagonal_mul, h1, zero_mul]
  have z2 : (U.transpose * correlationMatrix A A * U) 2 2 = 0 := by
    rw [← hA, Matrix.diagonal_mul, h2, zero_mul]
  have o1 := sandwich_correlationMatrix_zero U 1 A z1
  have o2 := sandwich_correlationMatrix_zero U 2 A z2
  apply hnd
  refine ⟨fun s => U s 0, fun x hx => ⟨U 0 0 * x 0 + U 1 0 * x 1 + U 2 0 * x 2, ?_⟩⟩
  funext s
  have e : (U * U.transpose).mulVec x = x := by rw [hU2, Matrix.one_mulVec]
  have es := congrFun e s
  simp only [Matrix.mulVec, Matrix.dotProduct, Matrix.mul_apply, Fin.sum_univ_three,
    Matrix.transpose_apply] at es
  simp only [Pi.smul_apply, smul_eq_mul]
  linear_combination (-1 : F) * es + U s 1 * o1 x hx + U s 2 * o2 x hx

/-! The point clouds of a zero-noise rigid motion. -/

theorem sum_map_affine (a b c τ : F) (f g h : Nat → F) (l : List Nat) :
    (l.map (fun i => a * f i + b * g i + c * h i + τ)).sum =
      a * (l.map f).sum + b * (l.map g).sum + c * (l.map h).sum + (l.length : F) * τ := by
  induction l with
  | nil => simp
  | cons x l ih =>
    simp only [List.map_cons, List.sum_cons, List.length_cons, Nat.cast_succ, ih]
    ring

theorem mulVec_three (R : Matrix3 F) (v : Fin 3 → F) (k : Fin 3) :
    R.mulVec v k = R k 0 * v 0 + R k 1 * v 1 + R k 2 * v 2 := by
  simp [Matrix.mulVec, Matrix.dotProduct, Fin.sum_univ_three]

theorem centroid_transform (R : Matrix3 F) (t : Fin 3 → F)
    (cloud_src cloud_tgt : List (Point3 F)) (indices : List Nat) (hne : indices ≠ [])
    (htgt : ∀ i ∈ indices, (cloud_tgt.getD i Point3.origin).toVec =
      R.mulVec (cloud_src.getD i Point3.origin).toVec + t) :
    compute3DCentroid cloud_tgt indices = R.mulVec (compute3DCentroid cloud_src indices) + t := by
  have hlen : (indices.length : F) ≠ 0 :=
    Nat.cast_ne_zero.mpr (fun h => hne (List.length_eq_zero.mp h))
  funext k
  have hmap : indices.map (fun i => (cloud_tgt.getD i Point3.origin).toVec k) =
      indices.map (fun i => R k 0 * (cloud_src.getD i Point3.origin).toVec 0
        + R k 1 * (cloud_src.getD i Point3.origin).toVec 1
        + R k 2 * (cloud_src.getD i Point3.origin).toVec 2 + t k) := by
    apply List.map_congr_left
    intro i hi
    rw [htgt i hi, Pi.add_apply, mulVec_three]
  rw [Pi.add_apply, mulVec_three]
  unfold compute3DCentroid
  rw [hmap, sum_map_affine]
  field_simp
  ring

theorem demean_transform (R : Matrix3 F) (t : Fin 3 → F)
    (cloud_src cloud_tgt : List (Point3 F)) (indices : List Nat) (hne : indices ≠ [])
    (htgt : ∀ i ∈ indices, (cloud_tgt.getD i Point3.origin).toVec =
      R.mulVec (cloud_src.getD i Point3.origin).toVec + t) :
    demeanPointCloud cloud_tgt indices (compute3DCentroid cloud_tgt indices) =
      (demeanPointCloud cloud_src indices (compute3DCentroid cloud_src indices)).map
        R.mulVec := by
  unfold demeanPointCloud
  rw [List.map_map]
  apply List.map_congr_left
  intro i hi
  funext k
  rw [centroid_transform R t cloud_src cloud_tgt indices hne htgt, htgt i hi]
  simp only [Function.comp, Pi.add_apply, mulVec_three]
  ring

theorem nonCollinear_not_line (cloud : List (Point3 F)) (indices : List Nat)
    (centroid : Fin 3 → F) (h : NonCollinear cloud indices) :
    ¬ ∃ u : Fin 3 → F, ∀ x ∈ demeanPointCloud cloud indices centroid, ∃ α : F, x = α • u := by
  rintro ⟨u, hu⟩
  obtain ⟨i, hi, j, hj, k, hk, hcross⟩ := h
  have hmem : ∀ m ∈ indices, ∃ α : F,
      (fun c => (cloud.getD m Point3.origin).toVec c - centroid c) = α • u := by
    intro m hm
    apply hu
    unfold demeanPointCloud
    exact List.mem_map.mpr ⟨m, hm, rfl⟩
  obtain ⟨αi, ei⟩ := hmem i hi
  obtain ⟨αj, ej⟩ := hmem j hj
  obtain ⟨αk, ek⟩ := hmem k hk
  apply hcross
  have e1 : (cloud.getD j Point3.origin).toVec - (cloud.getD i Point3.origin).toVec =
      (αj - αi) • u := by
    funext c
    have a := congrFun ei c
    have b := congrFun ej c
    simp only [Pi.smul_apply, smul_eq_mul, Pi.sub_apply] at a b ⊢
    linear_combination b - a
  have e2 : (cloud.getD k Point3.origin).toVec - (cloud.getD i Point3.origin).toVec =
      (αk - αi) • u := by
    funext c
    have a := congrFun ei c
    have b := congrFun ek c
    simp only [Pi.smul_apply, smul_eq_mul, Pi.sub_apply] at a b ⊢
    linear_combination b - a
  rw [e1, e2]
  simp [cross_self]

/-- C21. Closed-form fit round trip.  For every list of selected source points
that are not all on one line (in particular for `k ≥ 4` such points), every
rotation `R` (orthogonal, determinant 1) and every translation `t`: if each
target point equals `R * source + t` with zero noise, and the decomposition
handed back for the correlation matrix is a singular value decomposition,
then the 16 coefficients that `estimateRigidTransformationSVD` (and so
`optimizeModelCoefficients`) returns are exactly the rows `[R | t]` followed by
`0, 0, 0, 1`. -/
theorem fit_round_trip (svd : Matrix3 F → Matrix3 F × Matrix3 F)
    (cloud_src cloud_tgt : List (Point3 F)) (indices : List Nat)
    (R : Matrix3 F) (t : Fin 3 → F)
    (hR : R.transpose * R = 1) (hdet : R.det = 1)
    (hnc : NonCollinear cloud_src indices)
    (htgt : ∀ i ∈ indices, (cloud_tgt.getD i Point3.origin).toVec =
      R.mulVec (cloud_src.getD i Point3.origin).toVec + t)
    (hsvd : IsSVD
      (correlationMatrix
        (demeanPointCloud cloud_src indices (compute3DCentroid cloud_src indices))
        (demeanPointCloud cloud_tgt indices (compute3DCentroid cloud_tgt indices)))
      (svd (correlationMatrix
        (demeanPointCloud cloud_src indices (compute3DCentroid cloud_src indices))
        (demeanPointCloud cloud_tgt indices (compute3DCentroid cloud_tgt indices)))).1
      (svd (correlationMatrix
        (demeanPointCloud cloud_src indices (compute3DCentroid cloud_src indices))
        (demeanPointCloud cloud_tgt indices (compute3DCentroid cloud_tgt indices)))).2) :
    estimateRigidTransformationSVD svd cloud_src indices cloud_tgt indices =
      [R 0 0, R 0 1, R 0 2, t 0,
       R 1 0, R 1 1, R 1 2, t 1,
       R 2 0, R 2 1, R 2 2, t 2,
       0, 0, 0, 1] ∧
    ∀ model_coefficients : List F,
      optimizeModelCoefficients svd cloud_src cloud_tgt indices model_coefficients =
        [R 0 0, R 0 1, R 0 2, t 0,
         R 1 0, R 1 1, R 1 2, t 1,
         R 2 0, R 2 1, R 2 2, t 2,
         0, 0, 0, 1] := by
  have hne : indices ≠ [] := by
    obtain ⟨i, hi, -⟩ := hnc
    exact List.ne_nil_of_mem hi
  obtain ⟨hU, hV, σ, s01, s12, s2, hH⟩ := hsvd
  have hP : correlationMatrix
      (demeanPointCloud cloud_src indices (compute3DCentroid cloud_src indices))
      (demeanPointCloud cloud_tgt indices (compute3DCentroid cloud_tgt indices)) =
      correlationMatrix
        (demeanPointCloud cloud_src indices (compute3DCentroid cloud_src indices))
        (demeanPointCloud cloud_src indices (compute3DCentroid cloud_src indices)) *
      R.transpose := by
    rw [demean_transform R t cloud_src cloud_tgt indices hne htgt,
      correlationMatrix_map_mulVec]
  have hHP := hH.symm.trans hP
  have h1 := second_singular_value_pos _ _ R _ σ hU hR hHP s12 s2
    (nonCollinear_not_line cloud_src indices _ hnc)
  have hrot := rotationFromSVD_recovers _ _ R _ σ hU hV hR hdet
    (correlationMatrix_self_transpose _)
    (fun N i => sandwich_correlationMatrix_nonneg N i _) hHP
    (lt_of_lt_of_le h1 s01) h1
  have hfit : estimateRigidTransformationSVD svd cloud_src indices cloud_tgt indices =
      [R 0 0, R 0 1, R 0 2, t 0,
       R 1 0, R 1 1, R 1 2, t 1,
       R 2 0, R 2 1, R 2 2, t 2,
       0, 0, 0, 1] := by
    simp only [estimateRigidTransformationSVD]
    rw [hrot, centroid_transform R t cloud_src cloud_tgt indices hne htgt]
    simp
  exact ⟨hfit, fun _ => hfit⟩

end RoundTrip

theorem exampleQuarterTurn_orthogonal : exampleQuarterTurn.transpose * exampleQuarterTurn = 1 := by
  ext i j
  simp only [Matrix.mul_apply, Matrix.transpose_apply, Fin.sum_univ_three]
  fin_cases i <;> fin_cases j <;> simp [exampleQuarterTurn]

theorem exampleSquare_correlation :
    correlationMatrix
      (demeanPointCloud exampleSquare [0, 1, 2, 3] (compute3DCentroid exampleSquare [0, 1, 2, 3]))
      (demeanPointCloud exampleSquareMoved [0, 1, 2, 3]
        (compute3DCentroid exampleSquareMoved [0, 1, 2, 3])) =
    1 * Matrix.diagonal ![2, 2, 0] * exampleQuarterTurn.transpose := by
  ext i j
  rw [Matrix.one_mul, Matrix.diagonal_mul, Matrix.transpose_apply]
  fin_cases i <;> fin_cases j <;>
    simp [correlationMatrix, demeanPointCloud, compute3DCentroid, exampleSquare,
      exampleSquareMoved, exampleQuarterTurn, Point3.toVec] <;> norm_num

theorem exampleSquare_moved : ∀ i ∈ [0, 1, 2, 3],
    (exampleSquareMoved.getD i Point3.origin).toVec =
      exampleQuarterTurn.mulVec (exampleSquare.getD i Point3.origin).toVec + ![1, 2, 3] := by
  intro i hi
  simp only [List.mem_cons, List.mem_singleton, List.not_mem_nil, or_false] at hi
  rcases hi with rfl | rfl | rfl | rfl <;>
    · funext k
      rw [Pi.add_apply, mulVec_three]
      fin_cases k <;>
        simp [exampleSquare, exampleSquareMoved, exampleQuarterTurn, Point3.toVec] <;> norm_num

theorem exampleSquare_nonCollinear : NonCollinear exampleSquare [0, 1, 2, 3] := by
  refine ⟨0, by simp, 1, by simp, 2, by simp, ?_⟩
  intro h
  have := congrFun h 2
  simp [exampleSquare, Point3.toVec, cross_apply] at this
  norm_num at this

theorem fit_round_trip_witness :
    estimateRigidTransformationSVD exampleSquareSVD exampleSquare [0, 1, 2, 3]
      exampleSquareMoved [0, 1, 2, 3] = [0, -1, 0, 1, 1, 0, 0, 2, 0, 0, 1, 3, 0, 0, 0, 1] := by
  have h := (fit_round_trip exampleSquareSVD exampleSquare exampleSquareMoved [0, 1, 2, 3]
    exampleQuarterTurn ![1, 2, 3] exampleQuarterTurn_orthogonal
    (by simp [exampleQuarterTurn, Matrix.det_fin_three])
    exampleSquare_nonCollinear exampleSquare_moved
    ⟨by simp [exampleSquareSVD], exampleQuarterTurn_orthogonal, ![2, 2, 0], by simp, by simp,
      by simp, exampleSquare_correlation⟩).1
  simpa [exampleQuarterTurn] using h

/-! ## What the identifier scan can remove -/

theorem headD_mem_or (l : List Nat) (d : Nat) : l.headD d ∈ l ∨ l.headD d = d := by
  cases l with
  | nil => right; rfl
  | cons a t => left; simp

/-- Whatever the scan of `InvalidateQueryIndices` adds to `indices_to_remove` has an
identifier that is in the identifier list or equals the value read past its end. -/
theorem scanQueryIndices_removed (qi : List Nat) (past_end : Nat) :
    ∀ (valid iter acc : List Nat) (x : Nat),
      x ∈ scanQueryIndices qi past_end valid iter acc →
        x ∈ acc ∨ qi.getD x 0 ∈ iter ∨ qi.getD x 0 = past_end := by
  intro valid
  induction valid with
  | nil => intro iter acc x hx; left; simpa [scanQueryIndices] using hx
  | cons v rest ih =>
    intro iter acc x hx
    unfold scanQueryIndices at hx
    dsimp only at hx
    have hdrop : ∀ y, y ∈ iter.dropWhile (fun z => decide (qi.getD v 0 > z)) → y ∈ iter :=
      fun y hy => (List.dropWhile_sublist _).subset hy
    split_ifs at hx with h1 h2 h3
    · exact ih _ _ x hx
    · rcases ih _ _ x hx with h | h | h
      · rcases List.mem_append.mp h with h | h
        · exact Or.inl h
        · rw [List.mem_singleton] at h
          rw [h, h2]
          rcases headD_mem_or (iter.dropWhile (fun z => decide (qi.getD v 0 > z))) past_end
            with hm | hm
          · exact Or.inr (Or.inl (hdrop _ hm))
          · exact Or.inr (Or.inr hm)
      · exact Or.inr (Or.inl (hdrop _ h))
      · exact Or.inr (Or.inr h)
    · exact Or.inl hx
    · rcases ih _ _ x hx with h | h | h
      · exact Or.inl h
      · exact Or.inr (Or.inl (hdrop _ h))
      · exact Or.inr (Or.inr h)

/-- Apart from the value read past the end of the list, `InvalidateQueryIndices`
removes only indices whose identifier is in the list. -/
theorem InvalidateQueryIndices_frame {F : Type} [LinearOrderedField F]
    (query_indices : List Nat) (past_end : Nat) (s : AdjacencyRansac F)
    (hs : s.valid_indices_.Sorted (· < ·)) (x : Nat) (hx : x ∈ s.valid_indices_)
    (hid : s.query_indices_.getD x 0 ∉ query_indices)
    (hpe : s.query_indices_.getD x 0 ≠ past_end) :
    x ∈ (InvalidateQueryIndices query_indices past_end s).valid_indices_ := by
  unfold InvalidateQueryIndices
  split_ifs with h
  · exact hx
  · rw [mem_InvalidateIndices_valid _ _ _ hs]
    refine ⟨hx, fun hrem => ?_⟩
    rcases scanQueryIndices_removed _ _ _ _ _ _ hrem with h1 | h1 | h1
    · simp at h1
    · exact hid (mem_sort_unique.mp h1)
    · exact hpe h1

/-! ## The stored pose (C31) -/

section PoseClaims

variable {F : Type} [LinearOrderedField F]

theorem transformRow_eq_mulVec (coefficients : List F) (x : Fin 3 → F) :
    (![transformRow coefficients 0 ⟨x 0, x 1, x 2⟩, transformRow coefficients 1 ⟨x 0, x 1, x 2⟩,
        transformRow coefficients 2 ⟨x 0, x 1, x 2⟩] : Fin 3 → F) =
      (coefficientsRotation coefficients).mulVec x + coefficientsTranslation coefficients := by
  funext k
  fin_cases k <;>
    simp [transformRow, coefficientsRotation, coefficientsTranslation, Matrix.mulVec,
      Matrix.dotProduct, Fin.sum_univ_three]

/-- C31. The emitted pose is the inverse of the fitted transform.  For every
coefficient vector whose rotation block `R` is orthogonal, with translation
`t`, the pose that `process` stores has rotation `R.transpose` and translation
`-R.transpose * t`, and applying it after the fitted transform gives back every
point `x`: `R' * (R * x + t) + t' = x`. -/
theorem pose_result_inverts (coefficients : List F)
    (hR : (coefficientsRotation coefficients).transpose * coefficientsRotation coefficients = 1)
    (x : Fin 3 → F) :
    (pose_result coefficients).R = (coefficientsRotation coefficients).transpose ∧
    (pose_result coefficients).T =
      -((coefficientsRotation coefficients).transpose.mulVec
        (coefficientsTranslation coefficients)) ∧
    (pose_result coefficients).R.mulVec
        ((coefficientsRotation coefficients).mulVec x + coefficientsTranslation coefficients)
      + (pose_result coefficients).T = x ∧
    (pose_result coefficients).R.mulVec
        ![transformRow coefficients 0 ⟨x 0, x 1, x 2⟩, transformRow coefficients 1 ⟨x 0, x 1, x 2⟩,
          transformRow coefficients 2 ⟨x 0, x 1, x 2⟩]
      + (pose_result coefficients).T = x := by
  have hT : (pose_result coefficients).T =
      -((coefficientsRotation coefficients).transpose.mulVec
        (coefficientsTranslation coefficients)) := by
    simp only [pose_result, Matrix.neg_mulVec]
  have hinv : (pose_result coefficients).R.mulVec
        ((coefficientsRotation coefficients).mulVec x + coefficientsTranslation coefficients)
      + (pose_result coefficients).T = x := by
    rw [hT]
    simp only [pose_result, Matrix.mulVec_add, Matrix.mulVec_mulVec, hR, Matrix.one_mulVec]
    abel
  refine ⟨rfl, hT, hinv, ?_⟩
  rw [transformRow_eq_mulVec]
  exact hinv

end PoseClaims

theorem exampleCoefficients_orthogonal :
    (coefficientsRotation exampleCoefficients).transpose * coefficientsRotation exampleCoefficients
      = 1 := by
  ext i j
  simp only [Matrix.mul_apply, Matrix.transpose_apply, Fin.sum_univ_three]
  fin_cases i <;> fin_cases j <;> simp [coefficientsRotation, exampleCoefficients]

theorem pose_result_inverts_witness :
    (pose_result exampleCoefficients).R.mulVec
        ((coefficientsRotation exampleCoefficients).mulVec ![5, 7, 11]
          + coefficientsTranslation exampleCoefficients)
      + (pose_result exampleCoefficients).T = ![5, 7, 11] :=
  (pose_result_inverts exampleCoefficients exampleCoefficients_orthogonal ![5, 7, 11]).2.2.1

/-! ## The sample and its inliers (C32) -/

theorem candidateInliers_none_of_missing (model : SampleConsensusModelRegistrationGraph)
    (possible_inliers : List Nat) (h : ∃ s ∈ model.samples_, s ∉ possible_inliers) :
    candidateInliers model possible_inliers = none := by
  unfold candidateInliers
  rw [if_neg]
  intro hall
  obtain ⟨s, hs, hns⟩ := h
  have := List.all_eq_true.mp hall s hs
  exact hns (of_decide_eq_true this)

theorem candidateInliers_some_of_all (model : SampleConsensusModelRegistrationGraph)
    (possible_inliers : List Nat) (h : ∀ s ∈ model.samples_, s ∈ possible_inliers) :
    candidateInliers model possible_inliers = some (possible_inliers.filter
      (fun inlier => inlierIsGood model.physical_adjacency_ inlier model.samples_)) := by
  unfold candidateInliers
  rw [if_pos]
  exact List.all_eq_true.mpr (fun s hs => decide_eq_true (h s hs))

theorem candidateInliers_all_of_some (model : SampleConsensusModelRegistrationGraph)
    (possible_inliers c : List Nat) (h : candidateInliers model possible_inliers = some c) :
    (∀ s ∈ model.samples_, s ∈ possible_inliers) ∧
    c = possible_inliers.filter
      (fun inlier => inlierIsGood model.physical_adjacency_ inlier model.samples_) := by
  by_cases hall : ∀ s ∈ model.samples_, s ∈ possible_inliers
  · rw [candidateInliers_some_of_all model possible_inliers hall] at h
    exact ⟨hall, (Option.some.inj h).symm⟩
  · rw [candidateInliers_none_of_missing model possible_inliers (by push_neg at hall; exact hall)]
      at h
    cases h

theorem selectWithinDistance_in_inliers (FindClique : Graph → Nat → List Nat)
    (model : SampleConsensusModelRegistrationGraph) (possible_inliers : List Nat) :
    (selectWithinDistance FindClique model possible_inliers).in_inliers = [] ∨
    candidateInliers model possible_inliers =
      some (selectWithinDistance FindClique model possible_inliers).in_inliers := by
  unfold selectWithinDistance
  cases hc : candidateInliers model possible_inliers with
  | none => exact Or.inl rfl
  | some c =>
    dsimp only
    split_ifs
    · exact Or.inr rfl
    · exact Or.inl rfl
    · exact Or.inr rfl

/-- C32. The sample belongs to its own inliers.  `selectWithinDistance` returns
the empty set whenever some member of the stored sample fails the distance
test; when the sample members are pairwise physically adjacent and all pass
the distance test, every sample member is in the candidate inlier set; so,
for such a sample, every non-empty result contains the whole sample. -/
theorem sample_in_own_inliers (FindClique : Graph → Nat → List Nat)
    (model : SampleConsensusModelRegistrationGraph) (possible_inliers : List Nat) :
    ((∃ s ∈ model.samples_, s ∉ possible_inliers) →
      (selectWithinDistance FindClique model possible_inliers).in_inliers = []) ∧
    ((∀ a ∈ model.samples_, ∀ b ∈ model.samples_, a ≠ b →
        model.physical_adjacency_.test a b = true) →
      ((∀ s ∈ model.samples_, s ∈ possible_inliers) →
        ∃ c, candidateInliers model possible_inliers = some c ∧ ∀ s ∈ model.samples_, s ∈ c) ∧
      ((selectWithinDistance FindClique model possible_inliers).in_inliers ≠ [] →
        ∀ s ∈ model.samples_,
          s ∈ (selectWithinDistance FindClique model possible_inliers).in_inliers)) := by
  have hgood : (∀ a ∈ model.samples_, ∀ b ∈ model.samples_, a ≠ b →
      model.physical_adjacency_.test a b = true) →
      (∀ s ∈ model.samples_, s ∈ possible_inliers) →
      ∀ s ∈ model.samples_, s ∈ possible_inliers.filter
        (fun inlier => inlierIsGood model.physical_adjacency_ inlier model.samples_) := by
    intro hadj hall s hs
    rw [List.mem_filter]
    refine ⟨hall s hs, ?_⟩
    have hA : s ∈ model.samples_ → ∀ b ∈ model.samples_, b ≠ s →
        model.physical_adjacency_.test s b = true :=
      fun _ b hb hne => hadj s hs b hb (Ne.symm hne)
    exact (inlierIsGood_iff model.physical_adjacency_ s model.samples_ hA).mpr (hA hs)
  refine ⟨?_, fun hadj => ⟨?_, ?_⟩⟩
  · intro h
    unfold selectWithinDistance
    rw [candidateInliers_none_of_missing model possible_inliers h]
  · intro hall
    exact ⟨_, candidateInliers_some_of_all model possible_inliers hall, hgood hadj hall⟩
  · intro hne s hs
    rcases selectWithinDistance_in_inliers FindClique model possible_inliers with h | h
    · exact absurd h hne
    · obtain ⟨hall, hc⟩ := candidateInliers_all_of_some model possible_inliers _ h
      rw [hc]
      exact hgood hadj hall s hs

theorem sample_in_own_inliers_witness :
    exampleModel3.samples_ ⊆
      (selectWithinDistance (fun _ _ => []) { exampleModel3 with best_inlier_number_ := 5 }
        [0, 1, 2]).in_inliers :=
  fun s hs => ((sample_in_own_inliers (fun _ _ => [])
    { exampleModel3 with best_inlier_number_ := 5 } [0, 1, 2]).2 (by decide)).2 (by decide) s hs

/-! ## Bookkeeping of `best_inlier_number_` (C33) -/

theorem selectWithinDistance_best (FindClique : Graph → Nat → List Nat)
    (model : SampleConsensusModelRegistrationGraph) (possible_inliers : List Nat) :
    (selectWithinDistance FindClique model possible_inliers).model =
      { model with
        best_inlier_number_ :=
          (max (selectWithinDistance FindClique model possible_inliers).in_inliers.length
            model.best_inlier_number_) } := by
  unfold selectWithinDistance
  cases hc : candidateInliers model possible_inliers with
  | none => simp
  | some c =>
    dsimp only
    split_ifs with h1 h2
    · simp [max_eq_right (le_of_lt h1)]
    · simp
    · rfl

theorem selectWithinDistance_best_le (FindClique : Graph → Nat → List Nat)
    (model : SampleConsensusModelRegistrationGraph) (possible_inliers : List Nat) :
    model.best_inlier_number_ ≤
      (selectWithinDistance FindClique model possible_inliers).model.best_inlier_number_ := by
  rw [selectWithinDistance_best]
  exact le_max_right _ _

theorem foldl_selectWithinDistance_best_le (FindClique : Graph → Nat → List Nat) :
    ∀ (calls : List (List Nat)) (model : SampleConsensusModelRegistrationGraph),
      model.best_inlier_number_ ≤
        (calls.foldl (fun m possible_inliers =>
          (selectWithinDistance FindClique m possible_inliers).model)
          model).best_inlier_number_ := by
  intro calls
  induction calls with
  | nil => intro model; exact le_refl _
  | cons p t ih =>
    intro model
    rw [List.foldl_cons]
    exact le_trans (selectWithinDistance_best_le FindClique model p) (ih _)

/-- C33. Best-inlier-count bookkeeping.  In every call of `selectWithinDistance`
only `best_inlier_number_` can change, and it becomes the maximum of its old
value and the size of the returned set, so it never decreases.  It is
unchanged by a call that returns early (a sample member fails the distance
test, or the candidate set is smaller than the best so far) or whose
candidate set the clique search rejects; in a call whose candidate set passes
clique validation the candidate set is returned and `best_inlier_number_`
becomes the maximum of its old value and the size of that set.  Across any
sequence of calls on one model it never decreases.  A newly constructed model
starts at 0. -/
theorem best_inlier_number_bookkeeping (FindClique : Graph → Nat → List Nat)
    (model : SampleConsensusModelRegistrationGraph) (possible_inliers : List Nat)
    (before after : List (List Nat)) (indices : List Nat)
    (physical_adjacency sample_adjacency : AdjacencyMatrix) :
    (selectWithinDistance FindClique model possible_inliers).model =
      { model with
        best_inlier_number_ :=
          (max (selectWithinDistance FindClique model possible_inliers).in_inliers.length
            model.best_inlier_number_) } ∧
    model.best_inlier_number_ ≤
      (selectWithinDistance FindClique model possible_inliers).model.best_inlier_number_ ∧
    (candidateInliers model possible_inliers = none →
      (selectWithinDistance FindClique model possible_inliers).model = model) ∧
    (∀ c, candidateInliers model possible_inliers = some c →
      (c.length < model.best_inlier_number_ →
        (selectWithinDistance FindClique model possible_inliers).model = model) ∧
      ((FindClique (inlierGraph model.sample_adjacency_ c) 8).length < 8 →
        (selectWithinDistance FindClique model possible_inliers).model = model) ∧
      (¬ c.length < model.best_inlier_number_ →
        ¬ (FindClique (inlierGraph model.sample_adjacency_ c) 8).length < 8 →
        (selectWithinDistance FindClique model possible_inliers).in_inliers = c ∧
        (selectWithinDistance FindClique model possible_inliers).model.best_inlier_number_ =
          max c.length model.best_inlier_number_)) ∧
    (before.foldl (fun m p => (selectWithinDistance FindClique m p).model)
        model).best_inlier_number_ ≤
      ((before ++ after).foldl (fun m p => (selectWithinDistance FindClique m p).model)
        model).best_inlier_number_ ∧
    (SampleConsensusModelRegistrationGraph.construct indices physical_adjacency
      sample_adjacency).best_inlier_number_ = 0 := by
  refine ⟨selectWithinDistance_best FindClique model possible_inliers,
    selectWithinDistance_best_le FindClique model possible_inliers, ?_, ?_, ?_, ?_⟩
  · intro hc
    unfold selectWithinDistance
    rw [hc]
  · intro c hc
    refine ⟨?_, ?_, ?_⟩
    · intro h
      unfold selectWithinDistance
      rw [hc]
      dsimp only
      rw [if_pos h]
    · intro h
      unfold selectWithinDistance
      rw [hc]
      dsimp only
      split_ifs <;> rfl
    · intro h1 h2
      unfold selectWithinDistance
      rw [hc]
      dsimp only
      rw [if_neg h1, if_neg h2]
      exact ⟨rfl, rfl⟩
  · rw [List.foldl_append]
    exact foldl_selectWithinDistance_best_le FindClique after _
  · unfold SampleConsensusModelRegistrationGraph.construct BuildNeighbors
    dsimp only
    split_ifs <;> rfl

theorem best_inlier_number_bookkeeping_witness :
    (selectWithinDistance (fun _ _ => []) exampleModel3 [0, 1, 2]).model = exampleModel3 :=
  ((best_inlier_number_bookkeeping (fun _ _ => []) exampleModel3 [0, 1, 2] [] [] []
    ⟨[]⟩ ⟨[]⟩).2.2.2.1 [0, 1] (by decide)).2.1 (by decide)

/-! ## Clique validation and the best inlier count (C7) -/

theorem exampleModel8_fields :
    exampleModel8.physical_adjacency_ = exampleClique8 ∧
    exampleModel8.sample_adjacency_ = exampleClique8 ∧
    exampleModel8.best_inlier_number_ = 0 ∧ exampleModel8.samples_ = [] := by
  unfold exampleModel8 SampleConsensusModelRegistrationGraph.construct BuildNeighbors
  dsimp only
  split_ifs <;> exact ⟨rfl, rfl, rfl, rfl⟩

theorem exampleModel8_first_call :
    (selectWithinDistance exampleFindClique exampleModel8 [0, 1, 2, 3, 4, 5, 6, 7]).in_inliers =
      [0, 1, 2, 3, 4, 5, 6, 7] ∧
    (selectWithinDistance exampleFindClique exampleModel8
      [0, 1, 2, 3, 4, 5, 6, 7]).model.best_inlier_number_ = 8 := by
  obtain ⟨h1, h2, h3, h4⟩ := exampleModel8_fields
  have hc : candidateInliers exampleModel8 [0, 1, 2, 3, 4, 5, 6, 7] =
      some [0, 1, 2, 3, 4, 5, 6, 7] := by
    unfold candidateInliers
    rw [h4]
    rfl
  have hg : (exampleFindClique (inlierGraph exampleModel8.sample_adjacency_
      [0, 1, 2, 3, 4, 5, 6, 7]) 8).length = 8 := by
    rw [h2]
    decide
  unfold selectWithinDistance
  rw [hc]
  dsimp only
  rw [h3, hg]
  exact ⟨rfl, rfl⟩

theorem exampleModel8_second_model :
    (selectWithinDistance exampleFindClique exampleModel8
      [0, 1, 2, 3, 4, 5, 6, 7]).model.sample_adjacency_ = exampleClique8 ∧
    (selectWithinDistance exampleFindClique exampleModel8
      [0, 1, 2, 3, 4, 5, 6, 7]).model.samples_ = [] := by
  rw [selectWithinDistance_best]
  exact ⟨exampleModel8_fields.2.1, exampleModel8_fields.2.2.2⟩

/-- C7, as stated, fails when the candidate set is smaller than the best inlier
count so far.  On the model built by the constructor for eight pairwise
adjacent indices, a first call with all eight within the threshold passes
clique validation and sets `best_inlier_number_` to 8; a second call with the
single candidate 0 returns that candidate, although the clique search finds no
clique of 8 vertices in its subgraph. -/
theorem selectWithinDistance_below_best_counterexample :
    (selectWithinDistance exampleFindClique exampleModel8
      [0, 1, 2, 3, 4, 5, 6, 7]).model.best_inlier_number_ = 8 ∧
    candidateInliers (selectWithinDistance exampleFindClique exampleModel8
      [0, 1, 2, 3, 4, 5, 6, 7]).model [0] = some [0] ∧
    (exampleFindClique (inlierGraph (selectWithinDistance exampleFindClique exampleModel8
      [0, 1, 2, 3, 4, 5, 6, 7]).model.sample_adjacency_ [0]) 8).length < 8 ∧
    (selectWithinDistance exampleFindClique (selectWithinDistance exampleFindClique exampleModel8
      [0, 1, 2, 3, 4, 5, 6, 7]).model [0]).in_inliers = [0] := by
  obtain ⟨hs, hsm⟩ := exampleModel8_second_model
  have hb := exampleModel8_first_call.2
  have hc : candidateInliers (selectWithinDistance exampleFindClique exampleModel8
      [0, 1, 2, 3, 4, 5, 6, 7]).model [0] = some [0] := by
    unfold candidateInliers
    rw [hsm]
    rfl
  refine ⟨hb, hc, ?_, ?_⟩
  · rw [hs]
    decide
  · generalize (selectWithinDistance exampleFindClique exampleModel8
      [0, 1, 2, 3, 4, 5, 6, 7]).model = m at hb hc
    unfold selectWithinDistance
    rw [hc]
    dsimp only
    rw [hb]
    rfl

/-- C7 (amended). Clique validation rejects a candidate set that could beat the
best so far.  For every call of `selectWithinDistance` with candidate inlier
set `c`: if `c` is not smaller than the best inlier count seen so far and the
clique search returns fewer than 8 vertices for the sample-adjacency subgraph
restricted to `c`, the returned inlier set is empty and `best_inlier_number_`
is unchanged; if `c` is smaller than the best inlier count so far, `c` is
returned as it is, whatever the clique search would answer, and
`best_inlier_number_` is unchanged. -/
theorem selectWithinDistance_rejects (FindClique : Graph → Nat → List Nat)
    (model : SampleConsensusModelRegistrationGraph) (possible_inliers c : List Nat)
    (hc : candidateInliers model possible_inliers = some c) :
    (model.best_inlier_number_ ≤ c.length →
      (FindClique (inlierGraph model.sample_adjacency_ c) 8).length < 8 →
      (selectWithinDistance FindClique model possible_inliers).in_inliers = [] ∧
      (selectWithinDistance FindClique model possible_inliers).model = model) ∧
    (c.length < model.best_inlier_number_ →
      ∀ FindClique' : Graph → Nat → List Nat,
        (selectWithinDistance FindClique' model possible_inliers).in_inliers = c ∧
        (selectWithinDistance FindClique' model possible_inliers).model = model) := by
  constructor
  · intro hbest hnone
    unfold selectWithinDistance
    rw [hc]
    dsimp only
    rw [if_neg (Nat.not_lt.mpr hbest), if_pos hnone]
    exact ⟨rfl, rfl⟩
  · intro hlt FindClique'
    unfold selectWithinDistance
    rw [hc]
    dsimp only
    rw [if_pos hlt]
    exact ⟨rfl, rfl⟩

/-- Witness for C7 (amended): on the newly constructed model, two candidates and
a search that finds nothing. -/
theorem selectWithinDistance_rejects_witness :
    (selectWithinDistance (fun _ _ => []) exampleModel8 [0, 1]).in_inliers = [] ∧
    (selectWithinDistance (fun _ _ => []) exampleModel8 [0, 1]).model = exampleModel8 :=
  (selectWithinDistance_rejects (fun _ _ => []) exampleModel8 [0, 1] [0, 1]
    (by
      unfold candidateInliers
      rw [exampleModel8_fields.2.2.2]
      rfl)).1
    (by rw [exampleModel8_fields.2.2.1]; exact Nat.zero_le _) (by decide)

end tod
